import Mathlib

/-!
The rserve client pipeline of gorp.

A shallow embedding of `rserve/datapoint.go` and `rserve/rserve.go`.

* Go strings and byte slices holding text are `String`; `[]byte` payloads are
  `List UInt8`.
* A Go `error` is `Option String`: `none` is `nil`, `some msg` carries the text
  of `err.Error()`.  `fmt.Errorf("ctx: %v", err)` is `"ctx: " ++ msg`.
* A Go function returning `(T, error)` returns a pair; nothing is thrown away.
* `int` and `int64` are `Int`; a conversion that can leave the 64-bit range is
  written out explicitly.
* `float64` is `Float64`, the IEEE-754 binary64 values.
* Everything outside the repository (file system, csv writer, `sort.Sort`, the
  rserve connection, `encoding/json` on the generic reply) is a field of `Env`,
  a state machine over a world state.
-/

namespace Gorp

/-! ## Numbers -/

/-- The values of a Go `float64`: `finite neg m e` is `(-1)^neg * m * 2^e`. -/
inductive Float64 where
  | finite (neg : Bool) (m : Nat) (e : Int)
  | inf (neg : Bool)
  | nan
  deriving DecidableEq, Repr

/-- Smallest `int64`. -/
def minInt64 : Int := -9223372036854775808

/-- Largest `int64`. -/
def maxInt64 : Int := 9223372036854775807

/-- The magnitude `m * 2^e` with the fractional part dropped. -/
def truncMag (m : Nat) (e : Int) : Nat :=
  if 0 ≤ e then m * 2 ^ e.toNat else m / 2 ^ (-e).toNat

/-- The real value of a finite float rounded toward zero. -/
def truncFinite (neg : Bool) (m : Nat) (e : Int) : Int :=
  if neg then -(truncMag m e : Int) else (truncMag m e : Int)

/-- Go conversion `int64(f)` of a `float64`: the fractional part is discarded.
When the truncated value does not fit an `int64` (or `f` is NaN or infinite) the
Go specification leaves the result to the implementation; amd64 yields the
"integer indefinite" value `-2^63`, which is what is modelled here. -/
def Float64.toInt64 : Float64 → Int
  | .finite neg m e =>
    let t := truncFinite neg m e
    if minInt64 ≤ t ∧ t ≤ maxInt64 then t else minInt64
  | .inf _ => minInt64
  | .nan => minInt64

/-! ## Data model (`datapoint.go`, `rserve.go`) -/

/-- Go `type Datapoint struct` with fields `Timestamp int64` and `Value float64`. -/
structure Datapoint where
  Timestamp : Int
  Value : Float64
  deriving DecidableEq, Repr

/-- Go `type Result struct` of `rserve.go`.  The default value is Go's zero value
(`var res Result`). -/
structure Result where
  Anomalies : List Datapoint := []
  PngData : List UInt8 := []
  Method : String := ""
  deriving DecidableEq, Repr

/-- The inner struct `Anoms` of `vecResponse`. -/
structure VecAnoms where
  Index : List Int
  Anoms : List Float64
  deriving DecidableEq, Repr

/-- Go `type vecResponse struct`. -/
structure vecResponse where
  Anoms : VecAnoms
  Data : List UInt8
  deriving DecidableEq, Repr

/-- The inner struct `Anoms` of `tsResponse`. -/
structure TsAnoms where
  Anoms : List Float64
  Timestamp : List Float64
  deriving DecidableEq, Repr

/-- Go `type tsResponse struct`. -/
structure tsResponse where
  Anoms : TsAnoms
  Data : List UInt8
  deriving DecidableEq, Repr

/-- The zero `float64`, the content of a freshly made slice element. -/
def Float64.zero : Float64 := .finite false 0 (-1074)

/-- The verb `%d` of `fmt` applied to a slice length. -/
def fmtD (n : Nat) : String := toString n

/-! ## Response normalisation (`rserve.go`) -/

/-- Function `formatResponseVec`: the loop `for i, idx := range ra.Index` writes
`Datapoint{int64(idx), ra.Anoms[i]}` at position `i`; `int` to `int64` keeps the
value. -/
def formatResponseVec (response : vecResponse) : Result × Option String :=
  let res : Result := {}
  let ra := response.Anoms
  if ra.Index.length ≠ ra.Anoms.length then
    (res, some ("non-equal number of indices and anomalies (" ++
      fmtD ra.Index.length ++ " != " ++ fmtD ra.Anoms.length ++ ")"))
  else
    let anoms := ra.Index.enum.map
      (fun p => ({ Timestamp := p.2, Value := ra.Anoms.getD p.1 Float64.zero } : Datapoint))
    ({ res with PngData := response.Data, Anomalies := anoms, Method := "vec" }, none)

/-- Function `formatResponseTs`: the loop `for i, tsf := range ra.Timestamp` writes
`Datapoint{int64(tsf), ra.Anoms[i]}` at position `i`. -/
def formatResponseTs (response : tsResponse) : Result × Option String :=
  let res : Result := {}
  let ra := response.Anoms
  if ra.Anoms.length ≠ ra.Timestamp.length then
    (res, some ("non-equal number of anomalies and timestamps (" ++
      fmtD ra.Anoms.length ++ " != " ++ fmtD ra.Timestamp.length ++ ")"))
  else
    let anoms := ra.Timestamp.enum.map
      (fun p => ({ Timestamp := p.2.toInt64, Value := ra.Anoms.getD p.1 Float64.zero } : Datapoint))
    ({ res with PngData := response.Data, Anomalies := anoms, Method := "ts" }, none)

/-- Function `rCmdString`: the R call for a method and a file name. -/
def rCmdString (method args : String) : String × Option String :=
  if method = "ts" then ("processAnomsTs(\"" ++ args ++ "\")", none)
  else if method = "vec" then ("processAnomsVec(\"" ++ args ++ "\")", none)
  else ("", some "method must be 'ts' or 'vec'")

/-! ## The world outside the repository -/

/-- Everything the pipeline calls that is not code of the repository, as a state
machine over a world state `σ`.  `ω` are open writers (an `*os.File`, a
`*bytes.Buffer`), `κ` the state of a `*csv.Writer`, `ρ` the generic value
(`interface{}`) an evaluation returns. -/
structure Env (σ ω κ ρ : Type) where
  /-- Library `sort.Sort` on a `datapoints` value: the slice contents afterwards. -/
  sortSort : List Datapoint → List Datapoint
  /-- Library `ioutil.TempFile("", "gorp-")`. -/
  TempFile : σ → Except String ω × σ
  /-- Method `(*os.File).Name`. -/
  Name : ω → String
  /-- Method `(*os.File).Close`. -/
  Close : ω → σ → σ
  /-- Library `csv.NewWriter`. -/
  NewWriter : ω → κ
  /-- Method `(*csv.Writer).Write`: one record. -/
  Write : κ → List String → σ → (κ × Option String) × σ
  /-- Method `(*csv.Writer).Flush`. -/
  Flush : κ → σ → κ × σ
  /-- Rendering `time.Unix(ts, 0).Format("2006-01-02 15:04:05")` in the local zone. -/
  formatTime : Int → String
  /-- Rendering `strconv.FormatFloat(v, 'f', -1, 64)`. -/
  FormatFloat : Float64 → String
  /-- Method `roger.RClient.Eval`: run one command on the rserve connection. -/
  Eval : String → σ → Except String ρ × σ
  /-- Step `json.NewEncoder(buf).Encode(data)` on the generic reply. -/
  jsonEncode : ρ → Except String String
  /-- Step `json.NewDecoder(buf).Decode(&resp)` for a `vecResponse`. -/
  decodeVec : String → Except String vecResponse
  /-- Step `json.NewDecoder(buf).Decode(&resp)` for a `tsResponse`. -/
  decodeTs : String → Except String tsResponse

instance : Inhabited Datapoint := ⟨⟨0, Float64.zero⟩⟩

/-! ## Export (`datapoint.go`) -/

/-- Method `datapoints.Len`. -/
def datapoints.Len (dps : List Datapoint) : Nat := dps.length

/-- Method `datapoints.Less`. -/
def datapoints.Less (dps : List Datapoint) (i j : Nat) : Bool :=
  decide ((dps.getD i default).Timestamp < (dps.getD j default).Timestamp)

/-- Method `datapoints.Swap`. -/
def datapoints.Swap (dps : List Datapoint) (i j : Nat) : List Datapoint :=
  (dps.set i (dps.getD j default)).set j (dps.getD i default)

/-- The documented contract of `sort.Sort`: the elements are rearranged (the data
is only touched through `Swap`) so that they are in ascending order as
determined by `Less`.  Nothing is promised about equal elements. -/
def SortContract (sort : List Datapoint → List Datapoint) : Prop :=
  ∀ dps, (sort dps).Perm dps ∧
    ∀ i j, i < j → j < datapoints.Len (sort dps) → datapoints.Less (sort dps) j i = false

/-- The header record. -/
def csvHeader : List String := ["date", "value"]

/-- The record written for one datapoint in the loop of `writeCsv`. -/
def csvRow {σ ω κ ρ : Type} (env : Env σ ω κ ρ) (dp : Datapoint) : List String :=
  [env.formatTime dp.Timestamp, env.FormatFloat dp.Value]

/-- What `writeCsv` leaves behind. -/
structure CsvOut (σ κ : Type) where
  /-- The receiver's backing array after the call. -/
  dps : List Datapoint
  /-- The csv writer. -/
  cw : κ
  /-- The world. -/
  st : σ
  /-- The records handed to `cw.Write`, oldest first. -/
  records : List (List String)
  /-- The returned error. -/
  err : Option String

/-- The loop `for _, dp := range dps` of `writeCsv`: it returns at the first
record whose `cw.Write` reports an error. -/
def writeRows {σ ω κ ρ : Type} (env : Env σ ω κ ρ) :
    List Datapoint → κ → σ → List (List String) → κ × σ × List (List String) × Option String
  | [], cw, s, log => (cw, s, log, none)
  | dp :: rest, cw, s, log =>
    match env.Write cw (csvRow env dp) s with
    | ((cw1, some e), s1) => (cw1, s1, log ++ [csvRow env dp], some e)
    | ((cw1, none), s1) => writeRows env rest cw1 s1 (log ++ [csvRow env dp])

/-- Method `datapoints.writeCsv`: `sort.Sort(dps)` works on the receiver's
backing array; the error of the header write is dropped; `cw.Flush()` returns
nothing. -/
def writeCsv {σ ω κ ρ : Type} (env : Env σ ω κ ρ) (dps : List Datapoint) (w : ω) (s : σ) :
    CsvOut σ κ :=
  let sorted := env.sortSort dps
  let cw := env.NewWriter w
  let h := env.Write cw csvHeader s
  match writeRows env sorted h.1.1 h.2 [csvHeader] with
  | (cw2, s2, log, some e) => ⟨sorted, cw2, s2, log, some e⟩
  | (cw2, s2, log, none) =>
    let f := env.Flush cw2 s2
    ⟨sorted, f.1, f.2, log, none⟩

/-- What `writeTempCsv` leaves behind. -/
structure TempOut (σ : Type) where
  /-- The returned file name. -/
  fname : String
  /-- The returned error. -/
  err : Option String
  /-- The receiver's backing array after the call. -/
  dps : List Datapoint
  /-- The world. -/
  st : σ
  /-- The records handed to the csv writer. -/
  records : List (List String)

/-- Method `datapoints.writeTempCsv`. -/
def writeTempCsv {σ ω κ ρ : Type} (env : Env σ ω κ ρ) (dps : List Datapoint) (s : σ) :
    TempOut σ :=
  match env.TempFile s with
  | (.error e, s1) => ⟨"", some ("tempfile err: " ++ e), dps, s1, []⟩
  | (.ok tf, s1) =>
    let out := writeCsv env dps tf s1
    match out.err with
    | some e => ⟨"", some ("writeCsv err: " ++ e), out.dps, out.st, out.records⟩
    | none => ⟨env.Name tf, none, out.dps, env.Close tf out.st, out.records⟩

/-! ## Pipeline (`rserve.go`) -/

/-- What a call on the client leaves behind. -/
structure Run (σ : Type) where
  /-- The returned result. -/
  res : Result
  /-- The returned error. -/
  err : Option String
  /-- The world. -/
  st : σ
  /-- The commands handed to the rserve connection, oldest first. -/
  cmds : List String

/-- Method `client.eval`. -/
def eval {σ ω κ ρ : Type} (env : Env σ ω κ ρ) (command : String) (s : σ) :
    Except String ρ × σ :=
  match env.Eval command s with
  | (.error e, s1) => (.error ("r eval err: " ++ e), s1)
  | (.ok r, s1) => (.ok r, s1)

/-- Method `client.process`. -/
def process {σ ω κ ρ : Type} (env : Env σ ω κ ρ) (_points : List Datapoint)
    (method fname : String) (s : σ) : Run σ :=
  let res : Result := {}
  match rCmdString method fname with
  | (_, some e) => ⟨res, some e, s, []⟩
  | (cmd, none) =>
    match eval env cmd s with
    | (.error e, s1) => ⟨res, some e, s1, [cmd]⟩
    | (.ok data, s1) =>
      match env.jsonEncode data with
      | .error e => ⟨res, some ("json encode err: " ++ e), s1, [cmd]⟩
      | .ok buf =>
        if method = "vec" then
          match env.decodeVec buf with
          | .error e => ⟨res, some ("vec json decode err: " ++ e), s1, [cmd]⟩
          | .ok resp => ⟨(formatResponseVec resp).1, (formatResponseVec resp).2, s1, [cmd]⟩
        else if method = "ts" then
          match env.decodeTs buf with
          | .error e => ⟨res, some ("ts json decode err: " ++ e), s1, [cmd]⟩
          | .ok resp => ⟨(formatResponseTs resp).1, (formatResponseTs resp).2, s1, [cmd]⟩
        else ⟨res, some ("unrecognized method '" ++ method ++ "'"), s1, [cmd]⟩

/-- What `GeneratePNG` leaves behind: the run, and the caller's slice. -/
structure PngOut (σ : Type) extends Run σ where
  /-- The backing array of the argument `points` after the call. -/
  points : List Datapoint

/-- Method `client.GeneratePNG`.  The conversion `datapoints(points)` shares the
backing array of `points`. -/
def GeneratePNG {σ ω κ ρ : Type} (env : Env σ ω κ ρ) (points : List Datapoint) (s : σ) :
    PngOut σ :=
  let t := writeTempCsv env points s
  match t.err with
  | some e => ⟨⟨{}, some e, t.st, []⟩, t.dps⟩
  | none =>
    let p1 := process env t.dps "ts" t.fname t.st
    match p1.err with
    | none => ⟨⟨p1.res, none, p1.st, p1.cmds⟩, t.dps⟩
    | some _ =>
      let p2 := process env t.dps "vec" t.fname p1.st
      match p2.err with
      | some e => ⟨⟨p2.res, some ("processVec err: " ++ e), p2.st, p1.cmds ++ p2.cmds⟩, t.dps⟩
      | none => ⟨⟨p2.res, none, p2.st, p1.cmds ++ p2.cmds⟩, t.dps⟩

/-- The export step of `GeneratePNG`. -/
def exportStep {σ ω κ ρ : Type} (env : Env σ ω κ ρ) (points : List Datapoint) (s : σ) :
    TempOut σ :=
  writeTempCsv env points s

/-- The first attempt of `GeneratePNG`, `rc.process(points, "ts", fname)`, run
after a successful export. -/
def tsAttempt {σ ω κ ρ : Type} (env : Env σ ω κ ρ) (points : List Datapoint) (s : σ) : Run σ :=
  let t := exportStep env points s
  process env t.dps "ts" t.fname t.st

/-- The second attempt of `GeneratePNG`, `rc.process(points, "vec", fname)`, run
in the world the first attempt left. -/
def vecAttempt {σ ω κ ρ : Type} (env : Env σ ω κ ρ) (points : List Datapoint) (s : σ) : Run σ :=
  let t := exportStep env points s
  process env t.dps "vec" t.fname (tsAttempt env points s).st

/-! ## A test world -/

/-- Insertion sort by timestamp, one routine that meets `SortContract`. -/
def sortByTimestamp (dps : List Datapoint) : List Datapoint :=
  dps.insertionSort (fun a b => a.Timestamp ≤ b.Timestamp)

/-- The float `6.24`. -/
def f6_24 : Float64 := .finite false 7025615418697974 (-50)

/-- The float `6.23`. -/
def f6_23 : Float64 := .finite false 7014356419629548 (-50)

/-- The float `6.39`. -/
def f6_39 : Float64 := .finite false 7194500404724367 (-50)

/-- The batch `testPoints` of `datapoint_test.go`. -/
def testPoints : List Datapoint :=
  [⟨1456080911, f6_24⟩, ⟨1456080851, f6_23⟩, ⟨1456080971, f6_39⟩]

/-- A vector reply with anomalies at positions 0 and 2. -/
def vecReply : vecResponse := ⟨⟨[0, 2], [f6_24, f6_39]⟩, [137, 80, 78, 71]⟩

/-- A time-series reply with the timestamps `1456080911.0` and `1456080911.75`. -/
def tsReply : tsResponse :=
  ⟨⟨[f6_24, f6_39], [.finite false 6107245989330944 (-22), .finite false 6107245992476672 (-22)]⟩,
    [137, 80, 78, 71]⟩

/-- A time-series reply whose only timestamp is the float `2^63`. -/
def tsReplyHuge : tsResponse := ⟨⟨[f6_24], [.finite false 4503599627370496 11]⟩, []⟩

/-- A world with a working file system and a csv writer that keeps the records
it is given.  The rserve daemon rejects every `processAnomsTs` call; it answers
a `processAnomsVec` call with anomalies at positions 0 and 2 when `vecOk` holds
and rejects it otherwise. -/
def testEnv (vecOk : Bool) : Env Unit String (List (List String)) String where
  sortSort := sortByTimestamp
  TempFile := fun s => (.ok "/tmp/gorp-123", s)
  Name := fun f => f
  Close := fun _ s => s
  NewWriter := fun _ => []
  Write := fun cw r s => ((cw ++ [r], none), s)
  Flush := fun cw s => (cw, s)
  formatTime := fun t => toString t
  FormatFloat := fun _ => "0"
  Eval := fun cmd s =>
    if vecOk ∧ cmd = "processAnomsVec(\"/tmp/gorp-123\")" then (.ok "vec reply", s)
    else if cmd = "processAnomsVec(\"/tmp/gorp-123\")" then (.error "vec: no data", s)
    else (.error "ts: not a time series", s)
  jsonEncode := fun r => .ok r
  decodeVec := fun _ => .ok vecReply
  decodeTs := fun _ => .error "EOF"

/-! ## Opening the connection (`rserve.go`) -/

/-- Index of the first `c`, the library's `IndexByteString`. -/
def indexByte (c : Char) : List Char → Option Nat
  | [] => none
  | x :: xs => if x = c then some 0 else (indexByte c xs).map (· + 1)

/-- Index of the last `c`, the helper `last` of package `net`. -/
def lastIndexByte (c : Char) : List Char → Option Nat
  | [] => none
  | x :: xs =>
    match lastIndexByte c xs with
    | some i => some (i + 1)
    | none => if x = c then some 0 else none

/-- The failure return of `net.SplitHostPort`: the text of an `*net.AddrError`. -/
def addrErr (addr why : String) : (String × String) × Option String :=
  (("", ""), some ("address " ++ addr ++ ": " ++ why))

/-- The tail of `net.SplitHostPort`: no stray bracket may follow position `j`
(for an opening one) or `k` (for a closing one); the port is what follows the
last colon, at index `i`. -/
def splitFinish (hostport : String) (host : List Char) (i j k : Nat) :
    (String × String) × Option String :=
  if (indexByte '[' (hostport.data.drop j)).isSome then
    addrErr hostport "unexpected '[' in address"
  else if (indexByte ']' (hostport.data.drop k)).isSome then
    addrErr hostport "unexpected ']' in address"
  else ((String.mk host, String.mk (hostport.data.drop (i + 1))), none)

/-- Library `net.SplitHostPort`, after the Go source: the port starts after the
last colon; a host in brackets must close just before that colon; outside
brackets the host holds no colon.  (Releases of the time of the repository
also reject a host with a `%` outside brackets; such a host is none of the two
hosts `NewClient` lets through.) -/
def SplitHostPort (hostport : String) : (String × String) × Option String :=
  match lastIndexByte ':' hostport.data with
  | none => addrErr hostport "missing port in address"
  | some i =>
    if hostport.data.head? = some '[' then
      match indexByte ']' hostport.data with
      | none => addrErr hostport "missing ']' in address"
      | some close =>
        if close + 1 = hostport.data.length then addrErr hostport "missing port in address"
        else if close + 1 = i then
          splitFinish hostport ((hostport.data.take close).drop 1) i 1 (close + 1)
        else if hostport.data.getD (close + 1) ' ' = ':' then
          addrErr hostport "too many colons in address"
        else addrErr hostport "missing port in address"
    else if (indexByte ':' (hostport.data.take i)).isSome then
      addrErr hostport "too many colons in address"
    else splitFinish hostport (hostport.data.take i) i 0 0

/-- The value of a decimal digit. -/
def digitVal (c : Char) : Nat := c.toNat - 48

/-- The number written by a run of decimal digits. -/
def parseDigits (cs : List Char) : Nat := cs.foldl (fun acc c => acc * 10 + digitVal c) 0

/-- The text of the `*strconv.NumError` of a failed parse. -/
def numError (fn s why : String) : String :=
  "strconv." ++ fn ++ ": parsing \"" ++ s ++ "\": " ++ why

/-- Library `strconv.ParseInt(s, 10, 64)`, after the Go source: an optional sign,
then one or more decimal digits; a magnitude outside the `int64` range is a
range error and yields the nearest bound. -/
def ParseInt (s : String) : Int × Option String :=
  if s.data = [] then (0, some (numError "ParseInt" s "invalid syntax"))
  else
    let neg : Bool := s.data.head? = some '-'
    let ds := if s.data.head? = some '+' ∨ s.data.head? = some '-' then s.data.tail else s.data
    if ds = [] ∨ ds.all Char.isDigit = false then
      (0, some (numError "ParseInt" s "invalid syntax"))
    else
      let un := parseDigits ds
      if neg = false ∧ 9223372036854775808 ≤ un then
        (maxInt64, some (numError "ParseInt" s "value out of range"))
      else if neg = true ∧ 9223372036854775808 < un then
        (minInt64, some (numError "ParseInt" s "value out of range"))
      else (if neg then -(un : Int) else (un : Int), none)

/-- What `NewClient` leaves behind. -/
structure ClientOut (σ χ : Type) where
  /-- The returned client, `nil` when absent. -/
  client : Option χ
  /-- The returned error. -/
  err : Option String
  /-- The world. -/
  st : σ
  /-- The calls of `roger.NewRClient` made, with their arguments. -/
  dials : List (String × Int)

/-- Function `NewClient`.  The argument `NewRClient` is `roger.NewRClient`, the
only step that opens a connection to the daemon. -/
def NewClient {σ χ : Type} (NewRClient : String → Int → σ → Except String χ × σ)
    (addr : String) (s : σ) : ClientOut σ χ :=
  match SplitHostPort addr with
  | (_, some e) => ⟨none, some ("splitHostPort err: " ++ e), s, []⟩
  | ((host, port), none) =>
    if host ≠ "" ∧ host ≠ "localhost" then
      ⟨none, some "rserve must be running on localhost", s, []⟩
    else
      match ParseInt port with
      | (_, some e) => ⟨none, some ("parseInt err: " ++ e), s, []⟩
      | (iport, none) =>
        match NewRClient host iport s with
        | (.error e, s1) => ⟨none, some ("roger err: " ++ e), s1, [(host, iport)]⟩
        | (.ok rc, s1) => ⟨some rc, none, s1, [(host, iport)]⟩

/-- A daemon that is not running, as in `TestNewClient`: every dial is refused. -/
def refusedDial (_host : String) (_port : Int) (s : Unit) : Except String Unit × Unit :=
  (.error "dial tcp: connection refused", s)

/-! ## Numbers on the wire (`strconv`, `encoding/json`) -/

/-- The well-formed floats: a finite one has a mantissa below `2^53` and an
exponent between `-1074` and `971`, and is normalised (mantissa at least `2^52`)
unless the exponent is the smallest one. -/
def Float64.canonical : Float64 → Prop
  | .finite _ m e => m < 2 ^ 53 ∧ -1074 ≤ e ∧ e ≤ 971 ∧ (2 ^ 52 ≤ m ∨ e = -1074)
  | .inf _ => True
  | .nan => True

instance (f : Float64) : Decidable f.canonical := by
  cases f <;> unfold Float64.canonical <;> infer_instance

/-- A decimal numeral as `strconv` reads it: sign, all digits of the mantissa
as one number, and the power of ten that scales it. -/
structure Decimal where
  neg : Bool
  mant : Nat
  exp : Int
  deriving DecidableEq, Repr

/-- Numerator of the magnitude `mant * 10^exp`. -/
def Decimal.num (d : Decimal) : Nat :=
  if 0 ≤ d.exp then d.mant * 10 ^ d.exp.toNat else d.mant

/-- Denominator of the magnitude `mant * 10^exp`. -/
def Decimal.den (d : Decimal) : Nat :=
  if 0 ≤ d.exp then 1 else 10 ^ (-d.exp).toNat

/-- The exponent part of a float literal, read after the `e`: an optional sign
and one or more digits. -/
def readExp (s : List Char) : Option Int :=
  let neg : Bool := s.head? = some '-'
  let ds := if s.head? = some '+' ∨ s.head? = some '-' then s.tail else s
  if ds = [] ∨ ds.all Char.isDigit = false then none
  else some (if neg then -(parseDigits ds : Int) else (parseDigits ds : Int))

/-- A list without its leading sign, if it has one. -/
def stripSign (r : List Char) : List Char :=
  if r.head? = some '+' ∨ r.head? = some '-' then r.tail else r

/-- The end of `readFloat`: with integer digits `ip` and fraction digits `fp`
read (one of them at least), the rest is empty or an exponent. -/
def readTail (neg : Bool) (ip fp r2 : List Char) : Option Decimal :=
  if ip = [] ∧ fp = [] then none
  else
    match r2 with
    | [] => some ⟨neg, parseDigits (ip ++ fp), -(fp.length : Int)⟩
    | c :: r3 =>
      if c = 'e' ∨ c = 'E' then
        (readExp r3).map (fun e => ⟨neg, parseDigits (ip ++ fp), e - (fp.length : Int)⟩)
      else none

/-- The fraction step of `readFloat`: a point and the digits after it. -/
def readFrac (neg : Bool) (ip r1 : List Char) : Option Decimal :=
  match r1 with
  | '.' :: r => readTail neg ip (r.takeWhile Char.isDigit) (r.dropWhile Char.isDigit)
  | _ => readTail neg ip [] r1

/-- Decimal syntax of `strconv.ParseFloat` (its `readFloat`): an optional sign,
digits with at most one point among them (at least one digit), an optional
exponent, and nothing after.  The digits are kept exactly. -/
def readFloat (s : List Char) : Option Decimal :=
  readFrac (s.head? = some '-') ((stripSign s).takeWhile Char.isDigit)
    ((stripSign s).dropWhile Char.isDigit)

/-- The steps `2^(n-1), ..., 2, 1` of a binary search over `2^n` positions. -/
def binSteps : Nat → List Nat
  | 0 => []
  | n + 1 => 2 ^ n :: binSteps n

/-- Binary search for the least `k` from `lo` on with `N < 2^53 * D * 2^k`. -/
def findExpAux (N D : Nat) : List Nat → Nat → Nat
  | [], lo => lo
  | step :: rest, lo =>
    if N < 2 ^ 53 * D * 2 ^ (lo + step - 1) then findExpAux N D rest lo
    else findExpAux N D rest (lo + step)

/-- The least `k ≤ 2047` with `N / D < 2^53 * 2^k` (2047 when there is none): the
binary exponent, counted from the smallest one, of the quotient `N / D` scaled
by `2^1074`. -/
def findExp (N D : Nat) : Nat := findExpAux N D (binSteps 11) 0

/-- The float nearest to `num / den` (`den` positive), ties to the even
mantissa, as IEEE-754 rounds and `strconv.ParseFloat` promises; the flag tells
that the value is too large for a finite float. -/
def roundNearestEven (neg : Bool) (num den : Nat) : Float64 × Bool :=
  let N := num * 2 ^ 1074
  let k := findExp N den
  let dv := den * 2 ^ k
  let q := N / dv
  let r := N % dv
  let q1 := if dv < 2 * r ∨ (2 * r = dv ∧ q % 2 = 1) then q + 1 else q
  let m := if q1 = 2 ^ 53 then 2 ^ 52 else q1
  let k1 := if q1 = 2 ^ 53 then k + 1 else k
  if 2045 < k1 then (.inf neg, true) else (.finite neg m ((k1 : Int) - 1074), false)

/-- Library `strconv.ParseFloat(s, 64)` on decimal text: the nearest float, a
syntax error with value 0, or a range error with an infinity.  The spellings of
infinities and NaN, hexadecimal floats and underscores, which the library also
reads, are not JSON numbers and count as syntax errors here. -/
def ParseFloat (s : String) : Float64 × Option String :=
  match readFloat s.data with
  | none => (Float64.zero, some (numError "ParseFloat" s "invalid syntax"))
  | some d =>
    if (roundNearestEven d.neg d.num d.den).2 then
      ((roundNearestEven d.neg d.num d.den).1, some (numError "ParseFloat" s "value out of range"))
    else ((roundNearestEven d.neg d.num d.den).1, none)

/-- The end of `isValidNumber`: nothing, or `e` or `E`, an optional sign and
one or more digits. -/
def validExp (s : List Char) : Bool :=
  match s with
  | [] => true
  | c :: r =>
    if (c = 'e' ∨ c = 'E') ∧ r ≠ [] then
      decide (stripSign r ≠ [] ∧ (stripSign r).all Char.isDigit = true)
    else false

/-- The fraction step of `isValidNumber`: a point followed by one or more
digits is skipped. -/
def skipFraction (s : List Char) : List Char :=
  match s with
  | '.' :: d :: r => if d.isDigit then r.dropWhile Char.isDigit else s
  | _ => s

/-- What may follow the integer part in `isValidNumber`. -/
def validAfterInt (s : List Char) : Bool := validExp (skipFraction s)

/-- The optional leading minus of `isValidNumber`. -/
def dropMinus (s : List Char) : List Char :=
  match s with
  | '-' :: r => r
  | _ => s

/-- The integer part of `isValidNumber` and what follows: a single `0`, or a
digit and more digits. -/
def validInt (s : List Char) : Bool :=
  match s with
  | [] => false
  | c :: r =>
    if c = '0' then validAfterInt r
    else if c.isDigit then validAfterInt (r.dropWhile Char.isDigit)
    else false

/-- Function `isValidNumber` of `encoding/json`: the JSON number grammar. -/
def isValidNumber (s : List Char) : Bool := validInt (dropMinus s)

/-- JSON white space. -/
def jsonSpace (c : Char) : Bool := c = ' ' ∨ c = '\t' ∨ c = '\n' ∨ c = '\r'

/-- The characters that end a number token inside an array. -/
def isDelim (c : Char) : Bool := c = ',' ∨ c = ']' ∨ jsonSpace c

/-- The elements of a JSON array of numbers, read after the opening bracket. -/
def scanElems : Nat → List Char → List (List Char) → Option (List (List Char))
  | 0, _, _ => none
  | fuel + 1, s, acc =>
    let s0 := s.dropWhile jsonSpace
    let tok := s0.takeWhile (fun c => !isDelim c)
    let rest := (s0.dropWhile (fun c => !isDelim c)).dropWhile jsonSpace
    if isValidNumber tok = false then none
    else
      match rest with
      | ',' :: r => scanElems fuel r (acc ++ [tok])
      | ']' :: r => if r.all jsonSpace then some (acc ++ [tok]) else none
      | _ => none

/-- Step `json.Unmarshal(b, &data)` for `var data [2]json.Number` on an array of
JSON numbers: each element keeps its literal text, elements beyond the second
are dropped and missing ones stay empty.  Arrays with other elements (`null`,
strings) are rejected here. -/
def unmarshalNumbers (b : String) : (String × String) × Option String :=
  match b.data.dropWhile jsonSpace with
  | '[' :: r =>
    if (r.dropWhile jsonSpace).head? = some ']' ∧
        ((r.dropWhile jsonSpace).tail.all jsonSpace) then (("", ""), none)
    else
      match scanElems (r.length + 1) r [] with
      | none => (("", ""), some "json: cannot unmarshal into Go value of type [2]json.Number")
      | some toks => ((String.mk (toks.getD 0 []), String.mk (toks.getD 1 [])), none)
  | _ => (("", ""), some "json: cannot unmarshal into Go value of type [2]json.Number")

/-! ## Wire form of a datapoint (`datapoint.go`) -/

/-- The last lines of `UnmarshalJSON`: `d.Value, err = data[1].Float64()`. -/
def unmarshalValue (d : Datapoint) (n1 : String) : Datapoint × Option String :=
  ({ d with Value := (ParseFloat n1).1 }, (ParseFloat n1).2)

/-- Method `(*Datapoint).UnmarshalJSON`: the receiver after the call and the
returned error.  `Int64()` is `strconv.ParseInt(s, 10, 64)` and `Float64()` is
`strconv.ParseFloat(s, 64)` on the literal. -/
def UnmarshalJSON (d : Datapoint) (b : String) : Datapoint × Option String :=
  match unmarshalNumbers b with
  | (_, some e) => (d, some e)
  | ((n0, n1), none) =>
    match ParseInt n0 with
    | (ts, none) => unmarshalValue { d with Timestamp := ts } n1
    | (ts, some _) =>
      match ParseFloat n0 with
      | (_, some e2) => ({ d with Timestamp := ts }, some e2)
      | (tsf, none) => unmarshalValue { d with Timestamp := tsf.toInt64 } n1

/-- The characters of a JSON number: digits, signs, the point and the exponent
letter. -/
def numChar (c : Char) : Prop :=
  c.isDigit = true ∨ c = '-' ∨ c = '+' ∨ c = '.' ∨ c = 'e' ∨ c = 'E'

/-- The numeral `d` writes the integer `t`: its magnitude `mant * 10^exp` is
`|t|` (so the fractional part is zero) and its sign is that of `t`. -/
def Decimal.denotes (d : Decimal) (t : Int) : Prop :=
  d.num = t.natAbs * d.den ∧ t = if d.neg then -(t.natAbs : Int) else (t.natAbs : Int)

instance (d : Decimal) (t : Int) : Decidable (d.denotes t) := by
  unfold Decimal.denotes
  infer_instance

/-- The float `1902.3385`. -/
def f1902_3385 : Float64 := .finite false 8366573202863817 (-42)

/-! ## Writing numbers (`strconv`, `encoding/json`) -/

/-- The character of a decimal digit. -/
def digitChar (n : Nat) : Char := Char.ofNat (48 + n)

/-- The decimal digits of `n` in front of `acc`, most significant first. -/
def natDigitsAux : Nat → Nat → List Char → List Char
  | 0, _, acc => acc
  | fuel + 1, n, acc =>
    if n < 10 then digitChar n :: acc
    else natDigitsAux fuel (n / 10) (digitChar (n % 10) :: acc)

/-- The decimal digits of `n`, without leading zeros; `0` is written `0`. -/
def natDigits (n : Nat) : List Char := natDigitsAux (n + 1) n []

/-- Library `strconv.AppendInt(b, t, 10)`, the encoding of an `int64` in JSON. -/
def formatInt (t : Int) : List Char :=
  if t < 0 then '-' :: natDigits t.natAbs else natDigits t.natAbs

/-- Numerator of the magnitude `m * 2^e` of a finite float. -/
def vNum (m : Nat) (e : Int) : Nat := if 0 ≤ e then m * 2 ^ e.toNat else m

/-- Denominator of the magnitude `m * 2^e` of a finite float. -/
def vDen (e : Int) : Nat := if 0 ≤ e then 1 else 2 ^ (-e).toNat

/-- Numerator of `m * 2^e / 10^p`. -/
def scaledNum (m : Nat) (e p : Int) : Nat := vNum m e * 10 ^ (-p).toNat

/-- Denominator of `m * 2^e / 10^p`. -/
def scaledDen (e p : Int) : Nat := vDen e * 10 ^ p.toNat

/-- The decimal `c * 10^p` is a possible output for the float `v`: reading it
gives `v` back. -/
def accepts (v : Float64) (neg : Bool) (c : Nat) (p : Int) : Bool :=
  decide (1 ≤ c) && decide (roundNearestEven neg (Decimal.num ⟨neg, c, p⟩)
    (Decimal.den ⟨neg, c, p⟩) = (v, false))

/-- The search of the shortest decimal for `m * 2^e` (`strconv`'s
`roundShortest`): at each power of ten `p`, from the largest down, the two
multiples of `10^p` around the value are tried, the nearer one first when both
read back as the float; when no rounded decimal does, the exact decimal
expansion is the result. -/
def shortestAux (neg : Bool) (m : Nat) (e : Int) : Nat → Int → Nat × Int
  | 0, p => (scaledNum m e p / scaledDen e p, p)
  | fuel + 1, p =>
    if accepts (.finite neg m e) neg (scaledNum m e p / scaledDen e p) p = true ∧
        accepts (.finite neg m e) neg (scaledNum m e p / scaledDen e p + 1) p = true then
      (if scaledDen e p < 2 * (scaledNum m e p % scaledDen e p) ∨
          (2 * (scaledNum m e p % scaledDen e p) = scaledDen e p ∧
            (scaledNum m e p / scaledDen e p) % 2 = 1)
        then (scaledNum m e p / scaledDen e p + 1, p)
        else (scaledNum m e p / scaledDen e p, p))
    else if accepts (.finite neg m e) neg (scaledNum m e p / scaledDen e p) p = true then
      (scaledNum m e p / scaledDen e p, p)
    else if accepts (.finite neg m e) neg (scaledNum m e p / scaledDen e p + 1) p = true then
      (scaledNum m e p / scaledDen e p + 1, p)
    else shortestAux neg m e fuel (p - 1)

/-- The shortest decimal `c * 10^p` that reads back as the float `m * 2^e`, as
`strconv.FormatFloat` with precision `-1` computes it; zero is `0 * 10^0`. -/
def shortest (neg : Bool) (m : Nat) (e : Int) : Nat × Int :=
  if m = 0 then (0, 0)
  else shortestAux neg m e (max (e + 53) 0 - min e 0).toNat (max (e + 53) 0)

/-- A run of zeros. -/
def zeros (n : Nat) : List Char := List.replicate n '0'

/-- The sign written in front of a negative number. -/
def signChars (neg : Bool) : List Char := if neg then ['-'] else []

/-- Format `%f` of `strconv` with the shortest precision, for the digits `digs`
with the decimal point after position `dp`. -/
def fmtF (neg : Bool) (digs : List Char) (dp : Int) : List Char :=
  if (digs.length : Int) ≤ dp then signChars neg ++ (digs ++ zeros (dp - digs.length).toNat)
  else if 0 < dp then signChars neg ++ (digs.take dp.toNat ++ '.' :: digs.drop dp.toNat)
  else signChars neg ++ ('0' :: '.' :: (zeros (-dp).toNat ++ digs))

/-- The exponent of format `%e` as `encoding/json` leaves it: a sign and at
least two digits, the leading zero of a negative one-digit exponent removed. -/
def expChars (ex : Int) : List Char :=
  if ex < 0 then '-' :: natDigits ex.natAbs
  else if ex < 10 then '+' :: '0' :: natDigits ex.natAbs
  else '+' :: natDigits ex.natAbs

/-- Format `%e` of `strconv` with the shortest precision, after the clean-up of
`encoding/json`. -/
def fmtE (neg : Bool) (digs : List Char) (dp : Int) : List Char :=
  signChars neg ++ (digs.take 1 ++
    ((if 1 < digs.length then '.' :: digs.drop 1 else []) ++ 'e' :: expChars (dp - 1)))

/-- The test `abs < 1e-6 || abs >= 1e21` of the float encoder of
`encoding/json`, on a finite magnitude `m * 2^e`; the two bounds are the floats
`4722366482869645 * 2^-72` and `7629394531250000 * 2^17`. -/
def useExponent (m : Nat) (e : Int) : Bool :=
  decide (m * 2 ^ (e + 1074).toNat < 4722366482869645 * 2 ^ 1002) ||
    decide (7629394531250000 * 2 ^ 1091 ≤ m * 2 ^ (e + 1074).toNat)

/-- The float encoder of `encoding/json` (`floatEncoder.encode` for 64 bits):
`none` for NaN and the infinities, which JSON cannot hold. -/
def encodeFloat : Float64 → Option (List Char)
  | .finite neg m e =>
    if m ≠ 0 ∧ useExponent m e = true then
      some (fmtE neg (natDigits (shortest neg m e).1)
        ((natDigits (shortest neg m e).1).length + (shortest neg m e).2))
    else
      some (fmtF neg (natDigits (shortest neg m e).1)
        ((natDigits (shortest neg m e).1).length + (shortest neg m e).2))
  | .inf _ => none
  | .nan => none

/-- The name `strconv.FormatFloat(f, 'g', -1, 64)` gives a value that is not
finite, as the `UnsupportedValueError` of `encoding/json` quotes it. -/
def nonFiniteName : Float64 → String
  | .inf true => "-Inf"
  | .inf false => "+Inf"
  | _ => "NaN"

/-- Method `Datapoint.MarshalJSON`: `json.Marshal` of the two-element array
`[2]interface{}{d.Timestamp, d.Value}`; a value that is not finite is an
`UnsupportedValueError` and no bytes. -/
def MarshalJSON (d : Datapoint) : String × Option String :=
  match encodeFloat d.Value with
  | none => ("", some ("json: unsupported value: " ++ nonFiniteName d.Value))
  | some fs => (String.mk ('[' :: (formatInt d.Timestamp ++ ',' :: (fs ++ [']']))), none)

/-! ## More test worlds -/

/-- A world like `testEnv` whose daemon answers the call
`processAnomsTs("/tmp/gorp-123")` with `tsReply` and rejects every other
command; the world state counts the commands the daemon was sent. -/
def tsEnv : Env Nat String (List (List String)) String where
  sortSort := sortByTimestamp
  TempFile := fun s => (.ok "/tmp/gorp-123", s)
  Name := fun f => f
  Close := fun _ s => s
  NewWriter := fun _ => []
  Write := fun cw r s => ((cw ++ [r], none), s)
  Flush := fun cw s => (cw, s)
  formatTime := fun t => toString t
  FormatFloat := fun _ => "0"
  Eval := fun cmd s =>
    if cmd = "processAnomsTs(\"/tmp/gorp-123\")" then (.ok "ts reply", s + 1)
    else (.error "unexpected command", s + 1)
  jsonEncode := fun r => .ok r
  decodeVec := fun _ => .ok vecReply
  decodeTs := fun _ => .ok tsReply

/-- A world like `tsEnv` in which no temporary file can be created. -/
def noTempEnv : Env Nat String (List (List String)) String where
  sortSort := sortByTimestamp
  TempFile := fun s => (.error "open /tmp/gorp-123: permission denied", s)
  Name := fun f => f
  Close := fun _ s => s
  NewWriter := fun _ => []
  Write := fun cw r s => ((cw ++ [r], none), s)
  Flush := fun cw s => (cw, s)
  formatTime := fun t => toString t
  FormatFloat := fun _ => "0"
  Eval := fun cmd s =>
    if cmd = "processAnomsTs(\"/tmp/gorp-123\")" then (.ok "ts reply", s + 1)
    else (.error "unexpected command", s + 1)
  jsonEncode := fun r => .ok r
  decodeVec := fun _ => .ok vecReply
  decodeTs := fun _ => .ok tsReply

/-! ## The csv writer of the library (`bufio`, `encoding/csv`) -/

/-- State of a `bufio.Writer` apart from its underlying writer: the sticky
error and the bytes waiting in the buffer. -/
structure BufWriter where
  err : Option String
  buf : List Char
  deriving DecidableEq, Repr

/-- The buffer size of `bufio.NewWriter`. -/
def bufSize : Nat := 4096

/-- Method `(*bufio.Writer).Flush` over the underlying `Write` `wr`, which
returns the number of bytes it took and its error. -/
def bufFlush {σ : Type} (wr : List Char → σ → (Nat × Option String) × σ) (b : BufWriter)
    (s : σ) : BufWriter × σ :=
  if b.err ≠ none then (b, s)
  else if b.buf = [] then (b, s)
  else
    match (if (wr b.buf s).1.1 < b.buf.length ∧ (wr b.buf s).1.2 = none then some "short write"
      else (wr b.buf s).1.2) with
    | some e => (⟨some e, b.buf.drop (wr b.buf s).1.1⟩, (wr b.buf s).2)
    | none => (⟨none, []⟩, (wr b.buf s).2)

/-- Method `(*bufio.Writer).WriteString`; `WriteByte` and `WriteRune` of a
one-byte rune behave as `WriteString` of that byte.  The error it returns is
the sticky error of the writer afterwards. -/
def bufWriteString {σ : Type} (wr : List Char → σ → (Nat × Option String) × σ) :
    Nat → List Char → BufWriter → σ → BufWriter × σ
  | 0, _, b, s => (b, s)
  | fuel + 1, str, b, s =>
    if bufSize - b.buf.length < str.length ∧ b.err = none then
      bufWriteString wr fuel (str.drop (bufSize - b.buf.length))
        (bufFlush wr ⟨b.err, b.buf ++ str.take (bufSize - b.buf.length)⟩ s).1
        (bufFlush wr ⟨b.err, b.buf ++ str.take (bufSize - b.buf.length)⟩ s).2
    else if b.err ≠ none then (b, s)
    else (⟨none, b.buf ++ str⟩, s)

/-- Library `unicode.IsSpace`. -/
def isSpace (c : Char) : Bool :=
  c = '\t' ∨ c = '\n' ∨ c.toNat = 11 ∨ c.toNat = 12 ∨ c = '\r' ∨ c = ' ' ∨ c.toNat = 133 ∨
    c.toNat = 160 ∨ c.toNat = 5760 ∨ (8192 ≤ c.toNat ∧ c.toNat ≤ 8202) ∨ c.toNat = 8232 ∨
    c.toNat = 8233 ∨ c.toNat = 8239 ∨ c.toNat = 8287 ∨ c.toNat = 12288

/-- Method `(*csv.Writer).fieldNeedsQuotes` for the comma `,`. -/
def fieldNeedsQuotes (field : List Char) : Bool :=
  if field = [] then false
  else if field = ['\\', '.'] then true
  else if field.any (fun c => c = '\n' ∨ c = '\r' ∨ c = '"' ∨ c = ',') then true
  else isSpace (field.headD ' ')

/-- The pieces `(*csv.Writer).Write` hands to the buffered writer for the inside
of a quoted field: the text up to each quote or line break, then the quote
doubled or the line break itself. -/
def quotedPieces : Nat → List Char → List (List Char)
  | 0, _ => []
  | fuel + 1, field =>
    if field = [] then []
    else
      field.takeWhile (fun c => !(c = '"' ∨ c = '\r' ∨ c = '\n')) ::
        (match field.dropWhile (fun c => !(c = '"' ∨ c = '\r' ∨ c = '\n')) with
          | [] => []
          | c :: rest => (if c = '"' then ['"', '"'] else [c]) :: quotedPieces fuel rest)

/-- The pieces written for one field. -/
def fieldPieces (field : List Char) : List (List Char) :=
  if fieldNeedsQuotes field then
    ['"'] :: (quotedPieces (field.length + 1) field ++ [['"']])
  else [field]

/-- The pieces written for one record: the fields with commas between them and
a line feed at the end. -/
def recordPieces : List String → List (List Char)
  | [] => [['\n']]
  | [f] => fieldPieces f.data ++ [['\n']]
  | f :: g :: rest => fieldPieces f.data ++ [','] :: recordPieces (g :: rest)

/-- Method `(*csv.Writer).Write` over the underlying `Write` `wr`: the pieces go
to the buffered writer one after the other; once its error is set a write
changes nothing and returns that error, so the error returned is the
writer's error after the last piece. -/
def csvWrite {σ : Type} (wr : List Char → σ → (Nat × Option String) × σ) (cw : BufWriter)
    (record : List String) (s : σ) : (BufWriter × Option String) × σ :=
  let r := (recordPieces record).foldl
    (fun (st : BufWriter × σ) piece => bufWriteString wr (piece.length + 2) piece st.1 st.2)
    (cw, s)
  ((r.1, r.1.err), r.2)

/-- Method `(*os.File).Write` on the temporary file: the world is the content
of the file; on a full disk every write takes nothing and fails. -/
def fileWrite (diskFull : Bool) (p : List Char) (s : List Char) :
    (Nat × Option String) × List Char :=
  if diskFull then ((0, some "write /tmp/gorp-123: no space left on device"), s)
  else ((p.length, none), s ++ p)

/-- Library `strconv.FormatFloat(v, 'f', -1, 64)`. -/
def FormatFloatF : Float64 → String
  | .finite neg m e =>
    String.mk (fmtF neg (natDigits (shortest neg m e).1)
      ((natDigits (shortest neg m e).1).length + (shortest neg m e).2))
  | .inf true => "-Inf"
  | .inf false => "+Inf"
  | .nan => "NaN"

/-- A world whose temporary file is written through the csv writer of the
library, on a disk that is full or not.  Timestamps are rendered as their
number of seconds (the zone database is not modelled); the daemon rejects every
command. -/
def diskEnv (diskFull : Bool) : Env (List Char) String BufWriter String where
  sortSort := sortByTimestamp
  TempFile := fun s => (.ok "/tmp/gorp-123", s)
  Name := fun f => f
  Close := fun _ s => s
  NewWriter := fun _ => ⟨none, []⟩
  Write := csvWrite (fileWrite diskFull)
  Flush := bufFlush (fileWrite diskFull)
  formatTime := fun t => String.mk (formatInt t)
  FormatFloat := FormatFloatF
  Eval := fun _ s => (.error "connection refused", s)
  jsonEncode := fun r => .ok r
  decodeVec := fun _ => .error "EOF"
  decodeTs := fun _ => .error "EOF"

/-! ## The HTTP handler (`gorp.go`) -/

/-- An `http.ResponseWriter` as the handler sees it: the header map it fills,
the status and the copy of the header that went out with it (once they have),
the body written so far, and whether the connection refuses writes. -/
structure ResponseWriter where
  header : List (String × String)
  sent : Option (Nat × List (String × String))
  body : List UInt8
  broken : Bool
  deriving DecidableEq, Repr

/-- Method `http.Header.Set` (the keys used are in canonical form). -/
def headerSet (h : List (String × String)) (k v : String) : List (String × String) :=
  (k, v) :: h.filter (fun p => !decide (p.1 = k))

/-- Method `http.Header.Get`: the value of a key, empty when absent. -/
def headerGet (h : List (String × String)) (k : String) : String :=
  (h.lookup k).getD ""

/-- The call `w.Header().Set(k, v)`. -/
def ResponseWriter.Set (w : ResponseWriter) (k v : String) : ResponseWriter :=
  { w with header := headerSet w.header k v }

/-- Method `WriteHeader`: the first call sends the status with the header as it
stands; later calls and later changes of the header map have no effect. -/
def ResponseWriter.WriteHeader (w : ResponseWriter) (code : Nat) : ResponseWriter :=
  match w.sent with
  | some _ => w
  | none => { w with sent := some (code, w.header) }

/-- Method `Write`: sends the header with status 200 if it has not gone out,
then the bytes, unless the connection refuses them. -/
def ResponseWriter.Write (w : ResponseWriter) (p : List UInt8) :
    ResponseWriter × Option String :=
  if (w.WriteHeader 200).broken then (w.WriteHeader 200, some "write: broken pipe")
  else ({ w.WriteHeader 200 with body := (w.WriteHeader 200).body ++ p }, none)

/-- Library `http.Error`. -/
def httpError (w : ResponseWriter) (msg : String) (code : Nat) : ResponseWriter :=
  ((((w.Set "Content-Type" "text/plain; charset=utf-8").Set "X-Content-Type-Options"
    "nosniff").WriteHeader code).Write (msg ++ "\n").toUTF8.data.toList).1

/-- What the server does when the handler returns: a response whose header has
not gone out is sent with status 200. -/
def finishRequest (w : ResponseWriter) : ResponseWriter := w.WriteHeader 200

/-- The parts of an `*http.Request` the handler reads: the outcome of
`json.NewDecoder(r.Body).Decode(&points)` and `r.Header.Get("Accept")`. -/
structure Request where
  points : Except String (List Datapoint)
  accept : String

/-- Library `strconv.Itoa` of a length. -/
def Itoa (n : Nat) : String := String.mk (formatInt (n : Int))

/-- Method `Server.handlePostImage`.  The argument `client` is
`s.client.GeneratePNG`; `encode` gives the bytes `json.NewEncoder(w).Encode(res)`
hands to `w.Write` (the JSON text of `res` and a line feed) or its error. -/
def handlePostImage {σ : Type} (client : List Datapoint → σ → (Result × Option String) × σ)
    (encode : Result → Except String (List UInt8)) (w : ResponseWriter) (r : Request) (s : σ) :
    ResponseWriter × σ :=
  match r.points with
  | .error e => (httpError w ("decode post err: " ++ e) 500, s)
  | .ok points =>
    match client points s with
    | ((_, some e), s1) => (httpError w ("GeneratePNG err: " ++ e) 500, s1)
    | ((res, none), s1) =>
      if r.accept = "application/json" then
        match encode res with
        | .error _ =>
          ((((w.Set "X-Gorp-Method" res.Method).Set "X-Gorp-Anomalies"
            (Itoa res.Anomalies.length)).Set "Content-Type" "application/json"), s1)
        | .ok js =>
          (((((w.Set "X-Gorp-Method" res.Method).Set "X-Gorp-Anomalies"
            (Itoa res.Anomalies.length)).Set "Content-Type" "application/json").Write js).1, s1)
      else
        match ((((w.Set "X-Gorp-Method" res.Method).Set "X-Gorp-Anomalies"
            (Itoa res.Anomalies.length)).Set "Content-Type" "image/png").Set "Content-Length"
            (Itoa res.PngData.length)).Write res.PngData with
        | (w1, some e) => (httpError w1 ("write err: " ++ e) 500, s1)
        | (w1, none) => (w1, s1)

/-- The pipeline of `tsEnv` as a `Client`. -/
def tsClient (points : List Datapoint) (s : Nat) : (Result × Option String) × Nat :=
  (((GeneratePNG tsEnv points s).res, (GeneratePNG tsEnv points s).err),
    (GeneratePNG tsEnv points s).st)

/-- A stand-in for the JSON encoder: the text `{}` and a line feed. -/
def stubEncode (_res : Result) : Except String (List UInt8) := .ok [123, 125, 10]

/-- A response writer at the start of a request, on a working connection. -/
def newResponse : ResponseWriter := ⟨[], none, [], false⟩

/-! ## The library's `sort.Sort`

`writeCsv` sorts with `sort.Sort`, which is library code outside the repository.
Two generations of it are embedded here, both driving the repository's
`datapoints.Less` and `datapoints.Swap`: the tail of `quickSort` that Go 1.6 to
1.18 run on a range of at most 12 elements, and the pattern-defeating quicksort
of Go 1.19 and later in full.  Loops carry a step budget that is large enough
for every range inside the slice. -/

/-- Inner loop of the library's `insertionSort`:
`for j := i; j > a && data.Less(j, j-1); j-- { data.Swap(j, j-1) }`. -/
def sort.insertionLoop (a : Nat) : Nat → List Datapoint → List Datapoint
  | 0, data => data
  | j + 1, data =>
    if a < j + 1 && datapoints.Less data (j + 1) j then
      sort.insertionLoop a j (datapoints.Swap data (j + 1) j)
    else data

/-- Library `insertionSort(data, a, b)`: the loop `for i := a + 1; i < b; i++`
around the inner loop. -/
def sort.insertionSort (data : List Datapoint) (a b : Nat) : List Datapoint :=
  (List.range (b - (a + 1))).foldl (fun d k => sort.insertionLoop a (a + 1 + k) d) data

/-- The shell pass of `quickSort` (Go 1.6 to 1.18):
`for i := a + 6; i < b; i++ { if data.Less(i, i-6) { data.Swap(i, i-6) } }`. -/
def sort.shellPass (data : List Datapoint) (a b : Nat) : List Datapoint :=
  (List.range (b - (a + 6))).foldl
    (fun d k => if datapoints.Less d (a + 6 + k) (a + k) then datapoints.Swap d (a + 6 + k) (a + k)
      else d) data

/-- The statements of `quickSort(data, a, b, maxDepth)` (Go 1.6 to 1.18) after
its loop `for b-a > 12`; they are all it runs on a range of at most 12
elements: `if b-a > 1 { shell pass with gap 6; insertionSort(data, a, b) }`. -/
def sort.quickSortTail (data : List Datapoint) (a b : Nat) : List Datapoint :=
  if b - a > 1 then sort.insertionSort (sort.shellPass data a b) a b else data

/-- Library `siftDown(data, lo, hi, first)`, `root` starting at `lo`. -/
def sort.siftDown (hi first : Nat) : Nat → Nat → List Datapoint → List Datapoint
  | 0, _, data => data
  | fuel + 1, root, data =>
    let child := 2 * root + 1
    if child ≥ hi then data
    else
      let child1 :=
        if child + 1 < hi && datapoints.Less data (first + child) (first + child + 1) then child + 1
        else child
      if !datapoints.Less data (first + root) (first + child1) then data
      else sort.siftDown hi first fuel child1 (datapoints.Swap data (first + root) (first + child1))

/-- Library `heapSort(data, a, b)`: build the heap with the greatest element at
the top, then pop elements, largest first, into the end of the range. -/
def sort.heapSort (data : List Datapoint) (a b : Nat) : List Datapoint :=
  let first := a
  let lo := 0
  let hi := b - a
  let built := (List.range ((hi - 1) / 2 + 1)).reverse.foldl
    (fun d i => sort.siftDown hi first hi i d) data
  (List.range hi).reverse.foldl
    (fun d i => sort.siftDown i first i lo (datapoints.Swap d first (first + i))) built

/-- Number of bits needed to write `x`, by repeated halving. -/
def bits.LenAux : Nat → Nat → Nat
  | 0, _ => 0
  | fuel + 1, x => if x = 0 then 0 else 1 + bits.LenAux fuel (x / 2)

/-- Library `bits.Len`. -/
def bits.Len (x : Nat) : Nat := bits.LenAux x x

/-- Method `xorshift.Next` on a `uint64`:
`r ^= r << 13; r ^= r >> 7; r ^= r << 17`. -/
def sort.xorshiftNext (r : Nat) : Nat :=
  let r1 := (r ^^^ (r <<< 13)) % 2 ^ 64
  let r2 := r1 ^^^ (r1 >>> 7)
  (r2 ^^^ (r2 <<< 17)) % 2 ^ 64

/-- Library `nextPowerOfTwo(length)`: `1 << bits.Len(uint(length))`. -/
def sort.nextPowerOfTwo (length : Nat) : Nat := 2 ^ bits.Len length

/-- Library `breakPatterns(data, a, b)`: three swaps around the middle at
pseudo-random positions seeded by the length. -/
def sort.breakPatterns (data : List Datapoint) (a b : Nat) : List Datapoint :=
  let length := b - a
  if length ≥ 8 then
    let modulus := sort.nextPowerOfTwo length
    let idx := a + (length / 4) * 2 - 1
    let r1 := sort.xorshiftNext length
    let r2 := sort.xorshiftNext r1
    let r3 := sort.xorshiftNext r2
    [(0, r1), (1, r2), (2, r3)].foldl
      (fun d p =>
        let other := p.2 % modulus
        datapoints.Swap d (idx - 1 + p.1) (a + (if other ≥ length then other - length else other)))
      data
  else data

/-- Library type `sortedHint`. -/
inductive sortedHint where
  | unknownHint
  | increasingHint
  | decreasingHint
  deriving DecidableEq, Repr

/-- Library `order2(data, a, b, swaps)`: the pair in order, and the swap count. -/
def sort.order2 (data : List Datapoint) (a b swaps : Nat) : Nat × Nat × Nat :=
  if datapoints.Less data b a then (b, a, swaps + 1) else (a, b, swaps)

/-- Library `median(data, a, b, c, swaps)`: the index of the median of three,
and the swap count. -/
def sort.median (data : List Datapoint) (a b c swaps : Nat) : Nat × Nat :=
  let ab := sort.order2 data a b swaps
  let bc := sort.order2 data ab.2.1 c ab.2.2
  let r := sort.order2 data ab.1 bc.1 bc.2.2
  (r.2.1, r.2.2)

/-- Library `medianAdjacent(data, a, swaps)`. -/
def sort.medianAdjacent (data : List Datapoint) (a swaps : Nat) : Nat × Nat :=
  sort.median data (a - 1) a (a + 1) swaps

/-- Library `choosePivot(data, a, b)`: a pivot index and a hint on the order of
the range. -/
def sort.choosePivot (data : List Datapoint) (a b : Nat) : Nat × sortedHint :=
  let l := b - a
  let i := a + l / 4 * 1
  let j := a + l / 4 * 2
  let k := a + l / 4 * 3
  let r :=
    if l ≥ 8 then
      if l ≥ 50 then
        let mi := sort.medianAdjacent data i 0
        let mj := sort.medianAdjacent data j mi.2
        let mk := sort.medianAdjacent data k mj.2
        sort.median data mi.1 mj.1 mk.1 mk.2
      else sort.median data i j k 0
    else (j, 0)
  if r.2 = 0 then (r.1, .increasingHint)
  else if r.2 = 4 * 3 then (r.1, .decreasingHint)
  else (r.1, .unknownHint)

/-- The loop `for i < j { data.Swap(i, j); i++; j-- }` of `reverseRange`. -/
def sort.reverseLoop : Nat → Nat → Nat → List Datapoint → List Datapoint
  | 0, _, _, data => data
  | fuel + 1, i, j, data =>
    if i < j then sort.reverseLoop fuel (i + 1) (j - 1) (datapoints.Swap data i j) else data

/-- Library `reverseRange(data, a, b)`. -/
def sort.reverseRange (data : List Datapoint) (a b : Nat) : List Datapoint :=
  sort.reverseLoop (b - a) a (b - 1) data

/-- The loop `for i < b && !data.Less(i, i-1) { i++ }` of `partialInsertionSort`. -/
def sort.skipSorted (data : List Datapoint) (b : Nat) : Nat → Nat → Nat
  | 0, i => i
  | fuel + 1, i =>
    if i < b && !datapoints.Less data i (i - 1) then sort.skipSorted data b fuel (i + 1) else i

/-- The loop that shifts the smaller one to the left:
`for j := i - 1; j >= 1; j-- { if !data.Less(j, j-1) { break }; data.Swap(j, j-1) }`. -/
def sort.shiftSmaller : Nat → List Datapoint → List Datapoint
  | 0, data => data
  | j + 1, data =>
    if !datapoints.Less data (j + 1) j then data
    else sort.shiftSmaller j (datapoints.Swap data (j + 1) j)

/-- The loop that shifts the greater one to the right:
`for j := i + 1; j < b; j++ { if !data.Less(j, j-1) { break }; data.Swap(j, j-1) }`. -/
def sort.shiftGreater (b : Nat) : Nat → Nat → List Datapoint → List Datapoint
  | 0, _, data => data
  | fuel + 1, j, data =>
    if j < b then
      if !datapoints.Less data j (j - 1) then data
      else sort.shiftGreater b fuel (j + 1) (datapoints.Swap data j (j - 1))
    else data

/-- The loop `for j := 0; j < maxSteps; j++` of `partialInsertionSort`, with the
steps still allowed and the position `i`; the flag is the returned value. -/
def sort.partialInsertionSteps (a b : Nat) : Nat → Nat → List Datapoint → List Datapoint × Bool
  | 0, _, data => (data, false)
  | steps + 1, i, data =>
    let i1 := sort.skipSorted data b b i
    if i1 = b then (data, true)
    else if b - a < 50 then (data, false)
    else
      let d1 := datapoints.Swap data i1 (i1 - 1)
      let d2 := if i1 - a ≥ 2 then sort.shiftSmaller (i1 - 1) d1 else d1
      let d3 := if b - i1 ≥ 2 then sort.shiftGreater b b (i1 + 1) d2 else d2
      sort.partialInsertionSteps a b steps i1 d3

/-- Library `partialInsertionSort(data, a, b)` with `maxSteps = 5` and
`shortestShifting = 50`. -/
def sort.partialInsertionSort (data : List Datapoint) (a b : Nat) : List Datapoint × Bool :=
  sort.partialInsertionSteps a b 5 (a + 1) data

/-- The loop `for i <= j && data.Less(i, a) { i++ }` of `partition`. -/
def sort.scanLess (data : List Datapoint) (a j : Nat) : Nat → Nat → Nat
  | 0, i => i
  | fuel + 1, i =>
    if i ≤ j && datapoints.Less data i a then sort.scanLess data a j fuel (i + 1) else i

/-- The loop `for i <= j && !data.Less(j, a) { j-- }` of `partition`. -/
def sort.scanNotLess (data : List Datapoint) (a i : Nat) : Nat → Nat → Nat
  | 0, j => j
  | fuel + 1, j =>
    if i ≤ j && !datapoints.Less data j a then sort.scanNotLess data a i fuel (j - 1) else j

/-- The `for` loop of `partition` that ends at `i > j`; it returns `j`. -/
def sort.partitionLoop (a : Nat) : Nat → Nat → Nat → List Datapoint → List Datapoint × Nat
  | 0, _, j, data => (data, j)
  | fuel + 1, i, j, data =>
    let i1 := sort.scanLess data a j data.length i
    let j1 := sort.scanNotLess data a i1 data.length j
    if i1 > j1 then (data, j1)
    else sort.partitionLoop a fuel (i1 + 1) (j1 - 1) (datapoints.Swap data i1 j1)

/-- Library `partition(data, a, b, pivot)`: the new pivot position and whether
the range was already partitioned. -/
def sort.partition (data : List Datapoint) (a b pivot : Nat) : List Datapoint × Nat × Bool :=
  let d0 := datapoints.Swap data a pivot
  let i := sort.scanLess d0 a (b - 1) d0.length (a + 1)
  let j := sort.scanNotLess d0 a i d0.length (b - 1)
  if i > j then (datapoints.Swap d0 j a, j, true)
  else
    let r := sort.partitionLoop a d0.length (i + 1) (j - 1) (datapoints.Swap d0 i j)
    (datapoints.Swap r.1 r.2 a, r.2, false)

/-- The loop `for i <= j && !data.Less(a, i) { i++ }` of `partitionEqual`. -/
def sort.scanNotGreater (data : List Datapoint) (a j : Nat) : Nat → Nat → Nat
  | 0, i => i
  | fuel + 1, i =>
    if i ≤ j && !datapoints.Less data a i then sort.scanNotGreater data a j fuel (i + 1) else i

/-- The loop `for i <= j && data.Less(a, j) { j-- }` of `partitionEqual`. -/
def sort.scanGreater (data : List Datapoint) (a i : Nat) : Nat → Nat → Nat
  | 0, j => j
  | fuel + 1, j =>
    if i ≤ j && datapoints.Less data a j then sort.scanGreater data a i fuel (j - 1) else j

/-- The `for` loop of `partitionEqual` that ends at `i > j`; it returns `i`. -/
def sort.partitionEqualLoop (a : Nat) : Nat → Nat → Nat → List Datapoint → List Datapoint × Nat
  | 0, i, _, data => (data, i)
  | fuel + 1, i, j, data =>
    let i1 := sort.scanNotGreater data a j data.length i
    let j1 := sort.scanGreater data a i1 data.length j
    if i1 > j1 then (data, i1)
    else sort.partitionEqualLoop a fuel (i1 + 1) (j1 - 1) (datapoints.Swap data i1 j1)

/-- Library `partitionEqual(data, a, b, pivot)`. -/
def sort.partitionEqual (data : List Datapoint) (a b pivot : Nat) : List Datapoint × Nat :=
  let d0 := datapoints.Swap data a pivot
  sort.partitionEqualLoop a d0.length (a + 1) (b - 1) d0

/-- Library `pdqsort(data, a, b, limit)`.  The two flags are its local
variables `wasBalanced` and `wasPartitioned`; one unit of the budget is spent
per round of its loop, and a range of `n` elements needs at most `n` rounds on
every path, since each round hands on strictly shorter ranges. -/
def sort.pdqsort : Nat → List Datapoint → Nat → Nat → Nat → Bool → Bool → List Datapoint
  | 0, data, _, _, _, _, _ => data
  | fuel + 1, data, a, b, limit, wasBalanced, wasPartitioned =>
    let length := b - a
    if length ≤ 12 then sort.insertionSort data a b
    else if limit = 0 then sort.heapSort data a b
    else
      let d1 := if !wasBalanced then sort.breakPatterns data a b else data
      let limit1 := if !wasBalanced then limit - 1 else limit
      let ph := sort.choosePivot d1 a b
      let d2 := if ph.2 = .decreasingHint then sort.reverseRange d1 a b else d1
      let pivot := if ph.2 = .decreasingHint then (b - 1) - (ph.1 - a) else ph.1
      let hint := if ph.2 = .decreasingHint then sortedHint.increasingHint else ph.2
      let pis :=
        if wasBalanced && wasPartitioned && decide (hint = .increasingHint) then
          sort.partialInsertionSort d2 a b
        else (d2, false)
      if pis.2 then pis.1
      else if a > 0 && !datapoints.Less pis.1 (a - 1) pivot then
        let pe := sort.partitionEqual pis.1 a b pivot
        sort.pdqsort fuel pe.1 pe.2 b limit1 wasBalanced wasPartitioned
      else
        let pt := sort.partition pis.1 a b pivot
        let mid := pt.2.1
        let leftLen := mid - a
        let rightLen := b - mid
        let balanceThreshold := length / 8
        if leftLen < rightLen then
          sort.pdqsort fuel (sort.pdqsort fuel pt.1 a mid limit1 true true) (mid + 1) b limit1
            (decide (leftLen ≥ balanceThreshold)) pt.2.2
        else
          sort.pdqsort fuel (sort.pdqsort fuel pt.1 (mid + 1) b limit1 true true) a mid limit1
            (decide (rightLen ≥ balanceThreshold)) pt.2.2

/-- Library `sort.Sort(data)` of Go 1.19 and later. -/
def sort.Sort (data : List Datapoint) : List Datapoint :=
  let n := datapoints.Len data
  if n ≤ 1 then data else sort.pdqsort n data 0 n (bits.Len n) true true

/-- What `sort.Sort(data)` of Go 1.6 to 1.18 runs on a slice of at most 12
elements: `quickSort(data, 0, n, maxDepth(n))` skips its loop. -/
def sort.SortShort (data : List Datapoint) : List Datapoint :=
  sort.quickSortTail data 0 (datapoints.Len data)

/-- A world that sorts with the given routine, whose csv writer keeps the
records it is given, and that renders a timestamp as its number of seconds (the
zone database is not modelled) and a value as `strconv.FormatFloat` does.  The
daemon rejects every command. -/
def sortEnv (sortSort : List Datapoint → List Datapoint) :
    Env Unit String (List (List String)) String where
  sortSort := sortSort
  TempFile := fun s => (.ok "/tmp/gorp-123", s)
  Name := fun f => f
  Close := fun _ s => s
  NewWriter := fun _ => []
  Write := fun cw r s => ((cw ++ [r], none), s)
  Flush := fun cw s => (cw, s)
  formatTime := fun t => String.mk (formatInt t)
  FormatFloat := FormatFloatF
  Eval := fun _ s => (.error "connection refused", s)
  jsonEncode := fun r => .ok r
  decodeVec := fun _ => .error "EOF"
  decodeTs := fun _ => .error "EOF"

/-- Thirteen samples one minute apart, except that the seventh repeats the
timestamp of the third. -/
def lateBatch : List Datapoint :=
  [⟨1456080060, f6_39⟩, ⟨1456080120, f6_39⟩, ⟨1456080180, f6_23⟩, ⟨1456080240, f6_39⟩,
    ⟨1456080300, f6_39⟩, ⟨1456080360, f6_39⟩, ⟨1456080180, f6_24⟩, ⟨1456080420, f6_39⟩,
    ⟨1456080480, f6_39⟩, ⟨1456080540, f6_39⟩, ⟨1456080600, f6_39⟩, ⟨1456080660, f6_39⟩,
    ⟨1456080720, f6_39⟩]

/-- Seven samples: two with the timestamp 1456080120, four later ones, and an
earlier one at the end. -/
def shortBatch : List Datapoint :=
  [⟨1456080120, f6_23⟩, ⟨1456080120, f6_24⟩, ⟨1456080180, f6_39⟩, ⟨1456080240, f6_39⟩,
    ⟨1456080300, f6_39⟩, ⟨1456080360, f6_39⟩, ⟨1456080060, f6_39⟩]

/-! ## The world of `TestwriteCsv` -/

/-- Reference for the export: the csv writer and the world after `cw.Write` was
called with each of the records in turn, whatever the calls returned. -/
def writeEach {σ ω κ ρ : Type} (env : Env σ ω κ ρ) : List (List String) → κ → σ → κ × σ
  | [], cw, s => (cw, s)
  | r :: rest, cw, s => writeEach env rest (env.Write cw r s).1.1 (env.Write cw r s).2

/-- The civil date (year, month, day) of a count of days since 1970-01-01 in the
proleptic Gregorian calendar, the calendar of the library's `time.Time`. -/
def civilDate (days : Int) : Int × Int × Int :=
  let z := days + 719468
  let era := z / 146097
  let doe := z % 146097
  let yoe := (doe - doe / 1460 + doe / 36524 - doe / 146096) / 365
  let doy := doe - (365 * yoe + yoe / 4 - yoe / 100)
  let mp := (5 * doy + 2) / 153
  let d := doy - (153 * mp + 2) / 5 + 1
  let m := if mp < 10 then mp + 3 else mp - 9
  (if m ≤ 2 then yoe + era * 400 + 1 else yoe + era * 400, m, d)

/-- Library `appendInt(b, x, width)` of package `time`: the decimal digits of
`x`, padded with leading zeros to `width`, after a minus sign when `x < 0`. -/
def appendInt (x : Int) (width : Nat) : List Char :=
  signChars (decide (x < 0)) ++
    (zeros (width - (natDigits x.natAbs).length) ++ natDigits x.natAbs)

/-- Rendering `time.Unix(t, 0).Format("2006-01-02 15:04:05")` on a machine whose
local zone is `offset` seconds east of UTC at that instant. -/
def formatTimeAt (offset : Int) (t : Int) : String :=
  let loc := t + offset
  let date := civilDate (loc / 86400)
  let secs := loc % 86400
  String.mk (appendInt date.1 4 ++ '-' :: appendInt date.2.1 2 ++ '-' :: appendInt date.2.2 2 ++
    ' ' :: appendInt (secs / 3600) 2 ++ ':' :: appendInt (secs % 3600 / 60) 2 ++
    ':' :: appendInt (secs % 60) 2)

/-- Method `(*bytes.Buffer).Write`: the world is the content of the buffer; a
write takes all the bytes and never fails. -/
def bufferWrite (p : List Char) (s : List Char) : (Nat × Option String) × List Char :=
  ((p.length, none), s ++ p)

/-- The world of `TestwriteCsv`: the csv writer of the library over a
`bytes.Buffer`, on a machine whose local zone is five hours west of UTC (the
zone the lines expected by the test are written for).  The daemon rejects every
command. -/
def bufferEnv : Env (List Char) String BufWriter String where
  sortSort := sortByTimestamp
  TempFile := fun s => (.ok "/tmp/gorp-123", s)
  Name := fun f => f
  Close := fun _ s => s
  NewWriter := fun _ => ⟨none, []⟩
  Write := csvWrite bufferWrite
  Flush := bufFlush bufferWrite
  formatTime := formatTimeAt (-18000)
  FormatFloat := FormatFloatF
  Eval := fun _ s => (.error "connection refused", s)
  jsonEncode := fun r => .ok r
  decodeVec := fun _ => .error "EOF"
  decodeTs := fun _ => .error "EOF"

/-! ## Theorems -/

theorem process_vec_method {σ ω κ ρ : Type} (env : Env σ ω κ ρ) (pts : List Datapoint)
    (fname : String) (s : σ) (h : (process env pts "vec" fname s).err = none) :
    (process env pts "vec" fname s).res.Method = "vec" := by
  unfold process at h ⊢
  simp only [rCmdString] at h ⊢
  simp only [show ("vec" : String) ≠ "ts" by decide, if_false, if_true] at h ⊢
  cases hE : eval env ("processAnomsVec(\"" ++ fname ++ "\")") s with
  | mk r s1 =>
    cases r with
    | error e => simp [hE] at h
    | ok data =>
      simp only [hE] at h ⊢
      cases hJ : env.jsonEncode data with
      | error e => simp [hJ] at h
      | ok buf =>
        simp only [hJ] at h ⊢
        cases hD : env.decodeVec buf with
        | error e => simp [hD] at h
        | ok resp =>
          simp only [hD] at h ⊢
          unfold formatResponseVec at h ⊢
          by_cases hl : resp.Anoms.Index.length = resp.Anoms.Anoms.length
          · simp [hl]
          · simp [hl] at h

/-- C1: when the export succeeds, the "ts" attempt fails (for whatever reason)
and the "vec" attempt succeeds with result `r`, `GeneratePNG` returns `r` with no
error, and `r.Method` is "vec". -/
theorem GeneratePNG_falls_back_to_vec {σ ω κ ρ : Type} (env : Env σ ω κ ρ)
    (points : List Datapoint) (s : σ) (e : String) (r : Result)
    (hexport : (exportStep env points s).err = none)
    (hts : (tsAttempt env points s).err = some e)
    (hvec : (vecAttempt env points s).err = none)
    (hr : (vecAttempt env points s).res = r) :
    (GeneratePNG env points s).res = r ∧ (GeneratePNG env points s).err = none ∧
      r.Method = "vec" := by
  have hm : r.Method = "vec" := by
    rw [← hr]
    exact process_vec_method env (exportStep env points s).dps (exportStep env points s).fname
      (tsAttempt env points s).st hvec
  unfold exportStep at hexport
  unfold tsAttempt exportStep at hts
  unfold vecAttempt tsAttempt exportStep at hvec hr
  refine ⟨?_, ?_, hm⟩
  · simp only [GeneratePNG, hexport, hts, hvec, hr]
  · simp only [GeneratePNG, hexport, hts, hvec]

/-- C1 at the end-to-end scenario of the specification: three samples, a daemon
that rejects "ts" and answers "vec" with anomalies at positions 0 and 2. -/
theorem GeneratePNG_falls_back_to_vec_witness :
    (exportStep (testEnv true) testPoints ()).err = none ∧
    (tsAttempt (testEnv true) testPoints ()).err = some "r eval err: ts: not a time series" ∧
    (vecAttempt (testEnv true) testPoints ()).err = none ∧
    (GeneratePNG (testEnv true) testPoints ()).res =
      ⟨[⟨0, f6_24⟩, ⟨2, f6_39⟩], [137, 80, 78, 71], "vec"⟩ ∧
    (GeneratePNG (testEnv true) testPoints ()).err = none ∧
    (⟨[⟨0, f6_24⟩, ⟨2, f6_39⟩], [137, 80, 78, 71], "vec"⟩ : Result).Method = "vec" :=
  ⟨by decide, by decide, by decide,
    GeneratePNG_falls_back_to_vec (testEnv true) testPoints () "r eval err: ts: not a time series"
      ⟨[⟨0, f6_24⟩, ⟨2, f6_39⟩], [137, 80, 78, 71], "vec"⟩
      (by decide) (by decide) (by decide) (by decide)⟩

/-- C2: when the export succeeds and both attempts fail, `GeneratePNG` returns
the error "processVec err: " followed by the text of the "vec" attempt's error;
the "ts" attempt's error `e1` does not occur in it. -/
theorem GeneratePNG_reports_vec_error {σ ω κ ρ : Type} (env : Env σ ω κ ρ)
    (points : List Datapoint) (s : σ) (e1 e2 : String)
    (hexport : (exportStep env points s).err = none)
    (hts : (tsAttempt env points s).err = some e1)
    (hvec : (vecAttempt env points s).err = some e2) :
    (GeneratePNG env points s).err = some ("processVec err: " ++ e2) ∧
      (GeneratePNG env points s).res = (vecAttempt env points s).res := by
  unfold exportStep at hexport
  unfold tsAttempt exportStep at hts
  unfold vecAttempt tsAttempt exportStep at hvec ⊢
  constructor
  · simp only [GeneratePNG, hexport, hts, hvec]
  · simp only [GeneratePNG, hexport, hts, hvec]

/-- C2 at a daemon that rejects both calls. -/
theorem GeneratePNG_reports_vec_error_witness :
    (exportStep (testEnv false) testPoints ()).err = none ∧
    (tsAttempt (testEnv false) testPoints ()).err = some "r eval err: ts: not a time series" ∧
    (vecAttempt (testEnv false) testPoints ()).err = some "r eval err: vec: no data" ∧
    (GeneratePNG (testEnv false) testPoints ()).err =
      some ("processVec err: " ++ "r eval err: vec: no data") ∧
    (GeneratePNG (testEnv false) testPoints ()).res =
      (vecAttempt (testEnv false) testPoints ()).res :=
  ⟨by decide, by decide, by decide,
    GeneratePNG_reports_vec_error (testEnv false) testPoints ()
      "r eval err: ts: not a time series" "r eval err: vec: no data"
      (by decide) (by decide) (by decide)⟩

/-- C3: a `vecResponse` whose `Index` and `Anoms` differ in length, and a
`tsResponse` whose `Anoms` and `Timestamp` differ in length, are answered with
an error naming the two lengths and the empty `Result`: no anomaly is produced,
so nothing is zipped to the shorter length. -/
theorem formatResponse_length_mismatch :
    (∀ r : vecResponse, r.Anoms.Index.length ≠ r.Anoms.Anoms.length →
      formatResponseVec r =
        (({} : Result), some ("non-equal number of indices and anomalies (" ++
          fmtD r.Anoms.Index.length ++ " != " ++ fmtD r.Anoms.Anoms.length ++ ")")) ∧
      (formatResponseVec r).1.Anomalies = []) ∧
    (∀ r : tsResponse, r.Anoms.Anoms.length ≠ r.Anoms.Timestamp.length →
      formatResponseTs r =
        (({} : Result), some ("non-equal number of anomalies and timestamps (" ++
          fmtD r.Anoms.Anoms.length ++ " != " ++ fmtD r.Anoms.Timestamp.length ++ ")")) ∧
      (formatResponseTs r).1.Anomalies = []) := by
  constructor
  · intro r h
    unfold formatResponseVec
    simp [h]
  · intro r h
    unfold formatResponseTs
    simp [h]

theorem enum_map_getD {α β γ : Type} (d : β) (f : α → β → γ) (ys : List β) :
    ∀ (xs : List α) (k : Nat), xs.length = (ys.drop k).length →
      (xs.enumFrom k).map (fun p => f p.2 (ys.getD p.1 d)) = List.zipWith f xs (ys.drop k) := by
  intro xs
  induction xs with
  | nil => intro k _; simp
  | cons x xs ih =>
    intro k h
    have hk : k < ys.length := by
      simp only [List.length_cons, List.length_drop] at h
      omega
    have hd : ys.drop k = ys[k] :: ys.drop (k + 1) := by
      rw [List.drop_eq_getElem_cons hk]
    rw [hd]
    simp only [List.enumFrom_cons, List.map_cons, List.zipWith_cons_cons]
    congr 1
    · simp [List.getD_eq_getElem?_getD, hk]
    · apply ih
      simp only [List.length_cons, List.length_drop] at h ⊢
      omega

/-- C4: a `vecResponse` with `len(Index) = len(Anoms) = n` is formatted without
error into a `Result` with exactly `n` anomalies, anomaly `i` being
`(Index[i], Anoms[i])`, with the response's `Data` as `PngData` and method "vec". -/
theorem formatResponseVec_ok (r : vecResponse) (n : Nat)
    (hi : r.Anoms.Index.length = n) (ha : r.Anoms.Anoms.length = n) :
    (formatResponseVec r).2 = none ∧
    (formatResponseVec r).1.Anomalies.length = n ∧
    (∀ i, i < n → ∃ idx v, r.Anoms.Index[i]? = some idx ∧ r.Anoms.Anoms[i]? = some v ∧
      (formatResponseVec r).1.Anomalies[i]? = some ⟨idx, v⟩) ∧
    (formatResponseVec r).1.PngData = r.Data ∧
    (formatResponseVec r).1.Method = "vec" := by
  have hz := enum_map_getD Float64.zero (fun (idx : Int) v => (⟨idx, v⟩ : Datapoint))
    r.Anoms.Anoms r.Anoms.Index 0 (by simp [hi, ha])
  have hA : (formatResponseVec r).1.Anomalies =
      List.zipWith (fun (idx : Int) v => (⟨idx, v⟩ : Datapoint)) r.Anoms.Index r.Anoms.Anoms := by
    unfold formatResponseVec
    simp only [hi, ha, ne_eq, not_true_eq_false, if_false]
    simpa [List.enum] using hz
  refine ⟨?_, ?_, ?_, ?_, ?_⟩
  · unfold formatResponseVec; simp [hi, ha]
  · rw [hA]; simp [hi, ha]
  · intro i hlt
    have h1 : i < r.Anoms.Index.length := by omega
    have h2 : i < r.Anoms.Anoms.length := by omega
    refine ⟨r.Anoms.Index[i], r.Anoms.Anoms[i], by simp [h1], by simp [h2], ?_⟩
    rw [hA]
    simp [List.getElem?_zipWith, h1, h2]
  · unfold formatResponseVec; simp [hi, ha]
  · unfold formatResponseVec; simp [hi, ha]

/-- C4 at the vector reply of the test world. -/
theorem formatResponseVec_ok_witness :
    (vecReply.Anoms.Index.length = 2 ∧ vecReply.Anoms.Anoms.length = 2) ∧
    (formatResponseVec vecReply).2 = none ∧
    (formatResponseVec vecReply).1.Anomalies.length = 2 ∧
    (∀ i, i < 2 → ∃ idx v, vecReply.Anoms.Index[i]? = some idx ∧
      vecReply.Anoms.Anoms[i]? = some v ∧
      (formatResponseVec vecReply).1.Anomalies[i]? = some ⟨idx, v⟩) ∧
    (formatResponseVec vecReply).1.PngData = vecReply.Data ∧
    (formatResponseVec vecReply).1.Method = "vec" :=
  ⟨⟨rfl, rfl⟩, formatResponseVec_ok vecReply 2 rfl rfl⟩

/-- C5 as stated fails: the reply `tsReplyHuge` has arrays of equal length 1, its
timestamp is the finite float `2^63`, whose truncation toward zero is
`9223372036854775808`, and the anomaly's `Timestamp` is `-9223372036854775808`. -/
theorem formatResponseTs_truncation_counterexample :
    tsReplyHuge.Anoms.Anoms.length = 1 ∧ tsReplyHuge.Anoms.Timestamp.length = 1 ∧
    tsReplyHuge.Anoms.Timestamp[0]? = some (.finite false 4503599627370496 11) ∧
    truncFinite false 4503599627370496 11 = 9223372036854775808 ∧
    (formatResponseTs tsReplyHuge).2 = none ∧
    (formatResponseTs tsReplyHuge).1.Anomalies[0]? = some ⟨-9223372036854775808, f6_24⟩ ∧
    ((formatResponseTs tsReplyHuge).1.Anomalies.map Datapoint.Timestamp ≠
      [truncFinite false 4503599627370496 11]) := by
  decide

/-- C5, amended: a `tsResponse` with `len(Anoms) = len(Timestamp) = n` is
formatted without error into a `Result` with exactly `n` anomalies, anomaly `i`
being `(int64(Timestamp[i]), Anoms[i])`, with the response's `Data` as `PngData`
and method "ts"; `int64(Timestamp[i])` is `Timestamp[i]` truncated toward zero
whenever `Timestamp[i]` is finite and its truncation lies in the `int64` range. -/
theorem formatResponseTs_ok (r : tsResponse) (n : Nat)
    (ha : r.Anoms.Anoms.length = n) (ht : r.Anoms.Timestamp.length = n) :
    (formatResponseTs r).2 = none ∧
    (formatResponseTs r).1.Anomalies.length = n ∧
    (∀ i, i < n → ∃ tsf v, r.Anoms.Timestamp[i]? = some tsf ∧ r.Anoms.Anoms[i]? = some v ∧
      (formatResponseTs r).1.Anomalies[i]? = some ⟨tsf.toInt64, v⟩ ∧
      (∀ neg m e, tsf = .finite neg m e → minInt64 ≤ truncFinite neg m e →
        truncFinite neg m e ≤ maxInt64 → tsf.toInt64 = truncFinite neg m e)) ∧
    (formatResponseTs r).1.PngData = r.Data ∧
    (formatResponseTs r).1.Method = "ts" := by
  have hz := enum_map_getD Float64.zero
    (fun (tsf : Float64) v => (⟨tsf.toInt64, v⟩ : Datapoint))
    r.Anoms.Anoms r.Anoms.Timestamp 0 (by simp [ha, ht])
  have hA : (formatResponseTs r).1.Anomalies =
      List.zipWith (fun (tsf : Float64) v => (⟨tsf.toInt64, v⟩ : Datapoint))
        r.Anoms.Timestamp r.Anoms.Anoms := by
    unfold formatResponseTs
    simp only [ha, ht, ne_eq, not_true_eq_false, if_false]
    simpa [List.enum] using hz
  refine ⟨?_, ?_, ?_, ?_, ?_⟩
  · unfold formatResponseTs; simp [ha, ht]
  · rw [hA]; simp [ha, ht]
  · intro i hlt
    have h1 : i < r.Anoms.Timestamp.length := by omega
    have h2 : i < r.Anoms.Anoms.length := by omega
    refine ⟨r.Anoms.Timestamp[i], r.Anoms.Anoms[i], by simp [h1], by simp [h2], ?_, ?_⟩
    · rw [hA]
      simp [List.getElem?_zipWith, h1, h2]
    · intro neg m e hf hlo hhi
      rw [hf]
      simp [Float64.toInt64, hlo, hhi]
  · unfold formatResponseTs; simp [ha, ht]
  · unfold formatResponseTs; simp [ha, ht]

/-- C5, amended, at a reply with the timestamps `1456080911.0` and
`1456080911.75`: both anomalies get the timestamp `1456080911`. -/
theorem formatResponseTs_ok_witness :
    (tsReply.Anoms.Anoms.length = 2 ∧ tsReply.Anoms.Timestamp.length = 2) ∧
    (formatResponseTs tsReply).1.Anomalies = [⟨1456080911, f6_24⟩, ⟨1456080911, f6_39⟩] ∧
    (formatResponseTs tsReply).2 = none ∧
    (formatResponseTs tsReply).1.Anomalies.length = 2 ∧
    (∀ i, i < 2 → ∃ tsf v, tsReply.Anoms.Timestamp[i]? = some tsf ∧
      tsReply.Anoms.Anoms[i]? = some v ∧
      (formatResponseTs tsReply).1.Anomalies[i]? = some ⟨tsf.toInt64, v⟩ ∧
      (∀ neg m e, tsf = .finite neg m e → minInt64 ≤ truncFinite neg m e →
        truncFinite neg m e ≤ maxInt64 → tsf.toInt64 = truncFinite neg m e)) ∧
    (formatResponseTs tsReply).1.PngData = tsReply.Data ∧
    (formatResponseTs tsReply).1.Method = "ts" :=
  ⟨⟨rfl, rfl⟩, by decide, formatResponseTs_ok tsReply 2 rfl rfl⟩

theorem sorted_of_contract (sort : List Datapoint → List Datapoint) (h : SortContract sort)
    (dps : List Datapoint) :
    (sort dps).Sorted (fun a b => a.Timestamp ≤ b.Timestamp) := by
  unfold List.Sorted
  rw [List.pairwise_iff_getElem]
  intro i j hi hj hij
  have hc := (h dps).2 i j hij hj
  simp only [datapoints.Less, List.getD_eq_getElem?_getD, List.getElem?_eq_getElem hi,
    List.getElem?_eq_getElem hj, Option.getD_some, decide_eq_false_iff_not, not_lt] at hc
  exact hc

theorem sortByTimestamp_contract : SortContract sortByTimestamp := by
  intro dps
  haveI : IsTotal Datapoint (fun a b => a.Timestamp ≤ b.Timestamp) :=
    ⟨fun a b => le_total a.Timestamp b.Timestamp⟩
  haveI : IsTrans Datapoint (fun a b => a.Timestamp ≤ b.Timestamp) :=
    ⟨fun a b c hab hbc => le_trans hab hbc⟩
  refine ⟨List.perm_insertionSort _ dps, ?_⟩
  intro i j hij hj
  have hs : (sortByTimestamp dps).Sorted (fun a b => a.Timestamp ≤ b.Timestamp) :=
    List.sorted_insertionSort _ dps
  unfold List.Sorted at hs
  rw [List.pairwise_iff_getElem] at hs
  have hj2 : j < (sortByTimestamp dps).length := hj
  have hi2 : i < (sortByTimestamp dps).length := by omega
  have := hs i j hi2 hj2 hij
  simp only [datapoints.Less, List.getD_eq_getElem?_getD, List.getElem?_eq_getElem hi2,
    List.getElem?_eq_getElem hj2, Option.getD_some, decide_eq_false_iff_not, not_lt]
  exact this

theorem writeRows_ok {σ ω κ ρ : Type} (env : Env σ ω κ ρ) :
    ∀ (l : List Datapoint) (cw : κ) (s : σ) (log : List (List String)),
      (writeRows env l cw s log).2.2.2 = none →
      (writeRows env l cw s log).2.2.1 = log ++ l.map (csvRow env) := by
  intro l
  induction l with
  | nil => intro cw s log _; simp [writeRows]
  | cons dp rest ih =>
    intro cw s log h
    unfold writeRows at h ⊢
    cases hw : env.Write cw (csvRow env dp) s with
    | mk a s1 =>
      cases a with
      | mk cw1 e =>
        cases e with
        | some e => simp [hw] at h
        | none =>
          simp only [hw] at h ⊢
          rw [ih cw1 s1 _ h]
          simp

theorem writeRows_no_error {σ ω κ ρ : Type} (env : Env σ ω κ ρ)
    (hw : ∀ cw r s, (env.Write cw r s).1.2 = none) :
    ∀ (l : List Datapoint) (cw : κ) (s : σ) (log : List (List String)),
      (writeRows env l cw s log).2.2.2 = none := by
  intro l
  induction l with
  | nil => intro cw s log; simp [writeRows]
  | cons dp rest ih =>
    intro cw s log
    unfold writeRows
    have h1 := hw cw (csvRow env dp) s
    cases hw2 : env.Write cw (csvRow env dp) s with
    | mk a s1 =>
      cases a with
      | mk cw1 e =>
        rw [hw2] at h1
        simp only at h1
        subst h1
        exact ih cw1 s1 _

theorem writeCsv_dps {σ ω κ ρ : Type} (env : Env σ ω κ ρ) (dps : List Datapoint) (w : ω)
    (s : σ) : (writeCsv env dps w s).dps = env.sortSort dps := by
  unfold writeCsv
  simp only
  split <;> rfl

theorem writeRows_effect {σ ω κ ρ : Type} (env : Env σ ω κ ρ) :
    ∀ (l : List Datapoint) (cw : κ) (s : σ) (log : List (List String)),
      ((writeRows env l cw s log).2.2.2 = none →
        ((writeRows env l cw s log).1, (writeRows env l cw s log).2.1) =
          writeEach env (l.map (csvRow env)) cw s ∧
        ∀ pre dp post, l = pre ++ dp :: post →
          (env.Write (writeEach env (pre.map (csvRow env)) cw s).1 (csvRow env dp)
            (writeEach env (pre.map (csvRow env)) cw s).2).1.2 = none) ∧
      (∀ e, (writeRows env l cw s log).2.2.2 = some e →
        ∃ pre dp post, l = pre ++ dp :: post ∧
          (writeRows env l cw s log).2.2.1 = log ++ (pre ++ [dp]).map (csvRow env) ∧
          ((writeRows env l cw s log).1, (writeRows env l cw s log).2.1) =
            writeEach env ((pre ++ [dp]).map (csvRow env)) cw s ∧
          (env.Write (writeEach env (pre.map (csvRow env)) cw s).1 (csvRow env dp)
            (writeEach env (pre.map (csvRow env)) cw s).2).1.2 = some e ∧
          ∀ pre2 dp2 post2, pre = pre2 ++ dp2 :: post2 →
            (env.Write (writeEach env (pre2.map (csvRow env)) cw s).1 (csvRow env dp2)
              (writeEach env (pre2.map (csvRow env)) cw s).2).1.2 = none) := by
  intro l
  induction l with
  | nil =>
    intro cw s log
    refine ⟨fun _ => ⟨rfl, ?_⟩, ?_⟩
    · intro pre dp post h
      cases pre <;> simp at h
    · intro e h
      simp [writeRows] at h
  | cons d rest ih =>
    intro cw s log
    cases hw : env.Write cw (csvRow env d) s with
    | mk a s1 =>
      cases a with
      | mk cw1 oe =>
        have h1 : (env.Write cw (csvRow env d) s).1.1 = cw1 := by rw [hw]
        have h2 : (env.Write cw (csvRow env d) s).2 = s1 := by rw [hw]
        have h3 : (env.Write cw (csvRow env d) s).1.2 = oe := by rw [hw]
        cases oe with
        | some e0 =>
          have hr : writeRows env (d :: rest) cw s log =
              (cw1, s1, log ++ [csvRow env d], some e0) := by
            simp only [writeRows, hw]
          rw [hr]
          refine ⟨fun h => by simp at h, ?_⟩
          intro e he
          simp only [Option.some.injEq] at he
          subst he
          refine ⟨[], d, rest, rfl, rfl, ?_, ?_, ?_⟩
          · simp only [List.nil_append, List.map_cons, List.map_nil, writeEach, h1, h2]
          · simp only [List.map_nil, writeEach]
            exact h3
          · intro pre2 dp2 post2 h
            cases pre2 <;> simp at h
        | none =>
          have hr : writeRows env (d :: rest) cw s log =
              writeRows env rest cw1 s1 (log ++ [csvRow env d]) := by
            simp only [writeRows, hw]
          rw [hr]
          have hih := ih cw1 s1 (log ++ [csvRow env d])
          have hcons : ∀ pre : List Datapoint,
              writeEach env ((d :: pre).map (csvRow env)) cw s =
                writeEach env (pre.map (csvRow env)) cw1 s1 := by
            intro pre
            simp only [List.map_cons, writeEach, h1, h2]
          refine ⟨?_, ?_⟩
          · intro hn
            obtain ⟨ha, hb⟩ := hih.1 hn
            refine ⟨?_, ?_⟩
            · rw [ha, hcons]
            · intro pre dp post h
              cases pre with
              | nil =>
                simp only [List.nil_append, List.cons.injEq] at h
                obtain ⟨hd, _⟩ := h
                subst hd
                simp only [List.map_nil, writeEach]
                exact h3
              | cons p pre2 =>
                simp only [List.cons_append, List.cons.injEq] at h
                obtain ⟨hd, ht⟩ := h
                subst hd
                rw [hcons]
                exact hb pre2 dp post ht
          · intro e he
            obtain ⟨pre, dp, post, hl, hlog, hst, hfail, hearlier⟩ := hih.2 e he
            refine ⟨d :: pre, dp, post, ?_, ?_, ?_, ?_, ?_⟩
            · rw [hl]; rfl
            · rw [hlog]; simp
            · rw [hst, List.cons_append, hcons]
            · rw [hcons]; exact hfail
            · intro pre2 dp2 post2 h
              cases pre2 with
              | nil =>
                simp only [List.nil_append, List.cons.injEq] at h
                obtain ⟨hd, _⟩ := h
                subst hd
                simp only [List.map_nil, writeEach]
                exact h3
              | cons p pre3 =>
                simp only [List.cons_append, List.cons.injEq] at h
                obtain ⟨hd, ht⟩ := h
                subst hd
                rw [hcons]
                exact hearlier pre3 dp2 post2 ht

theorem writeCsv_unfold {σ ω κ ρ : Type} (env : Env σ ω κ ρ) (dps : List Datapoint) (w : ω)
    (s : σ) :
    ((writeRows env (env.sortSort dps) (env.Write (env.NewWriter w) csvHeader s).1.1
        (env.Write (env.NewWriter w) csvHeader s).2 [csvHeader]).2.2.2 = none →
      writeCsv env dps w s =
        ⟨env.sortSort dps,
          (env.Flush
            (writeRows env (env.sortSort dps) (env.Write (env.NewWriter w) csvHeader s).1.1
              (env.Write (env.NewWriter w) csvHeader s).2 [csvHeader]).1
            (writeRows env (env.sortSort dps) (env.Write (env.NewWriter w) csvHeader s).1.1
              (env.Write (env.NewWriter w) csvHeader s).2 [csvHeader]).2.1).1,
          (env.Flush
            (writeRows env (env.sortSort dps) (env.Write (env.NewWriter w) csvHeader s).1.1
              (env.Write (env.NewWriter w) csvHeader s).2 [csvHeader]).1
            (writeRows env (env.sortSort dps) (env.Write (env.NewWriter w) csvHeader s).1.1
              (env.Write (env.NewWriter w) csvHeader s).2 [csvHeader]).2.1).2,
          (writeRows env (env.sortSort dps) (env.Write (env.NewWriter w) csvHeader s).1.1
            (env.Write (env.NewWriter w) csvHeader s).2 [csvHeader]).2.2.1, none⟩) ∧
    (∀ e, (writeRows env (env.sortSort dps) (env.Write (env.NewWriter w) csvHeader s).1.1
        (env.Write (env.NewWriter w) csvHeader s).2 [csvHeader]).2.2.2 = some e →
      writeCsv env dps w s =
        ⟨env.sortSort dps,
          (writeRows env (env.sortSort dps) (env.Write (env.NewWriter w) csvHeader s).1.1
            (env.Write (env.NewWriter w) csvHeader s).2 [csvHeader]).1,
          (writeRows env (env.sortSort dps) (env.Write (env.NewWriter w) csvHeader s).1.1
            (env.Write (env.NewWriter w) csvHeader s).2 [csvHeader]).2.1,
          (writeRows env (env.sortSort dps) (env.Write (env.NewWriter w) csvHeader s).1.1
            (env.Write (env.NewWriter w) csvHeader s).2 [csvHeader]).2.2.1, some e⟩) := by
  unfold writeCsv
  simp only
  constructor
  · intro h
    split
    · rename_i cw2 s2 log e heq
      rw [heq] at h
      simp at h
    · rename_i cw2 s2 log heq
      rw [heq]
  · intro e h
    split
    · rename_i cw2 s2 log e2 heq
      rw [heq] at h
      simp only [Option.some.injEq] at h
      subst h
      rw [heq]
    · rename_i cw2 s2 log heq
      rw [heq] at h
      simp at h

/-- C7: for every batch, `writeCsv` leaves the batch sorted: the rows are those
of a permutation of the input whose timestamps are non-decreasing.  When it
returns no error, the records handed to the csv writer are the header
`date,value` followed by exactly one record per sample of that permutation, in
that order; the csv writer and the world it writes to are what `cw.Flush()`
leaves after `cw.Write` was called with exactly these records in turn, and
every `cw.Write` of a row returned no error.  It returns no error when no
`Write` of the csv writer fails.  When it returns an error, that error is the
one of the first row whose `cw.Write` failed; the header and the rows up to and
including that one were handed to the writer, in order, and nothing was flushed. -/
theorem writeCsv_sorted_rows {σ ω κ ρ : Type} (env : Env σ ω κ ρ)
    (hsort : SortContract env.sortSort) (dps : List Datapoint) (w : ω) (s : σ) :
    (writeCsv env dps w s).dps.Perm dps ∧
    (writeCsv env dps w s).dps.Sorted (fun a b => a.Timestamp ≤ b.Timestamp) ∧
    ((writeCsv env dps w s).err = none →
      (writeCsv env dps w s).records =
        ["date", "value"] :: (writeCsv env dps w s).dps.map (csvRow env) ∧
      (writeCsv env dps w s).records.length = dps.length + 1) ∧
    ((∀ cw r st, (env.Write cw r st).1.2 = none) → (writeCsv env dps w s).err = none) ∧
    ((writeCsv env dps w s).err = none →
      ((writeCsv env dps w s).cw, (writeCsv env dps w s).st) =
        env.Flush
          (writeEach env (["date", "value"] :: (writeCsv env dps w s).dps.map (csvRow env))
            (env.NewWriter w) s).1
          (writeEach env (["date", "value"] :: (writeCsv env dps w s).dps.map (csvRow env))
            (env.NewWriter w) s).2 ∧
      ∀ pre dp post, (writeCsv env dps w s).dps = pre ++ dp :: post →
        (env.Write
          (writeEach env (["date", "value"] :: pre.map (csvRow env)) (env.NewWriter w) s).1
          (csvRow env dp)
          (writeEach env (["date", "value"] :: pre.map (csvRow env)) (env.NewWriter w) s).2).1.2 =
          none) ∧
    (∀ e, (writeCsv env dps w s).err = some e →
      ∃ pre dp post, (writeCsv env dps w s).dps = pre ++ dp :: post ∧
        (writeCsv env dps w s).records =
          ["date", "value"] :: (pre ++ [dp]).map (csvRow env) ∧
        ((writeCsv env dps w s).cw, (writeCsv env dps w s).st) =
          writeEach env (["date", "value"] :: (pre ++ [dp]).map (csvRow env))
            (env.NewWriter w) s ∧
        (env.Write
          (writeEach env (["date", "value"] :: pre.map (csvRow env)) (env.NewWriter w) s).1
          (csvRow env dp)
          (writeEach env (["date", "value"] :: pre.map (csvRow env)) (env.NewWriter w) s).2).1.2 =
          some e ∧
        ∀ pre2 dp2 post2, pre = pre2 ++ dp2 :: post2 →
          (env.Write
            (writeEach env (["date", "value"] :: pre2.map (csvRow env)) (env.NewWriter w) s).1
            (csvRow env dp2)
            (writeEach env (["date", "value"] :: pre2.map (csvRow env))
              (env.NewWriter w) s).2).1.2 = none) := by
  have hd := writeCsv_dps env dps w s
  have hu := writeCsv_unfold env dps w s
  have hk := writeRows_effect env (env.sortSort dps)
    (env.Write (env.NewWriter w) csvHeader s).1.1 (env.Write (env.NewWriter w) csvHeader s).2
    [csvHeader]
  have hhead : ∀ rs : List (List String),
      writeEach env (["date", "value"] :: rs) (env.NewWriter w) s =
        writeEach env rs (env.Write (env.NewWriter w) csvHeader s).1.1
          (env.Write (env.NewWriter w) csvHeader s).2 := fun rs => rfl
  have herr : ∀ o, (writeCsv env dps w s).err = o →
      (writeRows env (env.sortSort dps) (env.Write (env.NewWriter w) csvHeader s).1.1
        (env.Write (env.NewWriter w) csvHeader s).2 [csvHeader]).2.2.2 = o := by
    intro o ho
    cases hc : (writeRows env (env.sortSort dps) (env.Write (env.NewWriter w) csvHeader s).1.1
        (env.Write (env.NewWriter w) csvHeader s).2 [csvHeader]).2.2.2 with
    | none => rw [hu.1 hc] at ho; exact ho
    | some e => rw [hu.2 e hc] at ho; exact ho
  refine ⟨?_, ?_, ?_, ?_, ?_, ?_⟩
  · rw [hd]; exact (hsort dps).1
  · rw [hd]; exact sorted_of_contract _ hsort dps
  · intro he
    have hrec : (writeCsv env dps w s).records =
        ["date", "value"] :: (writeCsv env dps w s).dps.map (csvRow env) := by
      have hn := herr none he
      have hro := writeRows_ok env (env.sortSort dps)
        (env.Write (env.NewWriter w) csvHeader s).1.1
        (env.Write (env.NewWriter w) csvHeader s).2 [csvHeader] hn
      rw [hu.1 hn]
      simp only
      rw [hro]
      rfl
    refine ⟨hrec, ?_⟩
    rw [hrec, hd]
    simp [(hsort dps).1.length_eq]
  · intro hw
    have hno := writeRows_no_error env hw (env.sortSort dps)
      (env.Write (env.NewWriter w) csvHeader s).1.1
      (env.Write (env.NewWriter w) csvHeader s).2 [csvHeader]
    rw [hu.1 hno]
  · intro he
    have hn := herr none he
    obtain ⟨ha, hb⟩ := hk.1 hn
    refine ⟨?_, ?_⟩
    · rw [hd, hhead, ← ha, hu.1 hn]
    · intro pre dp post hsplit
      rw [hd] at hsplit
      rw [hhead]
      exact hb pre dp post hsplit
  · intro e he
    have hn := herr (some e) he
    obtain ⟨pre, dp, post, hl, hlog, hst, hfail, hearlier⟩ := hk.2 e hn
    refine ⟨pre, dp, post, ?_, ?_, ?_, ?_, ?_⟩
    · rw [hd]; exact hl
    · rw [hu.2 e hn]
      simp only
      rw [hlog]
      rfl
    · rw [hhead, ← hst, hu.2 e hn]
    · rw [hhead]; exact hfail
    · intro pre2 dp2 post2 h
      rw [hhead]
      exact hearlier pre2 dp2 post2 h

set_option maxRecDepth 100000 in
/-- C7 at `TestwriteCsv`: the batch of `datapoint_test.go` is written through
the library's csv writer to a buffer, which then holds the four lines the test
expects, the rows in the order 1456080851, 1456080911, 1456080971. -/
theorem writeCsv_sorted_rows_witness :
    SortContract bufferEnv.sortSort ∧
    (writeCsv bufferEnv testPoints "buf" []).err = none ∧
    String.mk (writeCsv bufferEnv testPoints "buf" []).st =
      "date,value\n2016-02-21 13:54:11,6.23\n2016-02-21 13:55:11,6.24\n2016-02-21 13:56:11,6.39\n" ∧
    (writeCsv bufferEnv testPoints "buf" []).cw = ⟨none, []⟩ ∧
    (writeCsv bufferEnv testPoints "buf" []).records =
      [["date", "value"], ["2016-02-21 13:54:11", "6.23"], ["2016-02-21 13:55:11", "6.24"],
        ["2016-02-21 13:56:11", "6.39"]] ∧
    (writeCsv bufferEnv testPoints "buf" []).dps.map Datapoint.Timestamp =
      [1456080851, 1456080911, 1456080971] ∧
    ((writeCsv bufferEnv testPoints "buf" []).dps.Perm testPoints ∧
    (writeCsv bufferEnv testPoints "buf" []).dps.Sorted (fun a b => a.Timestamp ≤ b.Timestamp) ∧
    ((writeCsv bufferEnv testPoints "buf" []).err = none →
      (writeCsv bufferEnv testPoints "buf" []).records =
        ["date", "value"] :: (writeCsv bufferEnv testPoints "buf" []).dps.map (csvRow bufferEnv) ∧
      (writeCsv bufferEnv testPoints "buf" []).records.length = testPoints.length + 1) ∧
    ((∀ cw r st, (bufferEnv.Write cw r st).1.2 = none) →
      (writeCsv bufferEnv testPoints "buf" []).err = none) ∧
    ((writeCsv bufferEnv testPoints "buf" []).err = none →
      ((writeCsv bufferEnv testPoints "buf" []).cw, (writeCsv bufferEnv testPoints "buf" []).st) =
        bufferEnv.Flush
          (writeEach bufferEnv
            (["date", "value"] ::
              (writeCsv bufferEnv testPoints "buf" []).dps.map (csvRow bufferEnv))
            (bufferEnv.NewWriter "buf") []).1
          (writeEach bufferEnv
            (["date", "value"] ::
              (writeCsv bufferEnv testPoints "buf" []).dps.map (csvRow bufferEnv))
            (bufferEnv.NewWriter "buf") []).2 ∧
      ∀ pre dp post, (writeCsv bufferEnv testPoints "buf" []).dps = pre ++ dp :: post →
        (bufferEnv.Write
          (writeEach bufferEnv (["date", "value"] :: pre.map (csvRow bufferEnv))
            (bufferEnv.NewWriter "buf") []).1
          (csvRow bufferEnv dp)
          (writeEach bufferEnv (["date", "value"] :: pre.map (csvRow bufferEnv))
            (bufferEnv.NewWriter "buf") []).2).1.2 = none) ∧
    (∀ e, (writeCsv bufferEnv testPoints "buf" []).err = some e →
      ∃ pre dp post, (writeCsv bufferEnv testPoints "buf" []).dps = pre ++ dp :: post ∧
        (writeCsv bufferEnv testPoints "buf" []).records =
          ["date", "value"] :: (pre ++ [dp]).map (csvRow bufferEnv) ∧
        ((writeCsv bufferEnv testPoints "buf" []).cw,
            (writeCsv bufferEnv testPoints "buf" []).st) =
          writeEach bufferEnv (["date", "value"] :: (pre ++ [dp]).map (csvRow bufferEnv))
            (bufferEnv.NewWriter "buf") [] ∧
        (bufferEnv.Write
          (writeEach bufferEnv (["date", "value"] :: pre.map (csvRow bufferEnv))
            (bufferEnv.NewWriter "buf") []).1
          (csvRow bufferEnv dp)
          (writeEach bufferEnv (["date", "value"] :: pre.map (csvRow bufferEnv))
            (bufferEnv.NewWriter "buf") []).2).1.2 = some e ∧
        ∀ pre2 dp2 post2, pre = pre2 ++ dp2 :: post2 →
          (bufferEnv.Write
            (writeEach bufferEnv (["date", "value"] :: pre2.map (csvRow bufferEnv))
              (bufferEnv.NewWriter "buf") []).1
            (csvRow bufferEnv dp2)
            (writeEach bufferEnv (["date", "value"] :: pre2.map (csvRow bufferEnv))
              (bufferEnv.NewWriter "buf") []).2).1.2 = none)) :=
  ⟨sortByTimestamp_contract, by decide!, by decide!, by decide!, by decide!, by decide!,
    writeCsv_sorted_rows bufferEnv sortByTimestamp_contract testPoints "buf" []⟩

theorem writeTempCsv_dps {σ ω κ ρ : Type} (env : Env σ ω κ ρ) (dps : List Datapoint) (s : σ) :
    (∀ tf s1, env.TempFile s = (.ok tf, s1) → (writeTempCsv env dps s).dps = env.sortSort dps) ∧
    (∀ e s1, env.TempFile s = (.error e, s1) → (writeTempCsv env dps s).dps = dps) := by
  constructor
  · intro tf s1 h
    unfold writeTempCsv
    simp only [h]
    split <;> simp [writeCsv_dps]
  · intro e s1 h
    unfold writeTempCsv
    simp only [h]

theorem GeneratePNG_points {σ ω κ ρ : Type} (env : Env σ ω κ ρ) (points : List Datapoint)
    (s : σ) : (GeneratePNG env points s).points = (writeTempCsv env points s).dps := by
  unfold GeneratePNG
  simp only
  split
  · rfl
  · split
    · rfl
    · split <;> rfl

/-- C8 as stated fails: after `GeneratePNG` on the batch of `datapoint_test.go`
(timestamps 1456080911, 1456080851, 1456080971) the caller's slice holds the
samples in the order 1456080851, 1456080911, 1456080971, and `writeTempCsv` and
`writeCsv` leave it so as well. -/
theorem GeneratePNG_reorders_caller_batch :
    (GeneratePNG (testEnv true) testPoints ()).points =
      [⟨1456080851, f6_23⟩, ⟨1456080911, f6_24⟩, ⟨1456080971, f6_39⟩] ∧
    (GeneratePNG (testEnv true) testPoints ()).points ≠ testPoints ∧
    (writeTempCsv (testEnv true) testPoints ()).dps ≠ testPoints ∧
    (writeCsv (testEnv true) testPoints "buf" ()).dps ≠ testPoints := by
  decide

/-- C8, amended: exporting keeps the samples but not their order.  After
`GeneratePNG` the caller's batch is a permutation of the batch before the call;
when the temporary file could be created it is the batch as `sort.Sort` left
it, in non-decreasing timestamp order (the exporter sorts the caller's backing
array, not a copy); when the file could not be created the batch is untouched. -/
theorem GeneratePNG_sorts_caller_batch {σ ω κ ρ : Type} (env : Env σ ω κ ρ)
    (hsort : SortContract env.sortSort) (points : List Datapoint) (s : σ) :
    (GeneratePNG env points s).points.Perm points ∧
    (∀ tf s1, env.TempFile s = (.ok tf, s1) →
      (GeneratePNG env points s).points = env.sortSort points ∧
      (GeneratePNG env points s).points = (writeCsv env points tf s1).dps ∧
      (GeneratePNG env points s).points.Sorted (fun a b => a.Timestamp ≤ b.Timestamp)) ∧
    (∀ e s1, env.TempFile s = (.error e, s1) → (GeneratePNG env points s).points = points) := by
  have hp := GeneratePNG_points env points s
  have ht := writeTempCsv_dps env points s
  refine ⟨?_, ?_, ?_⟩
  · rw [hp]
    cases h : env.TempFile s with
    | mk r s1 =>
      cases r with
      | error e => rw [ht.2 e s1 h]
      | ok tf => rw [ht.1 tf s1 h]; exact (hsort points).1
  · intro tf s1 h
    rw [hp, ht.1 tf s1 h]
    exact ⟨rfl, (writeCsv_dps env points tf s1).symm, sorted_of_contract _ hsort points⟩
  · intro e s1 h
    rw [hp, ht.2 e s1 h]

/-- C8, amended, at the batch of `datapoint_test.go`. -/
theorem GeneratePNG_sorts_caller_batch_witness :
    SortContract (testEnv true).sortSort ∧
    (GeneratePNG (testEnv true) testPoints ()).points.Perm testPoints ∧
    (∀ tf s1, (testEnv true).TempFile () = (.ok tf, s1) →
      (GeneratePNG (testEnv true) testPoints ()).points = (testEnv true).sortSort testPoints ∧
      (GeneratePNG (testEnv true) testPoints ()).points =
        (writeCsv (testEnv true) testPoints tf s1).dps ∧
      (GeneratePNG (testEnv true) testPoints ()).points.Sorted
        (fun a b => a.Timestamp ≤ b.Timestamp)) ∧
    (∀ e s1, (testEnv true).TempFile () = (.error e, s1) →
      (GeneratePNG (testEnv true) testPoints ()).points = testPoints) :=
  ⟨sortByTimestamp_contract,
    GeneratePNG_sorts_caller_batch (testEnv true) sortByTimestamp_contract testPoints ()⟩

theorem lastIndexByte_none (c : Char) :
    ∀ l : List Char, c ∉ l → lastIndexByte c l = none := by
  intro l
  induction l with
  | nil => intro _; rfl
  | cons x xs ih =>
    intro h
    simp only [List.mem_cons, not_or] at h
    simp only [lastIndexByte, ih h.2]
    simp [Ne.symm h.1]

/-- C6: `NewClient` returns an error and never calls `roger.NewRClient` (the
world is left as it was) when `net.SplitHostPort` rejects the address, which it
does for every address without a colon; when the host part is non-empty and not
exactly "localhost"; and when the port part does not parse as a base-10 `int64`,
as the empty port does.  So it is for "remote.example.com:6311", "localhost",
"localhost:" and "localhost:zzz", while "localhost:6311" is dialled. -/
theorem NewClient_rejects {σ χ : Type} (NewRClient : String → Int → σ → Except String χ × σ)
    (addr : String) (s : σ) :
    (∀ e, (SplitHostPort addr).2 = some e →
      (NewClient NewRClient addr s).err = some ("splitHostPort err: " ++ e) ∧
      (NewClient NewRClient addr s).client = none ∧
      (NewClient NewRClient addr s).dials = [] ∧ (NewClient NewRClient addr s).st = s) ∧
    (':' ∉ addr.data →
      (SplitHostPort addr).2 = some ("address " ++ addr ++ ": " ++ "missing port in address")) ∧
    (∀ host port, SplitHostPort addr = ((host, port), none) → host ≠ "" → host ≠ "localhost" →
      (NewClient NewRClient addr s).err = some "rserve must be running on localhost" ∧
      (NewClient NewRClient addr s).client = none ∧
      (NewClient NewRClient addr s).dials = [] ∧ (NewClient NewRClient addr s).st = s) ∧
    (∀ host port e, SplitHostPort addr = ((host, port), none) → (ParseInt port).2 = some e →
      (NewClient NewRClient addr s).err ≠ none ∧
      (NewClient NewRClient addr s).client = none ∧
      (NewClient NewRClient addr s).dials = [] ∧ (NewClient NewRClient addr s).st = s) ∧
    (ParseInt "").2 ≠ none ∧ (ParseInt "zzz").2 ≠ none ∧
    (SplitHostPort "remote.example.com:6311" = (("remote.example.com", "6311"), none) ∧
      (SplitHostPort "localhost").2 ≠ none ∧
      SplitHostPort "localhost:" = (("localhost", ""), none) ∧
      SplitHostPort "localhost:zzz" = (("localhost", "zzz"), none)) ∧
    (∀ a ∈ ["remote.example.com:6311", "localhost", "localhost:", "localhost:zzz"],
      (NewClient refusedDial a ()).err ≠ none ∧ (NewClient refusedDial a ()).dials = []) ∧
    (NewClient refusedDial "localhost:6311" ()).dials = [("localhost", 6311)] := by
  refine ⟨?_, ?_, ?_, ?_, by decide, by decide, by decide, by decide, by decide⟩
  · intro e h
    unfold NewClient
    cases hs : SplitHostPort addr with
    | mk hp err =>
      rw [hs] at h
      simp only at h
      subst h
      simp
  · intro h
    unfold SplitHostPort
    rw [lastIndexByte_none ':' addr.data h]
    simp [addrErr]
  · intro host port h h1 h2
    unfold NewClient
    simp [h, h1, h2]
  · intro host port e h hp
    unfold NewClient
    simp only [h]
    cases hq : ParseInt port with
    | mk n err =>
      rw [hq] at hp
      simp only at hp
      subst hp
      by_cases hh : host ≠ "" ∧ host ≠ "localhost"
      · simp [hh]
      · simp [hh]

theorem expCond_mono (N D : Nat) {k k1 : Nat} (hk : k ≤ k1)
    (h : N < 2 ^ 53 * D * 2 ^ k) : N < 2 ^ 53 * D * 2 ^ k1 :=
  lt_of_lt_of_le h (Nat.mul_le_mul_left _ (Nat.pow_le_pow_right (by norm_num) hk))

theorem findExpAux_spec (N D : Nat) :
    ∀ (n lo : Nat), (∀ k, k < lo → ¬ N < 2 ^ 53 * D * 2 ^ k) →
      N < 2 ^ 53 * D * 2 ^ (lo + 2 ^ n - 1) →
      N < 2 ^ 53 * D * 2 ^ (findExpAux N D (binSteps n) lo) ∧
      (∀ k, k < findExpAux N D (binSteps n) lo → ¬ N < 2 ^ 53 * D * 2 ^ k) := by
  intro n
  induction n with
  | zero =>
    intro lo hlo hc
    simp only [binSteps, findExpAux]
    exact ⟨by simpa using hc, hlo⟩
  | succ n ih =>
    intro lo hlo hc
    simp only [binSteps, findExpAux]
    have hpos : 0 < 2 ^ n := Nat.two_pow_pos _
    by_cases ht : N < 2 ^ 53 * D * 2 ^ (lo + 2 ^ n - 1)
    · rw [if_pos ht]
      exact ih lo hlo ht
    · rw [if_neg ht]
      apply ih (lo + 2 ^ n)
      · intro k hk hck
        exact ht (expCond_mono N D (by omega) hck)
      · have : lo + 2 ^ n + 2 ^ n - 1 = lo + 2 ^ (n + 1) - 1 := by
          rw [pow_succ]; omega
        rw [this]
        exact hc

theorem findExp_spec (N D k0 : Nat) (hk0 : k0 ≤ 2047) (hc : N < 2 ^ 53 * D * 2 ^ k0) :
    N < 2 ^ 53 * D * 2 ^ (findExp N D) ∧ findExp N D ≤ k0 ∧
      (∀ k, k < findExp N D → ¬ N < 2 ^ 53 * D * 2 ^ k) := by
  have h := findExpAux_spec N D 11 0 (by intro k hk; omega)
    (expCond_mono N D (by norm_num; exact hk0) hc)
  refine ⟨h.1, ?_, h.2⟩
  by_contra hlt
  exact h.2 k0 (Nat.lt_of_not_le hlt) hc

theorem toNat_exp_nonneg (k : Nat) (h : (0 : Int) ≤ (k : Int) - 1074) :
    ((k : Int) - 1074).toNat = k - 1074 ∧ 1074 ≤ k := by
  omega

theorem toNat_exp_neg (k : Nat) (h : ¬ (0 : Int) ≤ (k : Int) - 1074) :
    (-((k : Int) - 1074)).toNat = 1074 - k ∧ k ≤ 1074 := by
  omega

/-- Rounding is exact on a number with at most 53 significant bits: when
`num / den = m * 2^j` with `m < 2^53`, the nearest float is that number. -/
theorem roundNearestEven_exact (neg : Bool) (m j D : Nat) (hD : 0 < D) (hm : m < 2 ^ 53)
    (hj : j ≤ 971) :
    ∃ q e, roundNearestEven neg (m * 2 ^ j * D) D = (.finite neg q e, false) ∧
      truncMag q e = m * 2 ^ j := by
  have hk0 : 1074 + j ≤ 2047 := by omega
  have hk1 : 1074 + j ≤ 2045 := by omega
  clear hj
  have hcond : m * 2 ^ j * D * 2 ^ 1074 < 2 ^ 53 * D * 2 ^ (1074 + j) := by
    have h2 : (0 : Nat) < 2 ^ (1074 + j) := Nat.two_pow_pos _
    calc m * 2 ^ j * D * 2 ^ 1074 = m * D * 2 ^ (1074 + j) := by rw [pow_add]; ring
      _ < 2 ^ 53 * D * 2 ^ (1074 + j) := by
        apply Nat.mul_lt_mul_of_pos_right _ h2
        exact Nat.mul_lt_mul_of_pos_right hm hD
  obtain ⟨hc, hle, _⟩ := findExp_spec (m * 2 ^ j * D * 2 ^ 1074) D (1074 + j) hk0 hcond
  generalize hk : findExp (m * 2 ^ j * D * 2 ^ 1074) D = k at hc hle
  clear hcond
  have hdvpos : 0 < D * 2 ^ k := Nat.mul_pos hD (Nat.two_pow_pos _)
  have hsplit : 2 ^ (1074 + j) = 2 ^ (1074 + j - k) * 2 ^ k := by
    rw [← pow_add, Nat.sub_add_cancel hle]
  have hN : m * 2 ^ j * D * 2 ^ 1074 = (m * 2 ^ (1074 + j - k)) * (D * 2 ^ k) := by
    calc m * 2 ^ j * D * 2 ^ 1074 = m * D * 2 ^ (1074 + j) := by rw [pow_add]; ring
      _ = (m * 2 ^ (1074 + j - k)) * (D * 2 ^ k) := by rw [hsplit]; ring
  have hq : m * 2 ^ j * D * 2 ^ 1074 / (D * 2 ^ k) = m * 2 ^ (1074 + j - k) := by
    rw [hN]; exact Nat.mul_div_cancel _ hdvpos
  have hr : m * 2 ^ j * D * 2 ^ 1074 % (D * 2 ^ k) = 0 := by
    rw [hN]; exact Nat.mul_mod_left _ _
  have hqlt : m * 2 ^ (1074 + j - k) < 2 ^ 53 := by
    have h1 : (m * 2 ^ (1074 + j - k)) * (D * 2 ^ k) < 2 ^ 53 * (D * 2 ^ k) := by
      rw [← hN, ← Nat.mul_assoc]; exact hc
    exact Nat.lt_of_mul_lt_mul_right h1
  refine ⟨m * 2 ^ (1074 + j - k), (k : Int) - 1074, ?_, ?_⟩
  · unfold roundNearestEven
    simp only [hk, hq, hr, Nat.mul_zero]
    have h1 : ¬ (D * 2 ^ k < 0 ∨ 0 = D * 2 ^ k ∧ m * 2 ^ (1074 + j - k) % 2 = 1) := by
      rintro (h | ⟨h, _⟩)
      · exact Nat.not_lt_zero _ h
      · exact Nat.ne_of_lt hdvpos h
    rw [if_neg h1]
    have h2 : m * 2 ^ (1074 + j - k) ≠ 2 ^ 53 := Nat.ne_of_lt hqlt
    rw [if_neg h2, if_neg h2]
    have h3 : ¬ 2045 < k := Nat.not_lt.mpr (Nat.le_trans hle hk1)
    rw [if_neg h3]
  · unfold truncMag
    by_cases hge : (0 : Int) ≤ (k : Int) - 1074
    · rw [if_pos hge]
      obtain ⟨hk2, hk3⟩ := toNat_exp_nonneg k hge
      rw [hk2, Nat.mul_assoc, ← pow_add]
      have : 1074 + j - k + (k - 1074) = j := by
        clear hN hq hr hqlt hsplit hc hdvpos hk
        omega
      rw [this]
    · rw [if_neg hge]
      obtain ⟨hk2, hk3⟩ := toNat_exp_neg k hge
      rw [hk2]
      have h4 : 1074 + j - k = j + (1074 - k) := by
        clear hN hq hr hqlt hsplit hc hdvpos hk
        omega
      rw [h4, pow_add, ← Nat.mul_assoc]
      exact Nat.mul_div_cancel _ (Nat.two_pow_pos _)

theorem takeWhile_append_stop {α : Type} (p : α → Bool) (x : α) (r : List α) :
    ∀ l : List α, (∀ c ∈ l, p c = true) → p x = false →
      (l ++ x :: r).takeWhile p = l ∧ (l ++ x :: r).dropWhile p = x :: r := by
  intro l
  induction l with
  | nil => intro _ hx; simp [List.takeWhile, List.dropWhile, hx]
  | cons a l ih =>
    intro hl hx
    have ha : p a = true := hl a (List.mem_cons_self a l)
    have := ih (fun c hc => hl c (List.mem_cons_of_mem a hc)) hx
    simp [List.takeWhile, List.dropWhile, ha, this]

theorem all_digits_numChar (l : List Char) (hl : ∀ c ∈ l, c.isDigit = true) :
    ∀ c ∈ l, numChar c :=
  fun c hc => Or.inl (hl c hc)

theorem dropWhile_numChar (l : List Char) (h : ∀ c ∈ l.dropWhile Char.isDigit, numChar c) :
    ∀ c ∈ l, numChar c := by
  intro c hc
  rw [← List.takeWhile_append_dropWhile Char.isDigit l] at hc
  rcases List.mem_append.mp hc with h1 | h1
  · exact Or.inl (List.mem_takeWhile_imp h1)
  · exact h c h1

theorem validExp_numChar (s : List Char) (h : validExp s = true) : ∀ x ∈ s, numChar x := by
  unfold validExp at h
  split at h
  · simp
  · rename_i c r
    split at h
    · rename_i hcond
      simp only [ne_eq, decide_eq_true_eq] at h
      obtain ⟨_, hall⟩ := h
      obtain ⟨hc, _⟩ := hcond
      intro x hx
      rcases List.mem_cons.mp hx with rfl | hx
      · rcases hc with rfl | rfl
        · exact Or.inr (Or.inr (Or.inr (Or.inr (Or.inl rfl))))
        · exact Or.inr (Or.inr (Or.inr (Or.inr (Or.inr rfl))))
      · unfold stripSign at hall
        cases r with
        | nil => simp at hx
        | cons a t =>
          by_cases hs : a = '+' ∨ a = '-'
          · simp only [List.head?_cons, Option.some.injEq, hs, if_true, List.tail_cons] at hall
            rcases List.mem_cons.mp hx with rfl | hx
            · rcases hs with rfl | rfl
              · exact Or.inr (Or.inr (Or.inl rfl))
              · exact Or.inr (Or.inl rfl)
            · exact Or.inl (List.all_eq_true.mp hall x hx)
          · simp only [List.head?_cons, Option.some.injEq, hs, if_false] at hall
            exact Or.inl (List.all_eq_true.mp hall x hx)
    · simp at h

theorem skipFraction_numChar (s : List Char) (h : ∀ x ∈ skipFraction s, numChar x) :
    ∀ x ∈ s, numChar x := by
  unfold skipFraction at h
  split at h
  · rename_i d r
    split at h
    · rename_i hd
      intro c hc
      rcases List.mem_cons.mp hc with rfl | hc
      · exact Or.inr (Or.inr (Or.inr (Or.inl rfl)))
      rcases List.mem_cons.mp hc with rfl | hc
      · exact Or.inl hd
      · exact dropWhile_numChar r h c hc
    · exact h
  · exact h

theorem validAfterInt_numChar (s : List Char) (h : validAfterInt s = true) :
    ∀ c ∈ s, numChar c :=
  skipFraction_numChar s (validExp_numChar _ h)

theorem validInt_numChar (t : List Char) (ht : validInt t = true) :
    t ≠ [] ∧ ∀ c ∈ t, numChar c := by
  cases t with
  | nil => simp [validInt] at ht
  | cons c r =>
    refine ⟨by simp, ?_⟩
    simp only [validInt] at ht
    intro x hx
    by_cases h0 : c = '0'
    · rw [if_pos h0] at ht
      rcases List.mem_cons.mp hx with rfl | hx
      · subst h0; exact Or.inl (by decide)
      · exact validAfterInt_numChar r ht x hx
    · rw [if_neg h0] at ht
      by_cases hd : c.isDigit = true
      · rw [if_pos hd] at ht
        rcases List.mem_cons.mp hx with rfl | hx
        · exact Or.inl hd
        · exact dropWhile_numChar r (validAfterInt_numChar _ ht) x hx
      · rw [if_neg hd] at ht
        simp at ht

theorem dropMinus_cases (s : List Char) :
    (∃ r, s = '-' :: r ∧ dropMinus s = r) ∨ dropMinus s = s := by
  unfold dropMinus
  split
  · rename_i r
    exact Or.inl ⟨r, rfl, rfl⟩
  · exact Or.inr rfl

theorem isValidNumber_numChar (s : List Char) (h : isValidNumber s = true) :
    s ≠ [] ∧ ∀ c ∈ s, numChar c := by
  unfold isValidNumber at h
  obtain ⟨hne, hall⟩ := validInt_numChar _ h
  rcases dropMinus_cases s with ⟨r, hs, hr⟩ | hr
  · rw [hr] at hall
    subst hs
    refine ⟨by simp, ?_⟩
    intro x hx
    rcases List.mem_cons.mp hx with rfl | hx
    · exact Or.inr (Or.inl rfl)
    · exact hall x hx
  · rw [hr] at hne hall
    exact ⟨hne, hall⟩

theorem numChar_not_delim (c : Char) (h : numChar c) :
    isDelim c = false ∧ jsonSpace c = false ∧ c ≠ ']' ∧ c ≠ '[' := by
  have hd : c.isDigit = true → isDelim c = false ∧ jsonSpace c = false ∧ c ≠ ']' ∧ c ≠ '[' := by
    intro hdig
    have e1 : c ≠ ' ' := by rintro rfl; exact absurd hdig (by decide)
    have e2 : c ≠ '\t' := by rintro rfl; exact absurd hdig (by decide)
    have e3 : c ≠ '\n' := by rintro rfl; exact absurd hdig (by decide)
    have e4 : c ≠ '\r' := by rintro rfl; exact absurd hdig (by decide)
    have e5 : c ≠ ',' := by rintro rfl; exact absurd hdig (by decide)
    have e6 : c ≠ ']' := by rintro rfl; exact absurd hdig (by decide)
    have e7 : c ≠ '[' := by rintro rfl; exact absurd hdig (by decide)
    simp [isDelim, jsonSpace, e1, e2, e3, e4, e5, e6, e7]
  rcases h with h | rfl | rfl | rfl | rfl | rfl
  · exact hd h
  all_goals decide

theorem valid_token_scan (lit : List Char) (x : Char) (r : List Char)
    (hv : isValidNumber lit = true) (hx : isDelim x = true) (hx2 : jsonSpace x = false) :
    ((lit ++ x :: r).dropWhile jsonSpace).takeWhile (fun c => !isDelim c) = lit ∧
    (((lit ++ x :: r).dropWhile jsonSpace).dropWhile (fun c => !isDelim c)).dropWhile jsonSpace
      = x :: r := by
  obtain ⟨hne, hall⟩ := isValidNumber_numChar lit hv
  have h0 : (lit ++ x :: r).dropWhile jsonSpace = lit ++ x :: r := by
    cases lit with
    | nil => exact absurd rfl hne
    | cons c l =>
      have := (numChar_not_delim c (hall c (List.mem_cons_self c l))).2.1
      simp [List.dropWhile, this]
  rw [h0]
  have h1 := takeWhile_append_stop (fun c => !isDelim c) x r lit
    (fun c hc => by simp [(numChar_not_delim c (hall c hc)).1]) (by simp [hx])
  rw [h1.1, h1.2]
  exact ⟨rfl, by simp [List.dropWhile, hx2]⟩

theorem scanElems_last (fuel : Nat) (lit : List Char) (acc : List (List Char))
    (hv : isValidNumber lit = true) :
    scanElems (fuel + 1) (lit ++ [']']) acc = some (acc ++ [lit]) := by
  obtain ⟨h1, h2⟩ := valid_token_scan lit ']' [] hv (by decide) (by decide)
  unfold scanElems
  simp only [h1, h2, hv]
  simp

theorem scanElems_pair (fuel : Nat) (l0 l1 : List Char) (acc : List (List Char))
    (hv0 : isValidNumber l0 = true) (hv1 : isValidNumber l1 = true) :
    scanElems (fuel + 2) (l0 ++ ',' :: (l1 ++ [']'])) acc = some (acc ++ [l0, l1]) := by
  obtain ⟨h1, h2⟩ := valid_token_scan l0 ',' (l1 ++ [']']) hv0 (by decide) (by decide)
  unfold scanElems
  simp only [h1, h2, hv0]
  rw [scanElems_last fuel l1 _ hv1]
  simp

theorem wire_data (lit vlit : String) :
    ("[" ++ lit ++ "," ++ vlit ++ "]").data = '[' :: (lit.data ++ ',' :: (vlit.data ++ [']'])) := by
  simp [String.data_append]

/-- The array step on a two-element array of JSON numbers: both literals are
kept as written. -/
theorem unmarshalNumbers_pair (lit vlit : String) (hv0 : isValidNumber lit.data = true)
    (hv1 : isValidNumber vlit.data = true) :
    unmarshalNumbers ("[" ++ lit ++ "," ++ vlit ++ "]") = ((lit, vlit), none) := by
  obtain ⟨hne, hall⟩ := isValidNumber_numChar lit.data hv0
  unfold unmarshalNumbers
  rw [wire_data]
  have hb : ('[' :: (lit.data ++ ',' :: (vlit.data ++ [']']))).dropWhile jsonSpace
      = '[' :: (lit.data ++ ',' :: (vlit.data ++ [']'])) := by
    simp [List.dropWhile, jsonSpace]
  rw [hb]
  simp only
  have hh : ¬ (((lit.data ++ ',' :: (vlit.data ++ [']'])).dropWhile jsonSpace).head? = some ']' ∧
      (((lit.data ++ ',' :: (vlit.data ++ [']'])).dropWhile jsonSpace).tail.all jsonSpace) =
        true) := by
    rintro ⟨h, _⟩
    cases hl : lit.data with
    | nil => exact hne hl
    | cons c l =>
      rw [hl] at h hall
      have hc := numChar_not_delim c (hall c (List.mem_cons_self c l))
      simp only [List.cons_append, List.dropWhile, hc.2.1, List.head?_cons,
        Option.some.injEq] at h
      exact hc.2.2.1 h
  rw [if_neg hh]
  have hlen : (lit.data ++ ',' :: (vlit.data ++ [']'])).length + 1
      = (lit.data.length + vlit.data.length + 1) + 2 := by
    simp only [List.length_append, List.length_cons, List.length_nil]
    omega
  rw [hlen, scanElems_pair _ _ _ _ hv0 hv1]
  simp

theorem ParseInt_float_literal (lit : String)
    (hfloat : '.' ∈ lit.data ∨ 'e' ∈ lit.data ∨ 'E' ∈ lit.data) :
    ∃ n e, ParseInt lit = (n, some e) := by
  have hc : ∃ c, c ∈ lit.data ∧ c.isDigit = false ∧ c ≠ '+' ∧ c ≠ '-' := by
    rcases hfloat with h | h | h
    · exact ⟨'.', h, by decide, by decide, by decide⟩
    · exact ⟨'e', h, by decide, by decide, by decide⟩
    · exact ⟨'E', h, by decide, by decide, by decide⟩
  obtain ⟨c, hmem, hnd, hp, hm⟩ := hc
  unfold ParseInt
  by_cases he : lit.data = []
  · rw [if_pos he]; exact ⟨_, _, rfl⟩
  · rw [if_neg he]
    have hds : (if lit.data.head? = some '+' ∨ lit.data.head? = some '-' then lit.data.tail
        else lit.data).all Char.isDigit = false := by
      rw [List.all_eq_false]
      refine ⟨c, ?_, by simp [hnd]⟩
      cases hl : lit.data with
      | nil => exact absurd hl he
      | cons a l =>
        rw [hl] at hmem
        by_cases hs : a = '+' ∨ a = '-'
        · simp only [List.head?_cons, Option.some.injEq, hs, if_true, List.tail_cons]
          rcases List.mem_cons.mp hmem with rfl | h
          · rcases hs with h1 | h1
            · exact absurd h1 hp
            · exact absurd h1 hm
          · exact h
        · simp only [List.head?_cons, Option.some.injEq, hs, if_false]
          exact hmem
    simp only [hds, or_true, if_true]
    exact ⟨_, _, rfl⟩

theorem Decimal.den_pos (d : Decimal) : 0 < d.den := by
  unfold Decimal.den
  split
  · norm_num
  · exact Nat.pos_pow_of_pos _ (by norm_num)

/-- Reading a numeral that writes a number with at most 53 significant bits is
exact. -/
theorem ParseFloat_exact (lit : String) (dec : Decimal) (m j : Nat)
    (hread : readFloat lit.data = some dec) (hnum : dec.num = m * 2 ^ j * dec.den)
    (hm : m < 2 ^ 53) (hj : j ≤ 971) :
    ∃ q e, ParseFloat lit = (.finite dec.neg q e, none) ∧ truncMag q e = m * 2 ^ j := by
  obtain ⟨q, e, hr, ht⟩ := roundNearestEven_exact dec.neg m j dec.den dec.den_pos hm hj
  refine ⟨q, e, ?_, ht⟩
  unfold ParseFloat
  simp only [hread, hnum, hr]
  simp

theorem pow_two_le_imp (j : Nat) (h : 2 ^ j ≤ 2 ^ 63) : j ≤ 63 :=
  (Nat.pow_le_pow_iff_right (by norm_num)).mp h

/-- C10, amended: a wire array whose first element is a JSON number written as
a floating-point literal (with a point or an exponent) that denotes an integer
`t` of the `int64` range with at most 53 significant bits (`|t| = m * 2^j` with
`m < 2^53`, so every `|t| ≤ 2^53`), and whose second element reads as the float
`v`, is decoded without error to the datapoint `(t, v)`. -/
theorem UnmarshalJSON_float_timestamp (d0 : Datapoint) (t : Int) (lit vlit : String)
    (dec : Decimal) (v : Float64) (m j : Nat)
    (hvalid : isValidNumber lit.data = true)
    (hfloat : '.' ∈ lit.data ∨ 'e' ∈ lit.data ∨ 'E' ∈ lit.data)
    (hread : readFloat lit.data = some dec) (hden : dec.denotes t)
    (hrange : minInt64 ≤ t ∧ t ≤ maxInt64)
    (hrep : t.natAbs = m * 2 ^ j) (hm : m < 2 ^ 53)
    (hvvalid : isValidNumber vlit.data = true) (hv : ParseFloat vlit = (v, none)) :
    UnmarshalJSON d0 ("[" ++ lit ++ "," ++ vlit ++ "]") = (⟨t, v⟩, none) := by
  obtain ⟨hnum, hsign⟩ := hden
  obtain ⟨n, e, hpi⟩ := ParseInt_float_literal lit hfloat
  have hex : ∃ q e, ParseFloat lit = (.finite dec.neg q e, none) ∧ truncMag q e = t.natAbs := by
    by_cases hm0 : m = 0
    · have h0 : t.natAbs = 0 * 2 ^ 0 := by rw [hrep, hm0]; simp
      have := ParseFloat_exact lit dec 0 0 hread (by rw [← h0]; exact hnum) (by norm_num)
        (by norm_num)
      rw [← h0] at this
      exact this
    · have hj : j ≤ 971 := by
        have h1 : 2 ^ j ≤ t.natAbs := by
          rw [hrep]
          exact Nat.le_mul_of_pos_left _ (Nat.pos_of_ne_zero hm0)
        have h2 : t.natAbs ≤ 2 ^ 63 := by
          unfold minInt64 maxInt64 at hrange
          omega
        have := pow_two_le_imp j (le_trans h1 h2)
        omega
      have := ParseFloat_exact lit dec m j hread (by rw [← hrep]; exact hnum) hm hj
      rw [← hrep] at this
      exact this
  obtain ⟨q, ex, hpf, htr⟩ := hex
  have hto : (Float64.finite dec.neg q ex).toInt64 = t := by
    have htf : truncFinite dec.neg q ex = t := by
      unfold truncFinite
      rw [htr]
      exact hsign.symm
    simp only [Float64.toInt64, htf, hrange.1, hrange.2, and_self, if_true]
  unfold UnmarshalJSON
  rw [unmarshalNumbers_pair lit vlit hvalid hvvalid]
  simp only [hpi, hpf, hto, unmarshalValue, hv]

set_option maxRecDepth 100000 in
/-- C10, amended, at the literals `1456080911.0` and `1.456080911e9`. -/
theorem UnmarshalJSON_float_timestamp_witness :
    (isValidNumber "1456080911.0".data = true ∧
      readFloat "1456080911.0".data = some ⟨false, 14560809110, -1⟩ ∧
      (⟨false, 14560809110, -1⟩ : Decimal).denotes 1456080911 ∧
      ParseFloat "1902.3385" = (f1902_3385, none)) ∧
    UnmarshalJSON default "[1.456080911e9,1902.3385]" = (⟨1456080911, f1902_3385⟩, none) ∧
    UnmarshalJSON default ("[" ++ "1456080911.0" ++ "," ++ "1902.3385" ++ "]") =
      (⟨1456080911, f1902_3385⟩, none) :=
  ⟨⟨by decide, by decide, by decide, by decide!⟩, by decide!,
    UnmarshalJSON_float_timestamp default 1456080911 "1456080911.0" "1902.3385"
      ⟨false, 14560809110, -1⟩ f1902_3385 1456080911 0
      (by decide) (by decide) (by decide) (by decide) (by decide) (by decide) (by decide)
      (by decide) (by decide!)⟩

set_option maxRecDepth 100000 in
/-- C10 as stated fails: `9007199254740993` (that is `2^53 + 1`) lies in the
`int64` range, the literal `9007199254740993.0` is a JSON number that writes it
with zero fractional part, and decoding yields the timestamp
`9007199254740992`. -/
theorem UnmarshalJSON_float_timestamp_lossy :
    isValidNumber "9007199254740993.0".data = true ∧
    readFloat "9007199254740993.0".data = some ⟨false, 90071992547409930, -1⟩ ∧
    (⟨false, 90071992547409930, -1⟩ : Decimal).denotes 9007199254740993 ∧
    (minInt64 ≤ 9007199254740993 ∧ (9007199254740993 : Int) ≤ maxInt64) ∧
    UnmarshalJSON default "[9007199254740993.0,6.39]" = (⟨9007199254740992, f6_39⟩, none) ∧
    (UnmarshalJSON default "[9007199254740993.0,6.39]").1.Timestamp ≠ 9007199254740993 := by
  refine ⟨by decide, by decide, by decide, by decide, by decide!, by decide!⟩

/-! ### Rounding: scaling and exactness -/

theorem findExpAux_scale (c N D : Nat) (hc : 0 < c) :
    ∀ (steps : List Nat) (lo : Nat),
      findExpAux (c * N) (c * D) steps lo = findExpAux N D steps lo := by
  intro steps
  induction steps with
  | nil => intro lo; rfl
  | cons st rest ih =>
    intro lo
    simp only [findExpAux]
    have hiff : c * N < 2 ^ 53 * (c * D) * 2 ^ (lo + st - 1) ↔
        N < 2 ^ 53 * D * 2 ^ (lo + st - 1) := by
      have : 2 ^ 53 * (c * D) * 2 ^ (lo + st - 1) = c * (2 ^ 53 * D * 2 ^ (lo + st - 1)) := by
        ring
      rw [this]
      exact Nat.mul_lt_mul_left hc
    by_cases h : N < 2 ^ 53 * D * 2 ^ (lo + st - 1)
    · rw [if_pos h, if_pos (hiff.mpr h)]; exact ih lo
    · rw [if_neg h, if_neg (fun h2 => h (hiff.mp h2))]; exact ih _

theorem roundNearestEven_scale (neg : Bool) (c n d : Nat) (hc : 0 < c) :
    roundNearestEven neg (c * n) (c * d) = roundNearestEven neg n d := by
  unfold roundNearestEven
  have hN : c * n * 2 ^ 1074 = c * (n * 2 ^ 1074) := Nat.mul_assoc _ _ _
  have hk : findExp (c * (n * 2 ^ 1074)) (c * d) = findExp (n * 2 ^ 1074) d :=
    findExpAux_scale c _ d hc _ _
  simp only [hN, hk]
  generalize findExp (n * 2 ^ 1074) d = k
  generalize n * 2 ^ 1074 = N
  have hdv : c * d * 2 ^ k = c * (d * 2 ^ k) := Nat.mul_assoc _ _ _
  rw [hdv, Nat.mul_div_mul_left _ _ hc, Nat.mul_mod_mul_left]
  have h1 : c * (d * 2 ^ k) < 2 * (c * (N % (d * 2 ^ k))) ↔ d * 2 ^ k < 2 * (N % (d * 2 ^ k)) := by
    have : 2 * (c * (N % (d * 2 ^ k))) = c * (2 * (N % (d * 2 ^ k))) := by ring
    rw [this]
    exact Nat.mul_lt_mul_left hc
  have h2 : 2 * (c * (N % (d * 2 ^ k))) = c * (d * 2 ^ k) ↔ 2 * (N % (d * 2 ^ k)) = d * 2 ^ k := by
    have : 2 * (c * (N % (d * 2 ^ k))) = c * (2 * (N % (d * 2 ^ k))) := by ring
    rw [this]
    exact Nat.mul_right_inj (Nat.ne_of_gt hc)
  simp only [h1, h2]

theorem roundNearestEven_congr (neg : Bool) (n1 d1 n2 d2 : Nat) (h1 : 0 < d1) (h2 : 0 < d2)
    (h : n1 * d2 = n2 * d1) : roundNearestEven neg n1 d1 = roundNearestEven neg n2 d2 := by
  rw [← roundNearestEven_scale neg d2 n1 d1 h2, ← roundNearestEven_scale neg d1 n2 d2 h1]
  rw [Nat.mul_comm d2 n1, h, Nat.mul_comm n2 d1, Nat.mul_comm d2 d1]

theorem two_pow_pred (k : Nat) (hk : k ≠ 0) : 2 ^ k = 2 * 2 ^ (k - 1) := by
  cases k with
  | zero => exact absurd rfl hk
  | succ j => rw [pow_succ']; rfl

/-- Rounding a number given in float form gives that float: when
`num / den * 2^1074 = q * 2^k` with `q < 2^53`, normalised unless `k = 0`. -/
theorem roundNearestEven_form (neg : Bool) (q k n D : Nat) (hD : 0 < D) (hq : q < 2 ^ 53)
    (hk : k ≤ 2045) (hnorm : 2 ^ 52 ≤ q ∨ k = 0) (hN : n * 2 ^ 1074 = q * (D * 2 ^ k)) :
    roundNearestEven neg n D = (.finite neg q ((k : Int) - 1074), false) := by
  have hdvpos : 0 < D * 2 ^ k := Nat.mul_pos hD (Nat.two_pow_pos _)
  have hk47 : k ≤ 2047 := Nat.le_trans hk (by norm_num)
  have hcond : n * 2 ^ 1074 < 2 ^ 53 * D * 2 ^ k := by
    rw [hN, Nat.mul_assoc]
    exact Nat.mul_lt_mul_of_pos_right hq hdvpos
  obtain ⟨hc, hle, hmin⟩ := findExp_spec (n * 2 ^ 1074) D k hk47 hcond
  have hfe : findExp (n * 2 ^ 1074) D = k := by
    apply Nat.le_antisymm hle
    by_contra hlt
    have hlt2 : findExp (n * 2 ^ 1074) D < k := Nat.lt_of_not_le hlt
    have hk0 : k ≠ 0 := fun h0 => by rw [h0] at hlt2; exact Nat.not_lt_zero _ hlt2
    have hq52 : 2 ^ 52 ≤ q := hnorm.resolve_right hk0
    have hc1 : n * 2 ^ 1074 < 2 ^ 53 * D * 2 ^ (k - 1) :=
      expCond_mono _ _ (Nat.le_pred_of_lt hlt2) hc
    have hk1 : 2 ^ k = 2 * 2 ^ (k - 1) := two_pow_pred k hk0
    rw [hN, hk1] at hc1
    have hc2 : (2 * q) * (D * 2 ^ (k - 1)) < 2 ^ 53 * (D * 2 ^ (k - 1)) := by
      have e1 : q * (D * (2 * 2 ^ (k - 1))) = (2 * q) * (D * 2 ^ (k - 1)) := by ring
      have e2 : 2 ^ 53 * D * 2 ^ (k - 1) = 2 ^ 53 * (D * 2 ^ (k - 1)) := by ring
      rw [e1, e2] at hc1
      exact hc1
    have hc3 : 2 * q < 2 ^ 53 := Nat.lt_of_mul_lt_mul_right hc2
    have hc4 : (2 : Nat) ^ 53 = 2 * 2 ^ 52 := by norm_num
    rw [hc4] at hc3
    exact absurd (Nat.lt_of_mul_lt_mul_left hc3) (Nat.not_lt.mpr hq52)
  have hq2 : n * 2 ^ 1074 / (D * 2 ^ k) = q := by
    rw [hN]; exact Nat.mul_div_cancel _ hdvpos
  have hr : n * 2 ^ 1074 % (D * 2 ^ k) = 0 := by
    rw [hN]; exact Nat.mul_mod_left _ _
  unfold roundNearestEven
  simp only [hfe, hq2, hr, Nat.mul_zero]
  have h1 : ¬ (D * 2 ^ k < 0 ∨ 0 = D * 2 ^ k ∧ q % 2 = 1) := by
    rintro (h | ⟨h, _⟩)
    · exact Nat.not_lt_zero _ h
    · exact Nat.ne_of_lt hdvpos h
  rw [if_neg h1]
  have h2 : q ≠ 2 ^ 53 := Nat.ne_of_lt hq
  rw [if_neg h2, if_neg h2]
  have h3 : ¬ 2045 < k := Nat.not_lt.mpr hk
  rw [if_neg h3]

theorem canonical_exp_toNat (e : Int) (h1 : -1074 ≤ e) (h2 : e ≤ 971) :
    (((e + 1074).toNat : Nat) : Int) - 1074 = e ∧ (e + 1074).toNat ≤ 2045 ∧
      ((e + 1074).toNat = 0 ↔ e = -1074) ∧
      (0 ≤ e → (e + 1074).toNat = 1074 + e.toNat) ∧
      (¬ 0 ≤ e → (e + 1074).toNat + (-e).toNat = 1074) := by
  omega

/-- A well-formed finite float is the float nearest to its own value. -/
theorem roundNearestEven_canonical (neg : Bool) (m : Nat) (e : Int)
    (hc : (Float64.finite neg m e).canonical) :
    roundNearestEven neg (vNum m e) (vDen e) = (.finite neg m e, false) := by
  obtain ⟨hm, he1, he2, hnorm⟩ := hc
  obtain ⟨hk1, hk2, hk3, hk4, hk5⟩ := canonical_exp_toNat e he1 he2
  have hD : 0 < vDen e := by
    unfold vDen; split
    · norm_num
    · exact Nat.two_pow_pos _
  have hnorm2 : 2 ^ 52 ≤ m ∨ (e + 1074).toNat = 0 := hnorm.imp id hk3.mpr
  have hN : vNum m e * 2 ^ 1074 = m * (vDen e * 2 ^ (e + 1074).toNat) := by
    unfold vNum vDen
    by_cases h0 : 0 ≤ e
    · rw [if_pos h0, if_pos h0, hk4 h0, pow_add]; ring
    · rw [if_neg h0, if_neg h0, ← pow_add, Nat.add_comm, hk5 h0]
  have := roundNearestEven_form neg m (e + 1074).toNat (vNum m e) (vDen e) hD hm hk2 hnorm2 hN
  rw [this, hk1]

/-! ### The shortest decimal reads back -/

theorem accepts_spec (v : Float64) (neg : Bool) (c : Nat) (p : Int)
    (h : accepts v neg c p = true) :
    1 ≤ c ∧ roundNearestEven neg (Decimal.num ⟨neg, c, p⟩) (Decimal.den ⟨neg, c, p⟩)
      = (v, false) := by
  unfold accepts at h
  simp only [Bool.and_eq_true, decide_eq_true_eq] at h
  exact h

theorem ten_pow_split (n : Nat) : 10 ^ n = 5 ^ n * 2 ^ n := by
  rw [← Nat.mul_pow]

/-- The exact decimal expansion of a float reads back as the float. -/
theorem exact_expansion (neg : Bool) (m : Nat) (e : Int)
    (hc : (Float64.finite neg m e).canonical) (hm : m ≠ 0) :
    1 ≤ scaledNum m e (min e 0) / scaledDen e (min e 0) ∧
    roundNearestEven neg
      (Decimal.num ⟨neg, scaledNum m e (min e 0) / scaledDen e (min e 0), min e 0⟩)
      (Decimal.den ⟨neg, scaledNum m e (min e 0) / scaledDen e (min e 0), min e 0⟩)
      = (.finite neg m e, false) := by
  have hcan := roundNearestEven_canonical neg m e hc
  have hm1 : 1 ≤ m := Nat.pos_of_ne_zero hm
  by_cases h0 : 0 ≤ e
  · have hmin : min e 0 = 0 := min_eq_right h0
    rw [hmin]
    have hq : scaledNum m e 0 / scaledDen e 0 = vNum m e := by
      simp [scaledNum, scaledDen, vDen, h0]
    rw [hq]
    constructor
    · unfold vNum
      rw [if_pos h0]
      exact Nat.mul_pos hm1 (Nat.two_pow_pos _)
    · have hd : vDen e = 1 := by simp [vDen, h0]
      rw [hd] at hcan
      simpa [Decimal.num, Decimal.den] using hcan
  · have hlt : e < 0 := lt_of_not_le h0
    have hmin : min e 0 = e := min_eq_left (le_of_lt hlt)
    rw [hmin]
    have het : e.toNat = 0 := Int.toNat_of_nonpos (le_of_lt hlt)
    have hq : scaledNum m e e / scaledDen e e = m * 5 ^ (-e).toNat := by
      simp only [scaledNum, scaledDen, vNum, vDen, if_neg h0, het, pow_zero, Nat.mul_one]
      rw [ten_pow_split, ← Nat.mul_assoc]
      exact Nat.mul_div_cancel _ (Nat.two_pow_pos _)
    rw [hq]
    constructor
    · exact Nat.mul_pos hm1 (Nat.pos_pow_of_pos _ (by norm_num))
    · simp only [Decimal.num, Decimal.den, if_neg h0]
      rw [← hcan]
      apply roundNearestEven_congr
      · exact Nat.pos_pow_of_pos _ (by norm_num)
      · unfold vDen
        rw [if_neg h0]
        exact Nat.two_pow_pos _
      · simp only [vNum, vDen, if_neg h0]
        rw [ten_pow_split]
        ring

theorem shortestAux_spec (neg : Bool) (m : Nat) (e : Int)
    (hc : (Float64.finite neg m e).canonical) (hm : m ≠ 0) :
    ∀ (fuel : Nat) (p : Int), p - fuel = min e 0 →
      1 ≤ (shortestAux neg m e fuel p).1 ∧
      roundNearestEven neg
        (Decimal.num ⟨neg, (shortestAux neg m e fuel p).1, (shortestAux neg m e fuel p).2⟩)
        (Decimal.den ⟨neg, (shortestAux neg m e fuel p).1, (shortestAux neg m e fuel p).2⟩)
        = (.finite neg m e, false) := by
  intro fuel
  induction fuel with
  | zero =>
    intro p hp
    have hp2 : p = min e 0 := by simpa using hp
    subst hp2
    simp only [shortestAux]
    exact exact_expansion neg m e hc hm
  | succ fuel ih =>
    intro p hp
    simp only [shortestAux]
    split
    · rename_i hboth
      split
      · exact accepts_spec _ _ _ _ hboth.2
      · exact accepts_spec _ _ _ _ hboth.1
    · split
      · rename_i hlo
        exact accepts_spec _ _ _ _ hlo
      · split
        · rename_i hhi
          exact accepts_spec _ _ _ _ hhi
        · apply ih
          rw [← hp]
          push_cast
          ring

/-- The shortest decimal of a well-formed finite float reads back as that float. -/
theorem shortest_spec (neg : Bool) (m : Nat) (e : Int)
    (hc : (Float64.finite neg m e).canonical) :
    (m ≠ 0 → 1 ≤ (shortest neg m e).1) ∧
    roundNearestEven neg
      (Decimal.num ⟨neg, (shortest neg m e).1, (shortest neg m e).2⟩)
      (Decimal.den ⟨neg, (shortest neg m e).1, (shortest neg m e).2⟩)
      = (.finite neg m e, false) := by
  by_cases hm : m = 0
  · refine ⟨fun h => absurd hm h, ?_⟩
    subst hm
    have hcan := roundNearestEven_canonical neg 0 e hc
    have he : e = -1074 := by
      obtain ⟨_, _, _, hn⟩ := hc
      rcases hn with h | h
      · exact absurd h (by norm_num)
      · exact h
    simp only [shortest, if_true, Decimal.num, Decimal.den]
    rw [← hcan]
    apply roundNearestEven_congr
    · norm_num
    · unfold vDen; split
      · norm_num
      · exact Nat.two_pow_pos _
    · simp [vNum, he]
  · have h := shortestAux_spec neg m e hc hm (max (e + 53) 0 - min e 0).toNat (max (e + 53) 0)
      (by omega)
    unfold shortest
    rw [if_neg hm]
    exact ⟨fun _ => h.1, h.2⟩

/-! ### Decimal digits -/

theorem digitChar_spec : ∀ n, n < 10 →
    (digitChar n).isDigit = true ∧ digitVal (digitChar n) = n ∧
      (1 ≤ n → digitChar n ≠ '0') ∧ digitChar n ≠ '-' ∧ digitChar n ≠ '+' := by
  decide

theorem isDigit_not_sign (c : Char) (h : c.isDigit = true) :
    c ≠ '-' ∧ c ≠ '+' ∧ c ≠ '.' ∧ c ≠ 'e' ∧ c ≠ 'E' := by
  refine ⟨?_, ?_, ?_, ?_, ?_⟩ <;> (rintro rfl; exact absurd h (by decide))

theorem parseDigits_cons (c : Char) (l : List Char) (a : Nat) :
    List.foldl (fun acc c => acc * 10 + digitVal c) a (c :: l) =
      List.foldl (fun acc c => acc * 10 + digitVal c) (a * 10 + digitVal c) l := rfl

theorem natDigitsAux_parse : ∀ (fuel n : Nat) (acc : List Char), n < fuel →
    List.foldl (fun a c => a * 10 + digitVal c) 0 (natDigitsAux fuel n acc) =
      List.foldl (fun a c => a * 10 + digitVal c) n acc := by
  intro fuel
  induction fuel with
  | zero => intro n acc h; exact absurd h (Nat.not_lt_zero _)
  | succ fuel ih =>
    intro n acc h
    simp only [natDigitsAux]
    by_cases h10 : n < 10
    · rw [if_pos h10, parseDigits_cons, (digitChar_spec n h10).2.1]
      simp
    · rw [if_neg h10, ih (n / 10) _ (by omega), parseDigits_cons,
        (digitChar_spec (n % 10) (Nat.mod_lt _ (by norm_num))).2.1]
      congr 1
      omega

theorem parseDigits_natDigits (n : Nat) : parseDigits (natDigits n) = n := by
  unfold parseDigits natDigits
  rw [natDigitsAux_parse (n + 1) n [] (Nat.lt_succ_self n)]
  rfl

theorem natDigitsAux_digits : ∀ (fuel n : Nat) (acc : List Char),
    (∀ c ∈ acc, c.isDigit = true) → ∀ c ∈ natDigitsAux fuel n acc, c.isDigit = true := by
  intro fuel
  induction fuel with
  | zero => intro n acc h; exact h
  | succ fuel ih =>
    intro n acc h
    simp only [natDigitsAux]
    by_cases h10 : n < 10
    · rw [if_pos h10]
      intro c hc
      rcases List.mem_cons.mp hc with rfl | hc
      · exact (digitChar_spec n h10).1
      · exact h c hc
    · rw [if_neg h10]
      apply ih
      intro c hc
      rcases List.mem_cons.mp hc with rfl | hc
      · exact (digitChar_spec (n % 10) (Nat.mod_lt _ (by norm_num))).1
      · exact h c hc

theorem natDigits_digits (n : Nat) : ∀ c ∈ natDigits n, c.isDigit = true :=
  natDigitsAux_digits (n + 1) n [] (by simp)

theorem natDigitsAux_head : ∀ (fuel n : Nat) (acc : List Char), n < fuel →
    ∃ c rest, natDigitsAux fuel n acc = c :: rest ∧ c.isDigit = true ∧ (1 ≤ n → c ≠ '0') ∧
      (n = 0 → c = '0' ∧ rest = acc) := by
  intro fuel
  induction fuel with
  | zero => intro n acc h; exact absurd h (Nat.not_lt_zero _)
  | succ fuel ih =>
    intro n acc h
    simp only [natDigitsAux]
    by_cases h10 : n < 10
    · rw [if_pos h10]
      refine ⟨digitChar n, acc, rfl, (digitChar_spec n h10).1, (digitChar_spec n h10).2.2.1, ?_⟩
      intro h0
      subst h0
      exact ⟨by decide, rfl⟩
    · rw [if_neg h10]
      obtain ⟨c, rest, heq, hd, hnz, _⟩ := ih (n / 10) (digitChar (n % 10) :: acc) (by omega)
      exact ⟨c, rest, heq, hd, fun _ => hnz (by omega), fun h0 => by omega⟩

theorem natDigits_head (n : Nat) :
    ∃ c rest, natDigits n = c :: rest ∧ c.isDigit = true ∧ (1 ≤ n → c ≠ '0') ∧
      (n = 0 → c = '0' ∧ rest = []) :=
  natDigitsAux_head (n + 1) n [] (Nat.lt_succ_self n)

theorem all_isDigit_of_forall (l : List Char) (h : ∀ c ∈ l, c.isDigit = true) :
    l.all Char.isDigit = true :=
  List.all_eq_true.mpr h

theorem takeWhile_all_digits (l : List Char) (h : ∀ c ∈ l, c.isDigit = true) :
    l.takeWhile Char.isDigit = l ∧ l.dropWhile Char.isDigit = [] := by
  constructor
  · exact List.takeWhile_eq_self_iff.mpr h
  · exact List.dropWhile_eq_nil_iff.mpr h

/-- Reading back a written `int64`. -/
theorem ParseInt_formatInt (t : Int) (hlo : minInt64 ≤ t) (hhi : t ≤ maxInt64) :
    ParseInt (String.mk (formatInt t)) = (t, none) := by
  obtain ⟨c, rest, heq, hd, _, _⟩ := natDigits_head t.natAbs
  have hall := natDigits_digits t.natAbs
  have hpd := parseDigits_natDigits t.natAbs
  have hns := isDigit_not_sign c hd
  unfold minInt64 at hlo
  unfold maxInt64 at hhi
  unfold ParseInt formatInt
  by_cases hneg : t < 0
  · simp only [if_pos hneg, List.head?_cons, List.tail_cons, or_true, if_true]
    have h1 : ¬ (natDigits t.natAbs = [] ∨ (natDigits t.natAbs).all Char.isDigit = false) := by
      rw [all_isDigit_of_forall _ hall, heq]
      simp
    simp only [reduceCtorEq, if_false, h1, hpd, decide_True, true_and, decide_eq_false_iff_not]
    have h2 : ¬ (9223372036854775808 < t.natAbs) := by omega
    simp only [Bool.true_eq_false, false_and, if_false, h2]
    simp only [if_true]
    congr 1
    omega
  · have hs : ¬ ((natDigits t.natAbs).head? = some '+' ∨ (natDigits t.natAbs).head? = some '-') := by
      rw [heq]
      simp only [List.head?_cons, Option.some.injEq]
      rintro (h | h)
      · exact hns.2.1 h
      · exact hns.1 h
    have hne : natDigits t.natAbs ≠ [] := by rw [heq]; simp
    have hd2 : decide ((natDigits t.natAbs).head? = some '-') = false := by
      simp only [decide_eq_false_iff_not]
      exact fun h => hs (Or.inr h)
    simp only [if_neg hneg, hne, if_false, hs, hd2]
    have h1 : ¬ (natDigits t.natAbs = [] ∨ (natDigits t.natAbs).all Char.isDigit = false) := by
      rw [all_isDigit_of_forall _ hall]
      simp [hne]
    simp only [h1, if_false, hpd, true_and]
    have h2 : ¬ (9223372036854775808 ≤ t.natAbs) := by omega
    simp only [h2, if_false, Bool.false_eq_true, false_and, all_isDigit_of_forall _ hall,
      Bool.true_eq_false, or_false]
    congr 1
    omega

/-! ### Reading back what was written -/
theorem foldl_digits_shift : ∀ (ys : List Char) (a : Nat),
    List.foldl (fun acc c => acc * 10 + digitVal c) a ys =
      a * 10 ^ ys.length + List.foldl (fun acc c => acc * 10 + digitVal c) 0 ys := by
  intro ys
  induction ys with
  | nil => intro a; simp
  | cons y ys ih =>
    intro a
    simp only [List.foldl_cons, List.length_cons]
    rw [ih (a * 10 + digitVal y), ih (0 * 10 + digitVal y)]
    ring

theorem parseDigits_append (xs ys : List Char) :
    parseDigits (xs ++ ys) = parseDigits xs * 10 ^ ys.length + parseDigits ys := by
  unfold parseDigits
  rw [List.foldl_append, foldl_digits_shift]

theorem parseDigits_zeros (k : Nat) : parseDigits (zeros k) = 0 := by
  induction k with
  | zero => rfl
  | succ k ih =>
    have : zeros (k + 1) = ['0'] ++ zeros k := rfl
    have h0 : parseDigits ['0'] = 0 := by decide
    rw [this, parseDigits_append, ih, h0]
    simp

theorem zeros_length (k : Nat) : (zeros k).length = k := by
  simp [zeros]

theorem zeros_digits (k : Nat) : ∀ c ∈ zeros k, c.isDigit = true := by
  intro c hc
  have := List.eq_of_mem_replicate hc
  subst this
  decide

theorem readFloat_signed (neg : Bool) (body : List Char) (c : Char)
    (hh : body.head? = some c) (hd : c.isDigit = true) :
    readFloat (signChars neg ++ body) =
      readFrac neg (body.takeWhile Char.isDigit) (body.dropWhile Char.isDigit) := by
  have hns := isDigit_not_sign c hd
  cases body with
  | nil => simp at hh
  | cons a rest =>
    simp only [List.head?_cons, Option.some.injEq] at hh
    subst hh
    cases neg with
    | true =>
      simp [readFloat, signChars, stripSign]
    | false =>
      simp [readFloat, signChars, stripSign, hns.1, hns.2.1]

theorem readFrac_int (neg : Bool) (ip : List Char) (hne : ip ≠ []) :
    readFrac neg ip [] = some ⟨neg, parseDigits ip, 0⟩ := by
  simp [readFrac, readTail, hne]

theorem readFrac_point (neg : Bool) (ip fs : List Char) (hfs : ∀ c ∈ fs, c.isDigit = true)
    (hne : ip ≠ [] ∨ fs ≠ []) :
    readFrac neg ip ('.' :: fs) = some ⟨neg, parseDigits (ip ++ fs), -(fs.length : Int)⟩ := by
  obtain ⟨h1, h2⟩ := takeWhile_all_digits fs hfs
  have : ¬ (ip = [] ∧ fs = []) := by
    rintro ⟨a, b⟩
    rcases hne with h | h
    · exact h a
    · exact h b
  simp [readFrac, readTail, h1, h2, this]

theorem readFrac_point_exp (neg : Bool) (ip fs ex : List Char) (x : Int)
    (hfs : ∀ c ∈ fs, c.isDigit = true) (hne : ip ≠ [] ∨ fs ≠ []) (hx : readExp ex = some x) :
    readFrac neg ip ('.' :: (fs ++ 'e' :: ex)) =
      some ⟨neg, parseDigits (ip ++ fs), x - (fs.length : Int)⟩ := by
  obtain ⟨h1, h2⟩ := takeWhile_append_stop Char.isDigit 'e' ex fs hfs (by decide)
  have : ¬ (ip = [] ∧ fs = []) := by
    rintro ⟨a, b⟩
    rcases hne with h | h
    · exact h a
    · exact h b
  simp [readFrac, readTail, h1, h2, this, hx]

theorem readFrac_exp (neg : Bool) (ip ex : List Char) (x : Int) (hne : ip ≠ [])
    (hx : readExp ex = some x) :
    readFrac neg ip ('e' :: ex) = some ⟨neg, parseDigits ip, x⟩ := by
  simp [readFrac, readTail, hne, hx]

theorem readExp_expChars (x : Int) : readExp (expChars x) = some x := by
  obtain ⟨c, rest, heq, hd, _, _⟩ := natDigits_head x.natAbs
  have hall := all_isDigit_of_forall _ (natDigits_digits x.natAbs)
  have hpd := parseDigits_natDigits x.natAbs
  have hne : natDigits x.natAbs ≠ [] := by rw [heq]; simp
  unfold expChars readExp
  by_cases h0 : x < 0
  · rw [if_pos h0]
    simp only [List.head?_cons, List.tail_cons, or_true, if_true, hall, hne, hpd, or_self,
      Bool.true_eq_false, if_false, decide_True]
    congr 1
    omega
  · rw [if_neg h0]
    have hz : parseDigits ('0' :: natDigits x.natAbs) = x.natAbs := by
      have : '0' :: natDigits x.natAbs = ['0'] ++ natDigits x.natAbs := rfl
      rw [this, parseDigits_append, hpd]
      have h00 : parseDigits ['0'] = 0 := by decide
      rw [h00]; simp
    have hz2 : ('0' :: natDigits x.natAbs).all Char.isDigit = true := by
      simp only [List.all_cons, hall, Bool.and_true]
      decide
    by_cases h10 : x < 10
    · rw [if_pos h10]
      simp only [List.head?_cons, List.tail_cons, true_or, if_true, hz, hz2,
        Bool.true_eq_false, or_false, reduceCtorEq, if_false, Option.some.injEq,
        decide_False, Bool.false_eq_true]
      simp
      omega
    · rw [if_neg h10]
      simp only [List.head?_cons, List.tail_cons, true_or, if_true, hall, hne, hpd, or_self,
        Bool.true_eq_false, if_false, Option.some.injEq, reduceCtorEq, decide_False,
        Bool.false_eq_true]
      simp
      omega

theorem readFloat_fmtF (neg : Bool) (digs : List Char) (c : Nat) (p : Int)
    (hall : ∀ x ∈ digs, x.isDigit = true) (hne : digs ≠ []) (hpd : parseDigits digs = c) :
    ∃ dec, readFloat (fmtF neg digs (digs.length + p)) = some dec ∧ dec.neg = neg ∧
      dec.num = Decimal.num ⟨neg, c, p⟩ ∧ dec.den = Decimal.den ⟨neg, c, p⟩ := by
  obtain ⟨d0, r, hdr⟩ := List.exists_cons_of_ne_nil hne
  have hd0 : d0.isDigit = true := hall d0 (by rw [hdr]; simp)
  have hlen : digs.length = r.length + 1 := by rw [hdr]; simp
  unfold fmtF
  by_cases h1 : (digs.length : Int) ≤ digs.length + p
  · rw [if_pos h1]
    have hp : 0 ≤ p := by omega
    have hk : ((digs.length : Int) + p - digs.length).toNat = p.toNat := by
      congr 1; omega
    have hhead : (digs ++ zeros p.toNat).head? = some d0 := by rw [hdr]; simp
    have hbody : ∀ x ∈ digs ++ zeros p.toNat, x.isDigit = true := by
      intro x hx
      rcases List.mem_append.mp hx with h | h
      · exact hall x h
      · exact zeros_digits _ x h
    obtain ⟨t1, t2⟩ := takeWhile_all_digits _ hbody
    rw [hk, readFloat_signed neg _ d0 hhead hd0, t1, t2,
      readFrac_int _ _ (by rw [hdr]; simp)]
    refine ⟨_, rfl, rfl, ?_, ?_⟩
    · simp [Decimal.num, hp, parseDigits_append, parseDigits_zeros, hpd, zeros_length]
    · simp [Decimal.den, hp]
  · rw [if_neg h1]
    have hp : p < 0 := by omega
    by_cases h2 : 0 < (digs.length : Int) + p
    · rw [if_pos h2]
      obtain ⟨j, hj⟩ : ∃ j : Nat, ((digs.length : Int) + p).toNat = j + 1 :=
        ⟨((digs.length : Int) + p).toNat - 1, by omega⟩
      have hjlt : j + 1 < digs.length := by omega
      rw [hj]
      have hhead : (digs.take (j + 1) ++ '.' :: digs.drop (j + 1)).head? = some d0 := by
        rw [hdr]; simp
      have htk : ∀ x ∈ digs.take (j + 1), x.isDigit = true :=
        fun x hx => hall x (List.mem_of_mem_take hx)
      have hdp : ∀ x ∈ digs.drop (j + 1), x.isDigit = true :=
        fun x hx => hall x (List.mem_of_mem_drop hx)
      obtain ⟨t1, t2⟩ := takeWhile_append_stop Char.isDigit '.' (digs.drop (j + 1))
        (digs.take (j + 1)) htk (by decide)
      rw [readFloat_signed neg _ d0 hhead hd0, t1, t2,
        readFrac_point neg _ _ hdp (Or.inl (by rw [hdr]; simp)), List.take_append_drop, hpd]
      have hex : -((digs.drop (j + 1)).length : Int) = p := by
        rw [List.length_drop]
        omega
      rw [hex]
      exact ⟨_, rfl, rfl, rfl, rfl⟩
    · rw [if_neg h2]
      have hhead : ('0' :: '.' :: (zeros (-((digs.length : Int) + p)).toNat ++ digs)).head?
          = some '0' := rfl
      have hfs : ∀ x ∈ zeros (-((digs.length : Int) + p)).toNat ++ digs, x.isDigit = true := by
        intro x hx
        rcases List.mem_append.mp hx with h | h
        · exact zeros_digits _ x h
        · exact hall x h
      obtain ⟨t1, t2⟩ := takeWhile_append_stop Char.isDigit '.'
        (zeros (-((digs.length : Int) + p)).toNat ++ digs) ['0'] (by decide) (by decide)
      have hcons : '0' :: '.' :: (zeros (-((digs.length : Int) + p)).toNat ++ digs)
          = ['0'] ++ '.' :: (zeros (-((digs.length : Int) + p)).toNat ++ digs) := rfl
      rw [readFloat_signed neg _ '0' hhead (by decide), hcons, t1, t2,
        readFrac_point neg _ _ hfs (Or.inl (by simp))]
      have hm : parseDigits (['0'] ++ (zeros (-((digs.length : Int) + p)).toNat ++ digs)) = c := by
        have h00 : parseDigits ['0'] = 0 := by decide
        rw [parseDigits_append, parseDigits_append, parseDigits_zeros, hpd, h00]
        simp
      have hex : -((zeros (-((digs.length : Int) + p)).toNat ++ digs).length : Int) = p := by
        simp only [List.length_append, zeros, List.length_replicate]
        omega
      rw [hm, hex]
      exact ⟨_, rfl, rfl, rfl, rfl⟩

theorem readFloat_fmtE (neg : Bool) (digs : List Char) (c : Nat) (p : Int)
    (hall : ∀ x ∈ digs, x.isDigit = true) (hne : digs ≠ []) (hpd : parseDigits digs = c) :
    ∃ dec, readFloat (fmtE neg digs (digs.length + p)) = some dec ∧ dec.neg = neg ∧
      dec.num = Decimal.num ⟨neg, c, p⟩ ∧ dec.den = Decimal.den ⟨neg, c, p⟩ := by
  obtain ⟨d0, r, hdr⟩ := List.exists_cons_of_ne_nil hne
  subst hdr
  have hd0 : d0.isDigit = true := hall d0 (by simp)
  have hr : ∀ x ∈ r, x.isDigit = true := fun x hx => hall x (List.mem_cons_of_mem _ hx)
  have hx := readExp_expChars (((d0 :: r).length : Int) + p - 1)
  unfold fmtE
  have ht : (d0 :: r).take 1 = [d0] := by simp
  have hdrop : (d0 :: r).drop 1 = r := by simp
  rw [ht, hdrop]
  cases r with
  | nil =>
    have hcond : ¬ (1 < [d0].length) := by simp
    rw [if_neg hcond]
    have hhead : ([d0] ++ ([] ++ 'e' :: expChars ((([d0] : List Char).length : Int) + p - 1))).head?
        = some d0 := rfl
    obtain ⟨t1, t2⟩ := takeWhile_append_stop Char.isDigit 'e'
      (expChars ((([d0] : List Char).length : Int) + p - 1)) [d0]
      (by intro x hx; rw [List.mem_singleton.mp hx]; exact hd0) (by decide)
    rw [readFloat_signed neg _ d0 hhead hd0]
    simp only [List.nil_append]
    rw [t1, t2, readFrac_exp neg _ _ _ (by simp) hx, hpd]
    have : (([d0] : List Char).length : Int) + p - 1 = p := by simp
    rw [this]
    exact ⟨_, rfl, rfl, rfl, rfl⟩
  | cons r0 rr =>
    have hcond : 1 < (d0 :: r0 :: rr).length := by simp
    rw [if_pos hcond]
    have hhead : ([d0] ++ ('.' :: (r0 :: rr) ++
        'e' :: expChars (((d0 :: r0 :: rr).length : Int) + p - 1))).head? = some d0 := rfl
    have hcons : [d0] ++ ('.' :: (r0 :: rr) ++
        'e' :: expChars (((d0 :: r0 :: rr).length : Int) + p - 1)) =
        [d0] ++ '.' :: ((r0 :: rr) ++
          'e' :: expChars (((d0 :: r0 :: rr).length : Int) + p - 1)) := rfl
    obtain ⟨t1, t2⟩ := takeWhile_append_stop Char.isDigit '.'
      ((r0 :: rr) ++ 'e' :: expChars (((d0 :: r0 :: rr).length : Int) + p - 1)) [d0]
      (by intro x hx; rw [List.mem_singleton.mp hx]; exact hd0) (by decide)
    rw [readFloat_signed neg _ d0 hhead hd0, hcons, t1, t2,
      readFrac_point_exp neg _ _ _ _ hr (Or.inl (by simp)) hx]
    have hm : parseDigits ([d0] ++ r0 :: rr) = c := hpd
    have hex : ((d0 :: r0 :: rr).length : Int) + p - 1 - ((r0 :: rr).length : Int) = p := by
      simp only [List.length_cons]
      push_cast
      ring
    rw [hm, hex]
    exact ⟨_, rfl, rfl, rfl, rfl⟩


theorem dropMinus_signed (neg : Bool) (body : List Char) (c : Char)
    (hh : body.head? = some c) (hd : c.isDigit = true) :
    dropMinus (signChars neg ++ body) = body := by
  have hns := isDigit_not_sign c hd
  cases body with
  | nil => simp at hh
  | cons a rest =>
    simp only [List.head?_cons, Option.some.injEq] at hh
    subst hh
    cases neg with
    | true => simp [signChars, dropMinus]
    | false =>
      simp only [signChars, Bool.false_eq_true, if_false, List.nil_append]
      unfold dropMinus
      split
      · rename_i r heq
        simp only [List.cons.injEq] at heq
        exact absurd heq.1 hns.1
      · rfl

theorem validExp_expChars (x : Int) : validExp ('e' :: expChars x) = true := by
  obtain ⟨c, rest, heq, hd, _, _⟩ := natDigits_head x.natAbs
  have hall := all_isDigit_of_forall _ (natDigits_digits x.natAbs)
  have hne : natDigits x.natAbs ≠ [] := by rw [heq]; simp
  have hz2 : ('0' :: natDigits x.natAbs).all Char.isDigit = true := by
    simp only [List.all_cons, hall, Bool.and_true]
    decide
  unfold validExp expChars
  by_cases h0 : x < 0
  · simp [h0, stripSign, hall, hne]
  · by_cases h10 : x < 10
    · simp [h0, h10, stripSign, hz2]
    · simp [h0, h10, stripSign, hall, hne]

theorem validAfterInt_nil : validAfterInt [] = true := by
  simp [validAfterInt, skipFraction, validExp]

theorem validAfterInt_exp (x : Int) : validAfterInt ('e' :: expChars x) = true := by
  have : skipFraction ('e' :: expChars x) = 'e' :: expChars x := by
    unfold skipFraction
    split
    · rename_i d r heq
      simp only [List.cons.injEq] at heq
      exact absurd heq.1 (by decide)
    · rfl
  unfold validAfterInt
  rw [this]
  exact validExp_expChars x

theorem validAfterInt_frac (fs tail : List Char) (hfs : ∀ c ∈ fs, c.isDigit = true)
    (hne : fs ≠ []) (ht : tail.dropWhile Char.isDigit = tail) :
    validAfterInt ('.' :: (fs ++ tail)) = validExp tail := by
  obtain ⟨f0, fr, rfl⟩ := List.exists_cons_of_ne_nil hne
  have hf0 : f0.isDigit = true := hfs f0 (by simp)
  have hfr : ∀ c ∈ fr, c.isDigit = true := fun c hc => hfs c (List.mem_cons_of_mem _ hc)
  have hdw : (fr ++ tail).dropWhile Char.isDigit = tail := by
    rw [List.dropWhile_append, (takeWhile_all_digits fr hfr).2]
    simp [ht]
  unfold validAfterInt skipFraction
  simp [hf0, hdw]

theorem validInt_lead (d0 : Char) (ds tail : List Char) (hd0 : d0.isDigit = true)
    (hnz : d0 ≠ '0') (hds : ∀ c ∈ ds, c.isDigit = true)
    (ht : tail.dropWhile Char.isDigit = tail) :
    validInt (d0 :: (ds ++ tail)) = validAfterInt tail := by
  have hdw : (ds ++ tail).dropWhile Char.isDigit = tail := by
    rw [List.dropWhile_append, (takeWhile_all_digits ds hds).2]
    simp [ht]
  simp [validInt, hnz, hd0, hdw]

theorem validInt_zero (tail : List Char) : validInt ('0' :: tail) = validAfterInt tail := by
  simp [validInt]

theorem isValidNumber_formatInt (t : Int) : isValidNumber (formatInt t) = true := by
  obtain ⟨c, rest, heq, hd, hnz, hz⟩ := natDigits_head t.natAbs
  have hall := natDigits_digits t.natAbs
  have hrest : ∀ x ∈ rest, x.isDigit = true := by
    intro x hx
    exact hall x (by rw [heq]; exact List.mem_cons_of_mem _ hx)
  have hbody : validInt (natDigits t.natAbs) = true := by
    rw [heq]
    by_cases h0 : t.natAbs = 0
    · obtain ⟨hc, hr⟩ := hz h0
      rw [hc, hr, validInt_zero]
      exact validAfterInt_nil
    · have := validInt_lead c rest [] hd (hnz (Nat.pos_of_ne_zero h0)) hrest rfl
      rw [List.append_nil] at this
      rw [this]
      exact validAfterInt_nil
  have hsig : ∀ neg : Bool, isValidNumber (signChars neg ++ natDigits t.natAbs) = true := by
    intro neg
    unfold isValidNumber
    rw [dropMinus_signed neg _ c (by rw [heq]; rfl) hd]
    exact hbody
  unfold formatInt
  by_cases hneg : t < 0
  · rw [if_pos hneg]
    exact hsig true
  · rw [if_neg hneg]
    exact hsig false

theorem isValidNumber_fmtF (neg : Bool) (digs : List Char) (p : Int)
    (hall : ∀ x ∈ digs, x.isDigit = true)
    (hnz : (∃ d0 r, digs = d0 :: r ∧ d0 ≠ '0') ∨ (digs = ['0'] ∧ p = 0)) :
    isValidNumber (fmtF neg digs (digs.length + p)) = true := by
  unfold fmtF isValidNumber
  by_cases h1 : (digs.length : Int) ≤ digs.length + p
  · rw [if_pos h1]
    have hp : 0 ≤ p := by omega
    have hk : ((digs.length : Int) + p - digs.length).toNat = p.toNat := by
      congr 1; omega
    rw [hk]
    rcases hnz with ⟨d0, r, hdr, hd0z⟩ | ⟨hdz, hp0⟩
    · subst hdr
      have hd0 : d0.isDigit = true := hall d0 (by simp)
      have hr : ∀ x ∈ r ++ zeros p.toNat, x.isDigit = true := by
        intro x hx
        rcases List.mem_append.mp hx with h | h
        · exact hall x (List.mem_cons_of_mem _ h)
        · exact zeros_digits _ x h
      rw [dropMinus_signed neg _ d0 (by rfl) hd0]
      have := validInt_lead d0 (r ++ zeros p.toNat) [] hd0 hd0z hr rfl
      rw [List.append_nil] at this
      rw [List.cons_append, this]
      exact validAfterInt_nil
    · subst hdz
      subst hp0
      rw [dropMinus_signed neg _ '0' (by rfl) (by decide)]
      simp [zeros, validInt_zero, validAfterInt_nil]
  · rw [if_neg h1]
    have hp : p < 0 := by omega
    have hd0e : ∃ d0 r, digs = d0 :: r ∧ d0 ≠ '0' := by
      rcases hnz with h | ⟨_, hp0⟩
      · exact h
      · omega
    obtain ⟨d0, r, hdr, hd0z⟩ := hd0e
    have hd0 : d0.isDigit = true := hall d0 (by rw [hdr]; simp)
    by_cases h2 : 0 < (digs.length : Int) + p
    · rw [if_pos h2]
      obtain ⟨j, hj⟩ : ∃ j : Nat, ((digs.length : Int) + p).toNat = j + 1 :=
        ⟨((digs.length : Int) + p).toNat - 1, by omega⟩
      have hjlt : j + 1 < digs.length := by omega
      rw [hj]
      have htake : digs.take (j + 1) = d0 :: r.take j := by rw [hdr]; simp
      have hdp : ∀ x ∈ digs.drop (j + 1), x.isDigit = true :=
        fun x hx => hall x (List.mem_of_mem_drop hx)
      have hdne : digs.drop (j + 1) ≠ [] := by
        intro h
        have := congrArg List.length h
        rw [List.length_drop] at this
        simp at this
        omega
      have hrt : ∀ x ∈ r.take j, x.isDigit = true := by
        intro x hx
        exact hall x (by rw [hdr]; exact List.mem_cons_of_mem _ (List.mem_of_mem_take hx))
      rw [htake, dropMinus_signed neg _ d0 (by rfl) hd0, List.cons_append,
        validInt_lead d0 (r.take j) ('.' :: digs.drop (j + 1)) hd0 hd0z hrt (by
          simp [List.dropWhile])]
      have := validAfterInt_frac (digs.drop (j + 1)) [] hdp hdne rfl
      rw [List.append_nil] at this
      rw [this]
      rfl
    · rw [if_neg h2]
      have hfs : ∀ x ∈ zeros (-((digs.length : Int) + p)).toNat ++ digs, x.isDigit = true := by
        intro x hx
        rcases List.mem_append.mp hx with h | h
        · exact zeros_digits _ x h
        · exact hall x h
      have hfne : zeros (-((digs.length : Int) + p)).toNat ++ digs ≠ [] := by
        rw [hdr]; simp
      rw [dropMinus_signed neg _ '0' (by rfl) (by decide), validInt_zero]
      have := validAfterInt_frac _ [] hfs hfne rfl
      rw [List.append_nil] at this
      rw [this]
      rfl

theorem isValidNumber_fmtE (neg : Bool) (digs : List Char) (dp : Int)
    (hall : ∀ x ∈ digs, x.isDigit = true)
    (hnz : ∃ d0 r, digs = d0 :: r ∧ d0 ≠ '0') :
    isValidNumber (fmtE neg digs dp) = true := by
  obtain ⟨d0, r, hdr, hd0z⟩ := hnz
  subst hdr
  have hd0 : d0.isDigit = true := hall d0 (by simp)
  have hr : ∀ x ∈ r, x.isDigit = true := fun x hx => hall x (List.mem_cons_of_mem _ hx)
  unfold fmtE isValidNumber
  have ht : (d0 :: r).take 1 = [d0] := by simp
  have hdrop : (d0 :: r).drop 1 = r := by simp
  rw [ht, hdrop]
  have hedw : ∀ ex : List Char, ('e' :: ex).dropWhile Char.isDigit = 'e' :: ex := by
    intro ex; simp [List.dropWhile]
  cases r with
  | nil =>
    have hcond : ¬ (1 < [d0].length) := by simp
    rw [if_neg hcond, dropMinus_signed neg _ d0 (by rfl) hd0]
    have := validInt_lead d0 [] ('e' :: expChars (dp - 1)) hd0 hd0z (by simp) (hedw _)
    simp only [List.nil_append] at this
    simp only [List.nil_append, List.singleton_append]
    rw [this]
    exact validAfterInt_exp _
  | cons r0 rr =>
    have hcond : 1 < (d0 :: r0 :: rr).length := by simp
    rw [if_pos hcond, dropMinus_signed neg _ d0 (by rfl) hd0]
    have h1 := validInt_lead d0 [] ('.' :: ((r0 :: rr) ++ 'e' :: expChars (dp - 1))) hd0 hd0z
      (by simp) (by simp [List.dropWhile])
    simp only [List.nil_append] at h1
    have hshape : [d0] ++ ('.' :: (r0 :: rr) ++ 'e' :: expChars (dp - 1)) =
        d0 :: '.' :: ((r0 :: rr) ++ 'e' :: expChars (dp - 1)) := rfl
    rw [hshape, h1, validAfterInt_frac (r0 :: rr) ('e' :: expChars (dp - 1)) hr (by simp) (hedw _)]
    exact validExp_expChars _


/-- The float encoder writes a JSON number that reads back as the float. -/
theorem encodeFloat_spec (neg : Bool) (m : Nat) (e : Int)
    (hc : (Float64.finite neg m e).canonical) :
    ∃ fs, encodeFloat (.finite neg m e) = some fs ∧ isValidNumber fs = true ∧
      ParseFloat (String.mk fs) = (.finite neg m e, none) := by
  obtain ⟨hpos, hround⟩ := shortest_spec neg m e hc
  have hall := natDigits_digits (shortest neg m e).1
  have hpd := parseDigits_natDigits (shortest neg m e).1
  obtain ⟨d0, r, hdr, hd0, hd0nz, hd0z⟩ := natDigits_head (shortest neg m e).1
  have hne : natDigits (shortest neg m e).1 ≠ [] := by rw [hdr]; simp
  have hparse : ∀ fs dec, readFloat fs = some dec → dec.neg = neg →
      dec.num = Decimal.num ⟨neg, (shortest neg m e).1, (shortest neg m e).2⟩ →
      dec.den = Decimal.den ⟨neg, (shortest neg m e).1, (shortest neg m e).2⟩ →
      ParseFloat (String.mk fs) = (.finite neg m e, none) := by
    intro fs dec h1 h2 h3 h4
    unfold ParseFloat
    simp only [h1, h2, h3, h4, hround]
    simp
  simp only [encodeFloat]
  by_cases huse : m ≠ 0 ∧ useExponent m e = true
  · rw [if_pos huse]
    refine ⟨_, rfl, ?_, ?_⟩
    · exact isValidNumber_fmtE neg _ _ hall ⟨d0, r, hdr, hd0nz (hpos huse.1)⟩
    · obtain ⟨dec, h1, h2, h3, h4⟩ := readFloat_fmtE neg _ _ (shortest neg m e).2 hall hne hpd
      exact hparse _ dec h1 h2 h3 h4
  · rw [if_neg huse]
    refine ⟨_, rfl, ?_, ?_⟩
    · apply isValidNumber_fmtF neg _ _ hall
      by_cases hm : m = 0
      · right
        have hs : shortest neg m e = (0, 0) := by simp [shortest, hm]
        rw [hs]
        exact ⟨by decide, rfl⟩
      · left
        exact ⟨d0, r, hdr, hd0nz (hpos hm)⟩
    · obtain ⟨dec, h1, h2, h3, h4⟩ := readFloat_fmtF neg _ _ (shortest neg m e).2 hall hne hpd
      exact hparse _ dec h1 h2 h3 h4

/-- C9: for every datapoint with a finite value (a well-formed `float64`, and a
timestamp in the `int64` range), `MarshalJSON` succeeds and `UnmarshalJSON` on
the bytes it produced succeeds and yields the same timestamp and the same
value, whatever the receiver held before. -/
theorem MarshalJSON_UnmarshalJSON (d d0 : Datapoint) (neg : Bool) (m : Nat) (e : Int)
    (hv : d.Value = .finite neg m e) (hcan : d.Value.canonical)
    (hlo : minInt64 ≤ d.Timestamp) (hhi : d.Timestamp ≤ maxInt64) :
    ∃ b, MarshalJSON d = (b, none) ∧ UnmarshalJSON d0 b = (d, none) := by
  rw [hv] at hcan
  obtain ⟨fs, henc, hvalid, hpf⟩ := encodeFloat_spec neg m e hcan
  have hb : String.mk ('[' :: (formatInt d.Timestamp ++ ',' :: (fs ++ [']']))) =
      "[" ++ String.mk (formatInt d.Timestamp) ++ "," ++ String.mk fs ++ "]" := by
    apply String.ext
    rw [wire_data]
  refine ⟨String.mk ('[' :: (formatInt d.Timestamp ++ ',' :: (fs ++ [']']))), ?_, ?_⟩
  · unfold MarshalJSON
    rw [hv, henc]
  · rw [hb]
    unfold UnmarshalJSON
    rw [unmarshalNumbers_pair (String.mk (formatInt d.Timestamp)) (String.mk fs)
      (isValidNumber_formatInt d.Timestamp) hvalid]
    simp only [ParseInt_formatInt d.Timestamp hlo hhi, unmarshalValue, hpf]
    cases d with
    | mk ts v =>
      simp only at hv
      rw [hv]

set_option maxRecDepth 100000 in
/-- C9 at the datapoint of `TestDatapointMarshalJSON`: it encodes to
`[1456080911,1902.3385]`, which decodes back to it. -/
theorem MarshalJSON_UnmarshalJSON_witness :
    (f1902_3385.canonical ∧ minInt64 ≤ 1456080911 ∧ (1456080911 : Int) ≤ maxInt64) ∧
    MarshalJSON ⟨1456080911, f1902_3385⟩ = ("[1456080911,1902.3385]", none) ∧
    UnmarshalJSON default "[1456080911,1902.3385]" = (⟨1456080911, f1902_3385⟩, none) ∧
    ∃ b, MarshalJSON ⟨1456080911, f1902_3385⟩ = (b, none) ∧
      UnmarshalJSON default b = (⟨1456080911, f1902_3385⟩, none) :=
  ⟨⟨by decide, by decide, by decide⟩,
    by decide!, by decide!,
    MarshalJSON_UnmarshalJSON ⟨1456080911, f1902_3385⟩ default false 8366573202863817 (-42) rfl
      (by decide) (by decide) (by decide)⟩

/-! ### The pipeline: which commands are sent -/

theorem process_ts_method {σ ω κ ρ : Type} (env : Env σ ω κ ρ) (pts : List Datapoint)
    (fname : String) (s : σ) (h : (process env pts "ts" fname s).err = none) :
    (process env pts "ts" fname s).res.Method = "ts" := by
  unfold process at h ⊢
  simp only [rCmdString] at h ⊢
  simp only [show ("ts" : String) ≠ "vec" by decide, if_false, if_true] at h ⊢
  cases hE : eval env ("processAnomsTs(\"" ++ fname ++ "\")") s with
  | mk r s1 =>
    cases r with
    | error e => simp [hE] at h
    | ok data =>
      simp only [hE] at h ⊢
      cases hJ : env.jsonEncode data with
      | error e => simp [hJ] at h
      | ok buf =>
        simp only [hJ] at h ⊢
        cases hD : env.decodeTs buf with
        | error e => simp [hD] at h
        | ok resp =>
          simp only [hD] at h ⊢
          unfold formatResponseTs at h ⊢
          by_cases hl : resp.Anoms.Anoms.length = resp.Anoms.Timestamp.length
          · simp [hl]
          · simp [hl] at h

theorem eval_snd {σ ω κ ρ : Type} (env : Env σ ω κ ρ) (cmd : String) (s : σ) :
    (eval env cmd s).2 = (env.Eval cmd s).2 := by
  unfold eval
  split <;> simp_all

/-- Whatever the outcome, a call of `process` with a command string `cmd`
sends exactly that command, once. -/
theorem process_trace {σ ω κ ρ : Type} (env : Env σ ω κ ρ) (pts : List Datapoint)
    (method fname cmd : String) (s : σ) (hc : rCmdString method fname = (cmd, none)) :
    (process env pts method fname s).cmds = [cmd] ∧
      (process env pts method fname s).st = (env.Eval cmd s).2 := by
  rw [← eval_snd]
  unfold process
  simp only [hc]
  cases hE : eval env cmd s with
  | mk r s1 =>
    cases r with
    | error e => simp
    | ok data =>
      simp only
      cases hJ : env.jsonEncode data with
      | error e => simp
      | ok buf =>
        simp only
        split
        · split <;> simp
        · split
          · split <;> simp
          · simp

theorem cmd_ts_ne_vec (p q : String) :
    "processAnomsTs(\"" ++ p ++ "\")" ≠ "processAnomsVec(\"" ++ q ++ "\")" := by
  intro h
  have h2 := congrArg String.data h
  simp only [String.data_append] at h2
  have h3 := congrArg (fun l => l.get? 12) h2
  simp at h3

/-- C11: when the export succeeds with path `p` and the "ts" attempt succeeds
with result `r`, `GeneratePNG` returns `r` with no error and `r.Method` is "ts";
the commands sent to the daemon are the single command `processAnomsTs("p")`,
the world is the one that single evaluation left, and no `processAnomsVec`
command is among the commands sent. -/
theorem GeneratePNG_ts_only {σ ω κ ρ : Type} (env : Env σ ω κ ρ)
    (points : List Datapoint) (s : σ) (p : String) (r : Result)
    (hexport : (exportStep env points s).err = none)
    (hp : (exportStep env points s).fname = p)
    (hts : (tsAttempt env points s).err = none)
    (hr : (tsAttempt env points s).res = r) :
    (GeneratePNG env points s).res = r ∧ (GeneratePNG env points s).err = none ∧
      r.Method = "ts" ∧
      (GeneratePNG env points s).cmds = ["processAnomsTs(\"" ++ p ++ "\")"] ∧
      (GeneratePNG env points s).st =
        (env.Eval ("processAnomsTs(\"" ++ p ++ "\")") (exportStep env points s).st).2 ∧
      (∀ q, "processAnomsVec(\"" ++ q ++ "\")" ∉ (GeneratePNG env points s).cmds) := by
  have hm : r.Method = "ts" := by
    rw [← hr]
    exact process_ts_method env (exportStep env points s).dps (exportStep env points s).fname
      (exportStep env points s).st hts
  have htr := process_trace env (exportStep env points s).dps "ts"
    (exportStep env points s).fname ("processAnomsTs(\"" ++ p ++ "\")")
    (exportStep env points s).st (by simp [rCmdString, hp])
  have hc : (GeneratePNG env points s).cmds = ["processAnomsTs(\"" ++ p ++ "\")"] := by
    rw [← htr.1]
    unfold exportStep at hexport ⊢
    unfold tsAttempt exportStep at hts
    simp only [GeneratePNG, hexport, hts]
  refine ⟨?_, ?_, hm, hc, ?_, ?_⟩
  · rw [← hr]
    unfold exportStep at hexport
    unfold tsAttempt exportStep at hts ⊢
    simp only [GeneratePNG, hexport, hts]
  · unfold exportStep at hexport
    unfold tsAttempt exportStep at hts
    simp only [GeneratePNG, hexport, hts]
  · rw [← htr.2]
    unfold exportStep at hexport ⊢
    unfold tsAttempt exportStep at hts
    simp only [GeneratePNG, hexport, hts]
  · intro q hq
    rw [hc, List.mem_singleton] at hq
    exact cmd_ts_ne_vec p q hq.symm

/-- C11 at a daemon that answers the "ts" call: one command was sent. -/
theorem GeneratePNG_ts_only_witness :
    ((exportStep tsEnv testPoints 0).err = none ∧
      (exportStep tsEnv testPoints 0).fname = "/tmp/gorp-123" ∧
      (tsAttempt tsEnv testPoints 0).err = none) ∧
    (GeneratePNG tsEnv testPoints 0).st = 1 ∧
    (GeneratePNG tsEnv testPoints 0).res = (formatResponseTs tsReply).1 ∧
    (GeneratePNG tsEnv testPoints 0).err = none ∧
    (formatResponseTs tsReply).1.Method = "ts" ∧
    (GeneratePNG tsEnv testPoints 0).cmds = ["processAnomsTs(\"" ++ "/tmp/gorp-123" ++ "\")"] ∧
    (GeneratePNG tsEnv testPoints 0).st =
      (tsEnv.Eval ("processAnomsTs(\"" ++ "/tmp/gorp-123" ++ "\")")
        (exportStep tsEnv testPoints 0).st).2 ∧
    (∀ q, "processAnomsVec(\"" ++ q ++ "\")" ∉ (GeneratePNG tsEnv testPoints 0).cmds) :=
  ⟨⟨by decide, by decide, by decide⟩, by decide,
    GeneratePNG_ts_only tsEnv testPoints 0 "/tmp/gorp-123" (formatResponseTs tsReply).1
      (by decide) (by decide) (by decide) (by decide)⟩

/-- C12: for every path `p`, `rCmdString("ts", p)` is `processAnomsTs("p")` and
`rCmdString("vec", p)` is `processAnomsVec("p")`, each with no error; every
other method string gives an error and the empty command. -/
theorem rCmdString_spec :
    (∀ p, rCmdString "ts" p = ("processAnomsTs(\"" ++ p ++ "\")", none)) ∧
    (∀ p, rCmdString "vec" p = ("processAnomsVec(\"" ++ p ++ "\")", none)) ∧
    (∀ m p, m ≠ "ts" → m ≠ "vec" → rCmdString m p = ("", some "method must be 'ts' or 'vec'")) ∧
    rCmdString "ts" "/tmp/file.csv" = ("processAnomsTs(\"/tmp/file.csv\")", none) ∧
    rCmdString "vec" "/tmp/file2.csv" = ("processAnomsVec(\"/tmp/file2.csv\")", none) ∧
    (rCmdString "blah" "").2 ≠ none := by
  refine ⟨?_, ?_, ?_, by decide, by decide, by decide⟩
  · intro p; simp [rCmdString]
  · intro p
    simp only [rCmdString, show ("vec" : String) ≠ "ts" by decide, if_false, if_true]
  · intro m p h1 h2
    simp [rCmdString, h1, h2]

theorem head_append (a b : String) (c : Char) (h : a.data.head? = some c) :
    (a ++ b).data.head? = some c := by
  rw [String.data_append]
  cases ha : a.data with
  | nil => rw [ha] at h; simp at h
  | cons x l => rw [ha] at h; simpa using h

theorem formatResponseVec_err_head (r : vecResponse) :
    (formatResponseVec r).2 = none ∨
      ∃ e, (formatResponseVec r).2 = some e ∧ e.data.head? = some 'n' := by
  unfold formatResponseVec
  by_cases hl : r.Anoms.Index.length = r.Anoms.Anoms.length
  · left; simp [hl]
  · right
    simp only [ne_eq, hl, not_false_eq_true, if_true]
    exact ⟨_, rfl, head_append _ _ _ (head_append _ _ _ (head_append _ _ _
      (head_append _ _ _ rfl)))⟩

theorem formatResponseTs_err_head (r : tsResponse) :
    (formatResponseTs r).2 = none ∨
      ∃ e, (formatResponseTs r).2 = some e ∧ e.data.head? = some 'n' := by
  unfold formatResponseTs
  by_cases hl : r.Anoms.Anoms.length = r.Anoms.Timestamp.length
  · left; simp [hl]
  · right
    simp only [ne_eq, hl, not_false_eq_true, if_true]
    exact ⟨_, rfl, head_append _ _ _ (head_append _ _ _ (head_append _ _ _
      (head_append _ _ _ rfl)))⟩

/-- Every error of `process` starts with a letter other than `u`: it comes from
`rCmdString`, the evaluation, the json steps or the formatters. -/
theorem process_err_head {σ ω κ ρ : Type} (env : Env σ ω κ ρ) (pts : List Datapoint)
    (m fname : String) (s : σ) :
    (process env pts m fname s).err = none ∨
      ∃ e c, (process env pts m fname s).err = some e ∧ e.data.head? = some c ∧ c ≠ 'u' := by
  unfold process
  cases hc : rCmdString m fname with
  | mk cmd ce =>
    cases ce with
    | some e0 =>
      right
      have he0 : e0 = "method must be 'ts' or 'vec'" := by
        unfold rCmdString at hc
        split at hc
        · simp at hc
        · split at hc
          · simp at hc
          · simp only [Prod.mk.injEq, Option.some.injEq] at hc
            exact hc.2.symm
      subst he0
      exact ⟨_, 'm', rfl, rfl, by decide⟩
    | none =>
      have hm : m = "ts" ∨ m = "vec" := by
        unfold rCmdString at hc
        split at hc
        · left; assumption
        · split at hc
          · right; assumption
          · simp at hc
      simp only
      unfold eval
      cases hE : env.Eval cmd s with
      | mk r s1 =>
        cases r with
        | error e =>
          right
          exact ⟨_, 'r', rfl, head_append _ _ _ rfl, by decide⟩
        | ok data =>
          simp only
          cases hJ : env.jsonEncode data with
          | error e =>
            right
            exact ⟨_, 'j', rfl, head_append _ _ _ rfl, by decide⟩
          | ok buf =>
            simp only
            rcases hm with hm | hm
            · subst hm
              simp only [show ("ts" : String) ≠ "vec" by decide, if_false, if_true]
              cases hD : env.decodeTs buf with
              | error e =>
                right
                exact ⟨_, 't', rfl, head_append _ _ _ rfl, by decide⟩
              | ok resp =>
                simp only
                rcases formatResponseTs_err_head resp with h | ⟨e, h1, h2⟩
                · left; exact h
                · right; exact ⟨e, 'n', h1, h2, by decide⟩
            · subst hm
              simp only [if_true]
              cases hD : env.decodeVec buf with
              | error e =>
                right
                exact ⟨_, 'v', rfl, head_append _ _ _ rfl, by decide⟩
              | ok resp =>
                simp only
                rcases formatResponseVec_err_head resp with h | ⟨e, h1, h2⟩
                · left; exact h
                · right; exact ⟨e, 'n', h1, h2, by decide⟩

/-- C13: when `process` succeeds, the method is "ts" or "vec" and the result
carries it as its `Method`; for any other method `process` returns the error of
`rCmdString` and the empty `Result`, sends no command and leaves the world as it
was; and no call of `process` ever returns the error "unrecognized method" of
the last branch of its switch. -/
theorem process_method_tag {σ ω κ ρ : Type} (env : Env σ ω κ ρ) (pts : List Datapoint)
    (m fname : String) (s : σ) :
    ((process env pts m fname s).err = none →
      (m = "ts" ∨ m = "vec") ∧ (process env pts m fname s).res.Method = m) ∧
    (m ≠ "ts" → m ≠ "vec" →
      (process env pts m fname s).err = some "method must be 'ts' or 'vec'" ∧
      (process env pts m fname s).res = {} ∧
      (process env pts m fname s).cmds = [] ∧ (process env pts m fname s).st = s) ∧
    (process env pts m fname s).err ≠ some ("unrecognized method '" ++ m ++ "'") := by
  refine ⟨?_, ?_, ?_⟩
  · intro h
    by_cases h1 : m = "ts"
    · subst h1
      exact ⟨Or.inl rfl, process_ts_method env pts fname s h⟩
    · by_cases h2 : m = "vec"
      · subst h2
        exact ⟨Or.inr rfl, process_vec_method env pts fname s h⟩
      · exfalso
        unfold process at h
        simp [rCmdString, h1, h2] at h
  · intro h1 h2
    unfold process
    simp [rCmdString, h1, h2]
  · intro h
    rcases process_err_head env pts m fname s with h0 | ⟨e, c, h1, h2, h3⟩
    · rw [h0] at h; simp at h
    · rw [h1] at h
      simp only [Option.some.injEq] at h
      rw [h, head_append ("unrecognized method '" ++ m) "'" 'u'
        (head_append "unrecognized method '" m 'u' (by rfl))] at h2
      simp only [Option.some.injEq] at h2
      exact h3 h2.symm

/-- C16: when the export fails, `GeneratePNG` returns the export's error and the
empty `Result`; no command is sent to the daemon and the world is as the export
left it. -/
theorem GeneratePNG_export_error {σ ω κ ρ : Type} (env : Env σ ω κ ρ)
    (points : List Datapoint) (s : σ) (e : String)
    (hexport : (exportStep env points s).err = some e) :
    (GeneratePNG env points s).err = some e ∧ (GeneratePNG env points s).res = {} ∧
      (GeneratePNG env points s).cmds = [] ∧
      (GeneratePNG env points s).st = (exportStep env points s).st := by
  unfold exportStep at hexport ⊢
  simp [GeneratePNG, hexport]

/-- C16 in a world where no temporary file can be created: the daemon's counter
stays at 0. -/
theorem GeneratePNG_export_error_witness :
    (exportStep noTempEnv testPoints 0).err =
      some "tempfile err: open /tmp/gorp-123: permission denied" ∧
    (GeneratePNG noTempEnv testPoints 0).st = 0 ∧
    (GeneratePNG noTempEnv testPoints 0).err =
      some "tempfile err: open /tmp/gorp-123: permission denied" ∧
    (GeneratePNG noTempEnv testPoints 0).res = {} ∧
    (GeneratePNG noTempEnv testPoints 0).cmds = [] ∧
    (GeneratePNG noTempEnv testPoints 0).st = (exportStep noTempEnv testPoints 0).st :=
  ⟨by decide, by decide,
    GeneratePNG_export_error noTempEnv testPoints 0
      "tempfile err: open /tmp/gorp-123: permission denied" (by decide)⟩

/-! ### Write errors of the export -/

set_option maxRecDepth 100000 in
/-- C14 fails on the code.  On a disk where every write fails, `writeCsv` returns
no error for the empty batch and for the three samples of `datapoint_test.go`,
and `writeTempCsv` returns the file name with no error, while nothing reached
the file and the csv writer holds the error `cw.Error()` would report.  For the
empty batch `writeCsv` returns no error whatever the writer does (the sort
routine meeting its contract).  On a healthy
disk the same calls write the table. -/
theorem writeCsv_drops_write_errors :
    (∀ p s, (fileWrite true p s).1.2 ≠ none ∧ (fileWrite true p s).2 = s) ∧
    (writeCsv (diskEnv true) [] "/tmp/gorp-123" []).err = none ∧
    (writeCsv (diskEnv true) testPoints "/tmp/gorp-123" []).err = none ∧
    (writeCsv (diskEnv true) testPoints "/tmp/gorp-123" []).st = [] ∧
    (writeCsv (diskEnv true) testPoints "/tmp/gorp-123" []).cw.err =
      some "write /tmp/gorp-123: no space left on device" ∧
    (writeTempCsv (diskEnv true) testPoints []).err = none ∧
    (writeTempCsv (diskEnv true) testPoints []).fname = "/tmp/gorp-123" ∧
    (writeTempCsv (diskEnv true) testPoints []).st = [] ∧
    (∀ (σ ω κ ρ : Type) (env : Env σ ω κ ρ) (w : ω) (s : σ),
      SortContract env.sortSort → (writeCsv env [] w s).err = none) ∧
    String.mk (writeTempCsv (diskEnv false) testPoints []).st =
      "date,value\n1456080851,6.23\n1456080911,6.24\n1456080971,6.39\n" := by
  refine ⟨?_, by decide!, by decide!, by decide!, by decide!, by decide!, by decide!,
    by decide!, ?_, by decide!⟩
  · intro p s
    simp [fileWrite]
  · intro σ ω κ ρ env w s hsort
    have h0 : env.sortSort [] = [] := List.Perm.eq_nil (hsort []).1
    simp [writeCsv, writeRows, h0]

/-! ### The HTTP handler -/

theorem headerGet_set_same (h : List (String × String)) (k v : String) :
    headerGet (headerSet h k v) k = v := by
  simp [headerGet, headerSet, List.lookup]

theorem lookup_filter_ne (k k2 : String) (hk : k2 ≠ k) :
    ∀ h : List (String × String),
      (h.filter (fun p => !decide (p.1 = k))).lookup k2 = h.lookup k2 := by
  intro h
  induction h with
  | nil => rfl
  | cons p t ih =>
    obtain ⟨a, b⟩ := p
    by_cases ha : a = k
    · subst ha
      have hne : (k2 == a) = false := by simpa using hk
      simp [List.filter, List.lookup, hne, ih]
    · by_cases h2 : k2 = a
      · subst h2
        simp [List.filter, List.lookup, ha]
      · have hne : (k2 == a) = false := by simpa using h2
        simp [List.filter, List.lookup, ha, hne, ih]

theorem headerGet_set_other (h : List (String × String)) (k v k2 : String) (hk : k2 ≠ k) :
    headerGet (headerSet h k v) k2 = headerGet h k2 := by
  have hne : (k2 == k) = false := by simpa using hk
  simp only [headerGet, headerSet, List.lookup, hne]
  rw [lookup_filter_ne k k2 hk]

theorem write_sent (w : ResponseWriter) (p : List UInt8) :
    (w.sent = none → (w.Write p).1.sent = some (200, w.header)) ∧
    (∀ x, w.sent = some x → (w.Write p).1.sent = some x) ∧
    (w.broken = false → (w.Write p).2 = none ∧ (w.Write p).1.body = w.body ++ p) := by
  refine ⟨?_, ?_, ?_⟩
  · intro h
    unfold ResponseWriter.Write ResponseWriter.WriteHeader
    simp only [h]
    split <;> rfl
  · intro x h
    unfold ResponseWriter.Write ResponseWriter.WriteHeader
    simp only [h]
    split <;> simp [h]
  · intro h
    unfold ResponseWriter.Write ResponseWriter.WriteHeader
    cases hs : w.sent <;> simp [h]

theorem httpError_sent (w : ResponseWriter) (msg : String) (code : Nat) (x : Nat × List (String × String))
    (h : w.sent = some x) : (httpError w msg code).sent = some x := by
  unfold httpError
  apply (write_sent _ _).2.1
  simp [ResponseWriter.WriteHeader, ResponseWriter.Set, h]

/-- The header, status and body of the response when the pipeline has
succeeded with `res`. -/
theorem handlePostImage_response {σ : Type}
    (client : List Datapoint → σ → (Result × Option String) × σ)
    (encode : Result → Except String (List UInt8)) (w : ResponseWriter) (r : Request) (s : σ)
    (points : List Datapoint) (res : Result) (s1 : σ)
    (hfresh : w.sent = none) (hdec : r.points = .ok points)
    (hrun : client points s = ((res, none), s1)) :
    (r.accept = "application/json" →
      (finishRequest (handlePostImage client encode w r s).1).sent =
        some (200, (((w.Set "X-Gorp-Method" res.Method).Set "X-Gorp-Anomalies"
          (Itoa res.Anomalies.length)).Set "Content-Type" "application/json").header) ∧
      (∀ js, encode res = .ok js → w.broken = false →
        (finishRequest (handlePostImage client encode w r s).1).body = w.body ++ js)) ∧
    (r.accept ≠ "application/json" →
      (finishRequest (handlePostImage client encode w r s).1).sent =
        some (200, ((((w.Set "X-Gorp-Method" res.Method).Set "X-Gorp-Anomalies"
          (Itoa res.Anomalies.length)).Set "Content-Type" "image/png").Set "Content-Length"
          (Itoa res.PngData.length)).header) ∧
      (w.broken = false →
        (finishRequest (handlePostImage client encode w r s).1).body = w.body ++ res.PngData)) := by
  constructor
  · intro hacc
    unfold handlePostImage
    simp only [hdec, hrun, hacc, if_true]
    cases he : encode res with
    | error e =>
      simp only
      refine ⟨?_, ?_⟩
      · simp [finishRequest, ResponseWriter.WriteHeader, ResponseWriter.Set, hfresh]
      · intro js hjs
        simp at hjs
    | ok js0 =>
      simp only
      have hw := write_sent (((w.Set "X-Gorp-Method" res.Method).Set "X-Gorp-Anomalies"
          (Itoa res.Anomalies.length)).Set "Content-Type" "application/json") js0
      have h1 := hw.1 (by simp [ResponseWriter.Set, hfresh])
      refine ⟨?_, ?_⟩
      · simp only [finishRequest, ResponseWriter.WriteHeader, h1]
      · intro js hjs hb
        simp only [Except.ok.injEq] at hjs
        subst hjs
        have h2 := (hw.2.2 (by simp [ResponseWriter.Set, hb])).2
        simp only [finishRequest, ResponseWriter.WriteHeader, h1, h2]
        simp [ResponseWriter.Set]
  · intro hacc
    unfold handlePostImage
    simp only [hdec, hrun, hacc, if_false]
    have hw := write_sent ((((w.Set "X-Gorp-Method" res.Method).Set "X-Gorp-Anomalies"
        (Itoa res.Anomalies.length)).Set "Content-Type" "image/png").Set "Content-Length"
        (Itoa res.PngData.length)) res.PngData
    have h1 := hw.1 (by simp [ResponseWriter.Set, hfresh])
    cases hwr : ((((w.Set "X-Gorp-Method" res.Method).Set "X-Gorp-Anomalies"
        (Itoa res.Anomalies.length)).Set "Content-Type" "image/png").Set "Content-Length"
        (Itoa res.PngData.length)).Write res.PngData with
    | mk w1 err =>
      rw [hwr] at h1 hw
      simp only at h1
      cases err with
      | some e =>
        simp only
        have h3 := httpError_sent w1 ("write err: " ++ e) 500 _ h1
        refine ⟨?_, ?_⟩
        · simp only [finishRequest, ResponseWriter.WriteHeader, h3]
        · intro hb
          have := (hw.2.2 (by simp [ResponseWriter.Set, hb])).1
          simp at this
      | none =>
        simp only
        refine ⟨?_, ?_⟩
        · simp only [finishRequest, ResponseWriter.WriteHeader, h1]
        · intro hb
          have h2 := (hw.2.2 (by simp [ResponseWriter.Set, hb])).2
          simp only at h2
          simp only [finishRequest, ResponseWriter.WriteHeader, h1, h2]
          simp [ResponseWriter.Set]

/-- C17: when the body decodes and the pipeline succeeds with `res`, then for
every value of the `Accept` header the response goes out with status 200 and a
header in which `X-Gorp-Method` is `res.Method` and `X-Gorp-Anomalies` is the
decimal rendering of `len(res.Anomalies)`. -/
theorem handlePostImage_stamps {σ : Type}
    (client : List Datapoint → σ → (Result × Option String) × σ)
    (encode : Result → Except String (List UInt8)) (w : ResponseWriter) (r : Request) (s : σ)
    (points : List Datapoint) (res : Result) (s1 : σ)
    (hfresh : w.sent = none) (hdec : r.points = .ok points)
    (hrun : client points s = ((res, none), s1)) :
    ∃ hdr, (finishRequest (handlePostImage client encode w r s).1).sent = some (200, hdr) ∧
      headerGet hdr "X-Gorp-Method" = res.Method ∧
      headerGet hdr "X-Gorp-Anomalies" = Itoa res.Anomalies.length := by
  have h := handlePostImage_response client encode w r s points res s1 hfresh hdec hrun
  by_cases hacc : r.accept = "application/json"
  · refine ⟨_, (h.1 hacc).1, ?_, ?_⟩
    · simp only [ResponseWriter.Set]
      rw [headerGet_set_other _ _ _ _ (by decide), headerGet_set_other _ _ _ _ (by decide),
        headerGet_set_same]
    · simp only [ResponseWriter.Set]
      rw [headerGet_set_other _ _ _ _ (by decide), headerGet_set_same]
  · refine ⟨_, (h.2 hacc).1, ?_, ?_⟩
    · simp only [ResponseWriter.Set]
      rw [headerGet_set_other _ _ _ _ (by decide), headerGet_set_other _ _ _ _ (by decide),
        headerGet_set_other _ _ _ _ (by decide), headerGet_set_same]
    · simp only [ResponseWriter.Set]
      rw [headerGet_set_other _ _ _ _ (by decide), headerGet_set_other _ _ _ _ (by decide),
        headerGet_set_same]

/-- C17 at a request for JSON served by the pipeline of `tsEnv`: the method is
"ts" and there are two anomalies. -/
theorem handlePostImage_stamps_witness :
    (newResponse.sent = none ∧
      tsClient testPoints 0 = (((formatResponseTs tsReply).1, none), 1)) ∧
    (formatResponseTs tsReply).1.Method = "ts" ∧
    Itoa (formatResponseTs tsReply).1.Anomalies.length = "2" ∧
    ∃ hdr, (finishRequest (handlePostImage tsClient stubEncode newResponse
        ⟨.ok testPoints, "application/json"⟩ 0).1).sent = some (200, hdr) ∧
      headerGet hdr "X-Gorp-Method" = (formatResponseTs tsReply).1.Method ∧
      headerGet hdr "X-Gorp-Anomalies" = Itoa (formatResponseTs tsReply).1.Anomalies.length :=
  ⟨⟨by decide, by decide⟩, by decide, by decide,
    handlePostImage_stamps tsClient stubEncode newResponse ⟨.ok testPoints, "application/json"⟩ 0
      testPoints (formatResponseTs tsReply).1 1 (by decide) rfl (by decide)⟩

/-- C18: when the body decodes and the pipeline succeeds with `res`: if the
`Accept` header is exactly `application/json`, the response goes out with status
200 and `Content-Type: application/json`, and on a working connection its body
is the JSON encoding of `res` (when `res` has one); for every other `Accept`
value the response goes out with status 200, `Content-Type: image/png` and
`Content-Length` the decimal rendering of `len(res.PngData)`, and on a working
connection its body is `res.PngData`. -/
theorem handlePostImage_negotiates {σ : Type}
    (client : List Datapoint → σ → (Result × Option String) × σ)
    (encode : Result → Except String (List UInt8)) (w : ResponseWriter) (r : Request) (s : σ)
    (points : List Datapoint) (res : Result) (s1 : σ)
    (hfresh : w.sent = none) (hbody : w.body = []) (hdec : r.points = .ok points)
    (hrun : client points s = ((res, none), s1)) :
    (r.accept = "application/json" →
      ∃ hdr, (finishRequest (handlePostImage client encode w r s).1).sent = some (200, hdr) ∧
        headerGet hdr "Content-Type" = "application/json" ∧
        (∀ js, encode res = .ok js → w.broken = false →
          (finishRequest (handlePostImage client encode w r s).1).body = js)) ∧
    (r.accept ≠ "application/json" →
      ∃ hdr, (finishRequest (handlePostImage client encode w r s).1).sent = some (200, hdr) ∧
        headerGet hdr "Content-Type" = "image/png" ∧
        headerGet hdr "Content-Length" = Itoa res.PngData.length ∧
        (w.broken = false →
          (finishRequest (handlePostImage client encode w r s).1).body = res.PngData)) := by
  have h := handlePostImage_response client encode w r s points res s1 hfresh hdec hrun
  constructor
  · intro hacc
    refine ⟨_, (h.1 hacc).1, ?_, ?_⟩
    · simp only [ResponseWriter.Set]
      rw [headerGet_set_same]
    · intro js hjs hb
      rw [(h.1 hacc).2 js hjs hb, hbody, List.nil_append]
  · intro hacc
    refine ⟨_, (h.2 hacc).1, ?_, ?_, ?_⟩
    · simp only [ResponseWriter.Set]
      rw [headerGet_set_other _ _ _ _ (by decide), headerGet_set_same]
    · simp only [ResponseWriter.Set]
      rw [headerGet_set_same]
    · intro hb
      rw [(h.2 hacc).2 hb, hbody, List.nil_append]

/-- C18 at a request without an `Accept` header served by the pipeline of
`tsEnv`: the response is the four bytes of the plot, with their length in
`Content-Length`. -/
theorem handlePostImage_negotiates_witness :
    (newResponse.sent = none ∧ newResponse.body = [] ∧
      tsClient testPoints 0 = (((formatResponseTs tsReply).1, none), 1)) ∧
    (finishRequest (handlePostImage tsClient stubEncode newResponse
      ⟨.ok testPoints, ""⟩ 0).1).body = [137, 80, 78, 71] ∧
    (finishRequest (handlePostImage tsClient stubEncode newResponse
      ⟨.ok testPoints, "application/json"⟩ 0).1).body = [123, 125, 10] ∧
    (("" : String) = "application/json" →
      ∃ hdr, (finishRequest (handlePostImage tsClient stubEncode newResponse
          ⟨.ok testPoints, ""⟩ 0).1).sent = some (200, hdr) ∧
        headerGet hdr "Content-Type" = "application/json" ∧
        (∀ js, stubEncode (formatResponseTs tsReply).1 = .ok js → newResponse.broken = false →
          (finishRequest (handlePostImage tsClient stubEncode newResponse
            ⟨.ok testPoints, ""⟩ 0).1).body = js)) ∧
    (("" : String) ≠ "application/json" →
      ∃ hdr, (finishRequest (handlePostImage tsClient stubEncode newResponse
          ⟨.ok testPoints, ""⟩ 0).1).sent = some (200, hdr) ∧
        headerGet hdr "Content-Type" = "image/png" ∧
        headerGet hdr "Content-Length" = Itoa (formatResponseTs tsReply).1.PngData.length ∧
        (newResponse.broken = false →
          (finishRequest (handlePostImage tsClient stubEncode newResponse
            ⟨.ok testPoints, ""⟩ 0).1).body = (formatResponseTs tsReply).1.PngData)) :=
  ⟨⟨by decide, by decide, by decide⟩, by decide, by decide,
    handlePostImage_negotiates tsClient stubEncode newResponse ⟨.ok testPoints, ""⟩ 0
      testPoints (formatResponseTs tsReply).1 1 (by decide) (by decide) rfl (by decide)⟩

theorem orderedInsert_filter (t : Int) (a : Datapoint) (l : List Datapoint) :
    (l.orderedInsert (fun a b => a.Timestamp ≤ b.Timestamp) a).filter
        (fun p => decide (p.Timestamp = t)) =
      (a :: l).filter (fun p => decide (p.Timestamp = t)) := by
  induction l with
  | nil => rfl
  | cons b l ih =>
    rw [List.orderedInsert]
    split
    · rfl
    · rename_i hab
      have hlt : b.Timestamp < a.Timestamp := not_le.mp hab
      rw [List.filter_cons, ih]
      by_cases hat : a.Timestamp = t
      · have hbt : ¬ b.Timestamp = t := by omega
        simp [List.filter_cons, hat, hbt]
      · simp [List.filter_cons, hat]

theorem sortByTimestamp_stable (t : Int) (dps : List Datapoint) :
    (sortByTimestamp dps).filter (fun p => decide (p.Timestamp = t)) =
      dps.filter (fun p => decide (p.Timestamp = t)) := by
  induction dps with
  | nil => rfl
  | cons a l ih =>
    unfold sortByTimestamp at ih ⊢
    rw [List.insertionSort, orderedInsert_filter, List.filter_cons, List.filter_cons, ih]

theorem sorted_timestamps (l : List Datapoint)
    (h : l.Sorted (fun a b => a.Timestamp ≤ b.Timestamp)) :
    (l.map Datapoint.Timestamp).Sorted (fun a b => a ≤ b) := by
  unfold List.Sorted at h ⊢
  rw [List.pairwise_map]
  exact h

theorem sorted_strict (l : List Datapoint)
    (h : l.Sorted (fun a b => a.Timestamp ≤ b.Timestamp))
    (hn : (l.map Datapoint.Timestamp).Nodup) :
    l.Sorted (fun a b => a.Timestamp < b.Timestamp) := by
  unfold List.Sorted at h ⊢
  unfold List.Nodup at hn
  rw [List.pairwise_map] at hn
  exact (h.and hn).imp (fun hab => lt_of_le_of_ne hab.1 hab.2)

theorem contract_order (srt : List Datapoint → List Datapoint) (h : SortContract srt)
    (dps : List Datapoint) :
    (srt dps).map Datapoint.Timestamp = (sortByTimestamp dps).map Datapoint.Timestamp ∧
    ((dps.map Datapoint.Timestamp).Nodup → srt dps = sortByTimestamp dps) := by
  have hp : (srt dps).Perm (sortByTimestamp dps) :=
    (h dps).1.trans (sortByTimestamp_contract dps).1.symm
  have h1 := sorted_of_contract srt h dps
  have h2 := sorted_of_contract sortByTimestamp sortByTimestamp_contract dps
  constructor
  · exact List.eq_of_perm_of_sorted (hp.map _) (sorted_timestamps _ h1) (sorted_timestamps _ h2)
  · intro hn
    haveI : IsAntisymm Datapoint (fun a b => a.Timestamp < b.Timestamp) :=
      ⟨fun a b hab hba => absurd hab (not_lt.mpr (le_of_lt hba))⟩
    have n1 : ((srt dps).map Datapoint.Timestamp).Nodup :=
      (((h dps).1.map Datapoint.Timestamp).nodup_iff).mpr hn
    have n2 : ((sortByTimestamp dps).map Datapoint.Timestamp).Nodup :=
      (((sortByTimestamp_contract dps).1.map Datapoint.Timestamp).nodup_iff).mpr hn
    exact List.eq_of_perm_of_sorted hp (sorted_strict _ h1 n1) (sorted_strict _ h2 n2)

set_option maxRecDepth 100000 in
/-- C15 as stated fails.  With the library's `sort.Sort` (Go 1.19 and later) the
batch of thirteen samples `lateBatch`, whose third sample (value 6.23) and
seventh sample (value 6.24) share the timestamp 1456080180, is exported without
error with the row of the seventh sample before the row of the third; a stable
sort gives the other order.  With what `sort.Sort` of Go 1.6 to 1.18 runs on a
short slice, the batch of seven samples `shortBatch`, whose first two samples
(values 6.23 and 6.24) share the timestamp 1456080120, is exported with the row
of the second sample before the row of the first. -/
theorem writeCsv_sort_not_stable :
    (writeCsv (sortEnv sort.Sort) lateBatch "/tmp/gorp-123" ()).err = none ∧
    (writeCsv (sortEnv sort.Sort) lateBatch "/tmp/gorp-123" ()).records =
      [["date", "value"], ["1456080060", "6.39"], ["1456080120", "6.39"],
        ["1456080180", "6.24"], ["1456080180", "6.23"], ["1456080240", "6.39"],
        ["1456080300", "6.39"], ["1456080360", "6.39"], ["1456080420", "6.39"],
        ["1456080480", "6.39"], ["1456080540", "6.39"], ["1456080600", "6.39"],
        ["1456080660", "6.39"], ["1456080720", "6.39"]] ∧
    lateBatch.filter (fun p => decide (p.Timestamp = 1456080180)) =
      [⟨1456080180, f6_23⟩, ⟨1456080180, f6_24⟩] ∧
    (writeCsv (sortEnv sort.Sort) lateBatch "/tmp/gorp-123" ()).dps.filter
        (fun p => decide (p.Timestamp = 1456080180)) =
      [⟨1456080180, f6_24⟩, ⟨1456080180, f6_23⟩] ∧
    (sortByTimestamp lateBatch).filter (fun p => decide (p.Timestamp = 1456080180)) =
      [⟨1456080180, f6_23⟩, ⟨1456080180, f6_24⟩] ∧
    (writeCsv (sortEnv sort.SortShort) shortBatch "/tmp/gorp-123" ()).err = none ∧
    (writeCsv (sortEnv sort.SortShort) shortBatch "/tmp/gorp-123" ()).records =
      [["date", "value"], ["1456080060", "6.39"], ["1456080120", "6.24"],
        ["1456080120", "6.23"], ["1456080180", "6.39"], ["1456080240", "6.39"],
        ["1456080300", "6.39"], ["1456080360", "6.39"]] ∧
    shortBatch.filter (fun p => decide (p.Timestamp = 1456080120)) =
      [⟨1456080120, f6_23⟩, ⟨1456080120, f6_24⟩] ∧
    (writeCsv (sortEnv sort.SortShort) shortBatch "/tmp/gorp-123" ()).dps.filter
        (fun p => decide (p.Timestamp = 1456080120)) =
      [⟨1456080120, f6_24⟩, ⟨1456080120, f6_23⟩] := by
  decide!

/-- C15 (amended): the export sorts with `sort.Sort`, of which only the
documented contract is known, and that contract is silent on equal elements.
For every batch the samples that share a timestamp are all exported, the
exported timestamps are non-decreasing and are, position by position, the
timestamps a stable sort of the input by timestamp has; when the timestamps of
the input are pairwise distinct the exported order is exactly that of the stable
sort.  Here `sortByTimestamp` is a stable sort: it keeps the samples of every
one timestamp in their input order. -/
theorem writeCsv_order_up_to_ties {σ ω κ ρ : Type} (env : Env σ ω κ ρ)
    (hsort : SortContract env.sortSort) (dps : List Datapoint) (w : ω) (s : σ) :
    (∀ t, ((writeCsv env dps w s).dps.filter (fun p => decide (p.Timestamp = t))).Perm
      (dps.filter (fun p => decide (p.Timestamp = t)))) ∧
    (writeCsv env dps w s).dps.Sorted (fun a b => a.Timestamp ≤ b.Timestamp) ∧
    (writeCsv env dps w s).dps.map Datapoint.Timestamp =
      (sortByTimestamp dps).map Datapoint.Timestamp ∧
    ((dps.map Datapoint.Timestamp).Nodup → (writeCsv env dps w s).dps = sortByTimestamp dps) ∧
    (∀ t, (sortByTimestamp dps).filter (fun p => decide (p.Timestamp = t)) =
      dps.filter (fun p => decide (p.Timestamp = t))) := by
  rw [writeCsv_dps]
  exact ⟨fun t => (hsort dps).1.filter _, sorted_of_contract _ hsort dps,
    (contract_order _ hsort dps).1, (contract_order _ hsort dps).2,
    fun t => sortByTimestamp_stable t dps⟩

set_option maxRecDepth 100000 in
/-- C15 (amended) at the batch of `TestwriteCsv`, whose three timestamps are
distinct, in a world that sorts with the stable sort: the rows come out in the
order 1456080851, 1456080911, 1456080971. -/
theorem writeCsv_order_up_to_ties_witness :
    SortContract (sortEnv sortByTimestamp).sortSort ∧
    (testPoints.map Datapoint.Timestamp).Nodup ∧
    (writeCsv (sortEnv sortByTimestamp) testPoints "/tmp/gorp-123" ()).records =
      [["date", "value"], ["1456080851", "6.23"], ["1456080911", "6.24"],
        ["1456080971", "6.39"]] ∧
    ((∀ t, ((writeCsv (sortEnv sortByTimestamp) testPoints "/tmp/gorp-123" ()).dps.filter
        (fun p => decide (p.Timestamp = t))).Perm
      (testPoints.filter (fun p => decide (p.Timestamp = t)))) ∧
    (writeCsv (sortEnv sortByTimestamp) testPoints "/tmp/gorp-123" ()).dps.Sorted
      (fun a b => a.Timestamp ≤ b.Timestamp) ∧
    (writeCsv (sortEnv sortByTimestamp) testPoints "/tmp/gorp-123" ()).dps.map
        Datapoint.Timestamp =
      (sortByTimestamp testPoints).map Datapoint.Timestamp ∧
    ((testPoints.map Datapoint.Timestamp).Nodup →
      (writeCsv (sortEnv sortByTimestamp) testPoints "/tmp/gorp-123" ()).dps =
        sortByTimestamp testPoints) ∧
    (∀ t, (sortByTimestamp testPoints).filter (fun p => decide (p.Timestamp = t)) =
      testPoints.filter (fun p => decide (p.Timestamp = t)))) :=
  ⟨sortByTimestamp_contract, by decide, by decide!,
    writeCsv_order_up_to_ties (sortEnv sortByTimestamp) sortByTimestamp_contract testPoints
      "/tmp/gorp-123" ()⟩

end Gorp
